import Mathlib

/-!
# Ledger storage: the journal (`src/storage/impl/journal_db_impl.cc`)

A shallow embedding of `storage::JournalDBImpl`.  The journal object becomes a
record of its member variables; every method takes the journal and the world it
runs in and returns its result together with the updated journal and world.

The journal talks to three collaborators whose code is not part of the sources
at hand: the key-value layer `DB` (`db_`), the `PageStorageImpl`
(`page_storage_`) and `btree::ApplyChanges`.  They are taken as a parameter
(`Backend`): an arbitrary state type with one state transformer per member function
the journal calls.  Every call the journal makes is also recorded, in order, in
the `calls` trace of the world, so that statements such as
"`AddCommitFromLocal` is not called" can be expressed.

The methods that report through a callback (`GetCommit`, `ApplyChanges`,
`AddCommitFromLocal`, `Commit`) are embedded as functions returning the
arguments of the single callback invocation.

The snapshot of a page (`namespace ledger`) is known only through its
integration tests (`src/app/integration_tests/page_snapshot_tests.cc`); it is
modelled from the specification and checked against the expectations of the tests.
-/

namespace storage

/-! ## Data model -/

abbrev ObjectId := String
abbrev CommitId := String
abbrev JournalId := String
abbrev Key := String

/-- Modelled from the spec: the status codes (`storage::Status` is declared in a
header that is not part of the sources).  The journal itself only ever names
`OK` and `ILLEGAL_STATE`; every other value stands for a backend error. -/
inductive Status where
  | OK
  | NOT_FOUND
  | ILLEGAL_STATE
  | IO_ERROR
  | INTERNAL_ERROR
  | INTERRUPTED
  deriving DecidableEq, Repr

/-- Modelled from the spec: the journal type, IMPLICIT or EXPLICIT (the enum is
declared in a header that is not part of the sources; the source names
`JournalType::EXPLICIT` in `Merge` and in the guards). -/
inductive JournalType where
  | IMPLICIT
  | EXPLICIT
  deriving DecidableEq, Repr

/-- Modelled from the spec: the priority flag of a value, EAGER or LAZY. -/
inductive KeyPriority where
  | EAGER
  | LAZY
  deriving DecidableEq, Repr

/-- Modelled from the spec: an entry is (key, object id, priority). -/
structure Entry where
  key : Key
  object_id : ObjectId
  priority : KeyPriority
  deriving DecidableEq, Repr

/-- Modelled from the spec: a record of the change stream consumed by
`ApplyChanges`, either INSERT/UPDATE key → (ObjectId, priority) or DELETE key. -/
inductive EntryChange where
  | put (entry : Entry)
  | delete (key : Key)
  deriving DecidableEq, Repr

/-- Modelled from the spec: a commit is (commit id, root id, parents, timestamp,
generation).  The journal reads `GetRootId()` only. -/
structure Commit where
  id : CommitId
  root_id : ObjectId
  parent_ids : List CommitId
  timestamp : Nat
  generation : Nat
  deriving DecidableEq, Repr

/-- The member variables of `JournalDBImpl` that carry state (the pointers
`coroutine_service_`, `page_storage_` and `db_` are the world). -/
structure JournalDBImpl where
  type_ : JournalType
  id_ : JournalId
  base_ : CommitId
  other_ : Option CommitId
  valid_ : Bool
  failed_operation_ : Bool
  deriving DecidableEq, Repr

/-- Modelled from the spec: the three states of the journal state machine. -/
inductive JournalState where
  | OPEN
  | FAILED
  | CLOSED
  deriving DecidableEq, Repr

/-- The state of a journal as the guards of `Put`, `Delete`, `Commit` and
`Rollback` read it: CLOSED when `valid_` is false, FAILED when the journal is
EXPLICIT and `failed_operation_` is set, OPEN otherwise. -/
def JournalDBImpl.state (j : JournalDBImpl) : JournalState :=
  if !j.valid_ then JournalState.CLOSED
  else if j.type_ == JournalType.EXPLICIT && j.failed_operation_ then JournalState.FAILED
  else JournalState.OPEN

/-! ## The collaborators -/

/-- One record per call the journal makes on a collaborator, with its arguments. -/
inductive Call where
  | ObjectIsUntracked (object_id : ObjectId)
  | GetCommit (commit_id : CommitId)
  | AddCommitFromLocal (commit : Commit)
  | MarkObjectTracked (object_id : ObjectId)
  | ApplyChanges (root_id : ObjectId) (changes : List EntryChange)
  | GetJournalValue (id : JournalId) (key : Key)
  | GetJournalValueCounter (id : JournalId) (object_id : ObjectId)
  | SetJournalValueCounter (id : JournalId) (object_id : ObjectId) (counter : Int)
  | AddJournalEntry (id : JournalId) (key : Key) (object_id : ObjectId) (priority : KeyPriority)
  | RemoveJournalEntry (id : JournalId) (key : Key)
  | GetJournalValues (id : JournalId)
  | GetJournalEntries (id : JournalId)
  | MarkObjectIdUnsynced (object_id : ObjectId)
  | RemoveJournal (id : JournalId)
  | StartBatch
  | BatchExecute
  | BatchDestroy
  | DCheck (condition : Bool)
  deriving DecidableEq, Repr

/-- The member functions of `DB`, `DB::Batch`, `PageStorageImpl`, `CommitImpl` and
`btree` that the journal calls, over an arbitrary state `σ`.  An output
parameter of the C++ signature is part of the result here. -/
structure Backend (σ : Type) where
  ObjectIsUntracked : ObjectId → σ → Bool × σ
  GetCommit : CommitId → σ → (Status × Commit) × σ
  AddCommitFromLocal : Commit → σ → Status × σ
  MarkObjectTracked : ObjectId → σ → σ
  FromContentAndParents : ObjectId → List Commit → σ → Commit
  ApplyChanges : ObjectId → List EntryChange → σ → (Status × ObjectId × List ObjectId) × σ
  GetJournalValue : JournalId → Key → σ → (Status × ObjectId) × σ
  GetJournalValueCounter : JournalId → ObjectId → σ → (Status × Int) × σ
  SetJournalValueCounter : JournalId → ObjectId → Int → σ → Status × σ
  AddJournalEntry : JournalId → Key → ObjectId → KeyPriority → σ → Status × σ
  RemoveJournalEntry : JournalId → Key → σ → Status × σ
  GetJournalValues : JournalId → σ → (Status × List ObjectId) × σ
  GetJournalEntries : JournalId → σ → (Status × List EntryChange) × σ
  MarkObjectIdUnsynced : ObjectId → σ → Status × σ
  RemoveJournal : JournalId → σ → Status × σ
  StartBatch : σ → σ
  BatchExecute : σ → Status × σ
  BatchDestroy : σ → σ

/-- The world a journal runs in: the state of the collaborators and the trace of
the calls made on them so far, oldest first. -/
structure World (σ : Type) where
  calls : List Call
  st : σ

variable {σ : Type}

/-- A call that returns a value: run it on the state and record it. -/
def World.call {α : Type} (w : World σ) (c : Call) (f : σ → α × σ) : α × World σ :=
  ((f w.st).1, { calls := w.calls ++ [c], st := (f w.st).2 })

/-- A call that returns nothing: run it on the state and record it. -/
def World.run (w : World σ) (c : Call) (f : σ → σ) : World σ :=
  { calls := w.calls ++ [c], st := f w.st }

/-- The macro FTL_DCHECK: the condition is recorded; execution continues. -/
def FTL_DCHECK (condition : Bool) (w : World σ) : World σ :=
  w.run (Call.DCheck condition) id

namespace PageStorage

def ObjectIsUntracked (E : Backend σ) (object_id : ObjectId) (w : World σ) : Bool × World σ :=
  w.call (Call.ObjectIsUntracked object_id) (E.ObjectIsUntracked object_id)

def GetCommit (E : Backend σ) (commit_id : CommitId) (w : World σ) :
    (Status × Commit) × World σ :=
  w.call (Call.GetCommit commit_id) (E.GetCommit commit_id)

def AddCommitFromLocal (E : Backend σ) (commit : Commit) (w : World σ) : Status × World σ :=
  w.call (Call.AddCommitFromLocal commit) (E.AddCommitFromLocal commit)

def MarkObjectTracked (E : Backend σ) (object_id : ObjectId) (w : World σ) : World σ :=
  w.run (Call.MarkObjectTracked object_id) (E.MarkObjectTracked object_id)

end PageStorage

namespace btree

def ApplyChanges (E : Backend σ) (root_id : ObjectId) (changes : List EntryChange)
    (w : World σ) : (Status × ObjectId × List ObjectId) × World σ :=
  w.call (Call.ApplyChanges root_id changes) (E.ApplyChanges root_id changes)

end btree

namespace DB

def GetJournalValue (E : Backend σ) (id : JournalId) (key : Key) (w : World σ) :
    (Status × ObjectId) × World σ :=
  w.call (Call.GetJournalValue id key) (E.GetJournalValue id key)

def GetJournalValueCounter (E : Backend σ) (id : JournalId) (object_id : ObjectId)
    (w : World σ) : (Status × Int) × World σ :=
  w.call (Call.GetJournalValueCounter id object_id) (E.GetJournalValueCounter id object_id)

def SetJournalValueCounter (E : Backend σ) (id : JournalId) (object_id : ObjectId)
    (counter : Int) (w : World σ) : Status × World σ :=
  w.call (Call.SetJournalValueCounter id object_id counter)
    (E.SetJournalValueCounter id object_id counter)

def AddJournalEntry (E : Backend σ) (id : JournalId) (key : Key) (object_id : ObjectId)
    (priority : KeyPriority) (w : World σ) : Status × World σ :=
  w.call (Call.AddJournalEntry id key object_id priority)
    (E.AddJournalEntry id key object_id priority)

def RemoveJournalEntry (E : Backend σ) (id : JournalId) (key : Key) (w : World σ) :
    Status × World σ :=
  w.call (Call.RemoveJournalEntry id key) (E.RemoveJournalEntry id key)

def GetJournalValues (E : Backend σ) (id : JournalId) (w : World σ) :
    (Status × List ObjectId) × World σ :=
  w.call (Call.GetJournalValues id) (E.GetJournalValues id)

def GetJournalEntries (E : Backend σ) (id : JournalId) (w : World σ) :
    (Status × List EntryChange) × World σ :=
  w.call (Call.GetJournalEntries id) (E.GetJournalEntries id)

def MarkObjectIdUnsynced (E : Backend σ) (object_id : ObjectId) (w : World σ) :
    Status × World σ :=
  w.call (Call.MarkObjectIdUnsynced object_id) (E.MarkObjectIdUnsynced object_id)

def RemoveJournal (E : Backend σ) (id : JournalId) (w : World σ) : Status × World σ :=
  w.call (Call.RemoveJournal id) (E.RemoveJournal id)

def StartBatch (E : Backend σ) (w : World σ) : World σ :=
  w.run Call.StartBatch E.StartBatch

end DB

namespace Batch

def Execute (E : Backend σ) (w : World σ) : Status × World σ :=
  w.call Call.BatchExecute E.BatchExecute

/-- The destructor of the `std::unique_ptr<DB::Batch>` local, run when the
enclosing function returns. -/
def Destroy (E : Backend σ) (w : World σ) : World σ :=
  w.run Call.BatchDestroy E.BatchDestroy

end Batch

/-! ## The journal -/

namespace Waiter

/-- Modelled from the spec: the result handed over by
`callback::Waiter<Status, T>::Finalize` (the waiter's header is not part of the
sources).  "Resolve parents by looking up base (and other if present)": the
first status that is not OK is reported, with no results; otherwise OK with
every result, in the order the callbacks were created. -/
def Finalize {α : Type} : List (Status × α) → Status × List α
  | [] => (Status.OK, [])
  | (s, a) :: rest =>
    if s ≠ Status.OK then (s, [])
    else
      match Finalize rest with
      | (Status.OK, as) => (Status.OK, a :: as)
      | (s2, _) => (s2, [])

end Waiter

namespace JournalDBImpl

/-- The factory `JournalDBImpl::Simple`: the constructor sets `valid_(true)`,
`failed_operation_(false)` and leaves `other_` null. -/
def Simple (type : JournalType) (id : JournalId) (base : CommitId) : JournalDBImpl :=
  { type_ := type, id_ := id, base_ := base, other_ := none,
    valid_ := true, failed_operation_ := false }

/-- The factory `JournalDBImpl::Merge`: an EXPLICIT journal on `base` whose
`other_` is set. -/
def Merge (id : JournalId) (base : CommitId) (other : CommitId) : JournalDBImpl :=
  { type_ := JournalType.EXPLICIT, id_ := id, base_ := base, other_ := some other,
    valid_ := true, failed_operation_ := false }

def GetId (j : JournalDBImpl) : JournalId := j.id_

/-- The guard at the top of `Put`, `Delete` and `Commit`:
`!valid_ || (type_ == JournalType::EXPLICIT && failed_operation_)`. -/
def rejects (j : JournalDBImpl) : Bool :=
  !j.valid_ || (j.type_ == JournalType.EXPLICIT && j.failed_operation_)

/-- `JournalDBImpl::UpdateValueCounter`; `int64_t` arithmetic is read over the
integers. -/
def UpdateValueCounter (E : Backend σ) (j : JournalDBImpl) (object_id : ObjectId)
    (operation : Int → Int) (w : World σ) : Status × World σ :=
  match PageStorage.ObjectIsUntracked E object_id w with
  | (untracked, w) =>
    if !untracked then (Status.OK, w)
    else
      match DB.GetJournalValueCounter E j.id_ object_id w with
      | ((s, counter), w) =>
        if s ≠ Status.OK then (s, w)
        else
          let next_counter := operation counter
          let w := FTL_DCHECK (decide (next_counter ≥ 0)) w
          DB.SetJournalValueCounter E j.id_ object_id next_counter w

/-- `JournalDBImpl::Put`.  The statuses of the two `UpdateValueCounter` calls are
dropped, as in the source. -/
def Put (E : Backend σ) (j : JournalDBImpl) (key : Key) (object_id : ObjectId)
    (priority : KeyPriority) (w : World σ) : Status × JournalDBImpl × World σ :=
  if j.rejects then (Status.ILLEGAL_STATE, j, w)
  else
    match DB.GetJournalValue E j.id_ key w with
    | ((prev_entry_status, prev_id), w) =>
      let w := DB.StartBatch E w
      match DB.AddJournalEntry E j.id_ key object_id priority w with
      | (s, w) =>
        if s ≠ Status.OK then
          (s, { j with failed_operation_ := true }, Batch.Destroy E w)
        else
          let w :=
            if object_id ≠ prev_id then
              let w := (UpdateValueCounter E j object_id (fun counter => counter + 1) w).2
              if prev_entry_status = Status.OK then
                (UpdateValueCounter E j prev_id (fun counter => counter - 1) w).2
              else w
            else w
          match Batch.Execute E w with
          | (s, w) => (s, j, Batch.Destroy E w)

/-- `JournalDBImpl::Delete`. -/
def Delete (E : Backend σ) (j : JournalDBImpl) (key : Key) (w : World σ) :
    Status × JournalDBImpl × World σ :=
  if j.rejects then (Status.ILLEGAL_STATE, j, w)
  else
    match DB.GetJournalValue E j.id_ key w with
    | ((prev_entry_status, prev_id), w) =>
      let w := DB.StartBatch E w
      match DB.RemoveJournalEntry E j.id_ key w with
      | (s, w) =>
        if s ≠ Status.OK then
          (s, { j with failed_operation_ := true }, Batch.Destroy E w)
        else
          let w :=
            if prev_entry_status = Status.OK then
              (UpdateValueCounter E j prev_id (fun counter => counter - 1) w).2
            else w
          match Batch.Execute E w with
          | (s, w) => (s, j, Batch.Destroy E w)

/-- `JournalDBImpl::GetParents`: `GetCommit(base_)`, then `GetCommit(*other_)` when
`other_` is set, both collected by the waiter. -/
def GetParents (E : Backend σ) (j : JournalDBImpl) (w : World σ) :
    (Status × List Commit) × World σ :=
  match PageStorage.GetCommit E j.base_ w with
  | (r1, w) =>
    match j.other_ with
    | none => (Waiter.Finalize [r1], w)
    | some other =>
      match PageStorage.GetCommit E other w with
      | (r2, w) => (Waiter.Finalize [r1, r2], w)

/-- The two loops of `ClearCommittedJournal` that call `MarkObjectIdUnsynced` on
each element and return at the first status that is not OK. -/
def markUnsynced (E : Backend σ) : List ObjectId → World σ → Status × World σ
  | [], w => (Status.OK, w)
  | object_id :: rest, w =>
    match DB.MarkObjectIdUnsynced E object_id w with
    | (status, w) =>
      if status ≠ Status.OK then (status, w) else markUnsynced E rest w

/-- The last loop of `ClearCommittedJournal`: `MarkObjectTracked` on each
element. -/
def markTracked (E : Backend σ) : List ObjectId → World σ → World σ
  | [], w => w
  | object_id :: rest, w => markTracked E rest (PageStorage.MarkObjectTracked E object_id w)

/-- `JournalDBImpl::ClearCommittedJournal`.  The unordered set `new_nodes` is the
list of its elements in iteration order.  The status of the final
`RemoveJournal` is dropped, as in the source. -/
def ClearCommittedJournal (E : Backend σ) (j : JournalDBImpl) (new_nodes : List ObjectId)
    (w : World σ) : Status × World σ :=
  match DB.GetJournalValues E j.id_ w with
  | ((status, objects_to_sync), w) =>
    if status ≠ Status.OK then (status, w)
    else
      let w := DB.StartBatch E w
      match markUnsynced E new_nodes w with
      | (status, w) =>
        if status ≠ Status.OK then (status, Batch.Destroy E w)
        else
          match markUnsynced E objects_to_sync w with
          | (status, w) =>
            if status ≠ Status.OK then (status, Batch.Destroy E w)
            else
              match Batch.Execute E w with
              | (status, w) =>
                if status ≠ Status.OK then (status, Batch.Destroy E w)
                else
                  let w := markTracked E objects_to_sync w
                  let w := (DB.RemoveJournal E j.id_ w).2
                  (Status.OK, Batch.Destroy E w)

/-- `JournalDBImpl::Rollback`. -/
def Rollback (E : Backend σ) (j : JournalDBImpl) (w : World σ) :
    Status × JournalDBImpl × World σ :=
  if !j.valid_ then (Status.ILLEGAL_STATE, j, w)
  else
    match DB.RemoveJournal E j.id_ w with
    | (s, w) =>
      if s = Status.OK then (s, { j with valid_ := false }, w)
      else (s, j, w)

/-- `JournalDBImpl::Commit`; the result is the pair of arguments given to
`callback`, `none` for `nullptr`.  The branch for an empty `parents` is never
taken: `GetParents` reports OK only together with the commit of `base_`. -/
def Commit (E : Backend σ) (j : JournalDBImpl) (w : World σ) :
    (Status × Option Commit) × JournalDBImpl × World σ :=
  if j.rejects then ((Status.ILLEGAL_STATE, none), j, w)
  else
    match GetParents E j w with
    | ((status, parents), w) =>
      if status ≠ Status.OK then ((status, none), j, w)
      else
        match DB.GetJournalEntries E j.id_ w with
        | ((status, entries), w) =>
          if status ≠ Status.OK then ((status, none), j, w)
          else
            match parents with
            | [] => ((Status.INTERNAL_ERROR, none), j, w)
            | front :: _ =>
              match btree.ApplyChanges E front.root_id entries w with
              | ((status, object_id, new_nodes), w) =>
                if status ≠ Status.OK then ((status, none), j, w)
                else if parents.length = 1 ∧ front.root_id = object_id then
                  let w := FTL_DCHECK new_nodes.isEmpty w
                  match Rollback E j w with
                  | (s, j, w) => ((s, some front), j, w)
                else
                  let commit := E.FromContentAndParents object_id parents w.st
                  match PageStorage.AddCommitFromLocal E commit w with
                  | (status, w) =>
                    let j := { j with valid_ := false }
                    if status ≠ Status.OK then ((status, none), j, w)
                    else
                      match ClearCommittedJournal E j new_nodes w with
                      | (status, w) =>
                        if status ≠ Status.OK then ((status, none), j, w)
                        else ((Status.OK, some commit), j, w)

end JournalDBImpl

/-! ## A model of the collaborators

The statements about what the database and the page storage hold afterwards
need collaborators that store something.  `Model.backend` follows the spec's
description of the key-value layer, the object store, the commit graph and the
B-tree; any call that can report a status can be made to fail through the
`faults` script. -/

namespace Model

/-- Modelled from the spec: a staged journal entry under `J/<jid>/E/key`, either
(ObjectId, priority) or TOMBSTONE (`none`).  The `DB` implementation is not
part of the sources. -/
abbrev Staged := Option (ObjectId × KeyPriority)

/-- Modelled from the spec: the writes a `DB::Batch` groups "such that either all
or none become visible". -/
inductive Write where
  | JournalEntry (id : JournalId) (key : Key) (staged : Staged)
  | JournalValueCounter (id : JournalId) (object_id : ObjectId) (counter : Int)
  | Unsynced (object_id : ObjectId)
  | RemoveJournal (id : JournalId)
  deriving DecidableEq, Repr

/-- Modelled from the spec: the state of the key-value layer (journal entries
`J/<jid>/E/`, per-object counters `J/<jid>/V/`, sync status `S/`, the pending
batch), of the object store (untracked flags `U/`, B-tree nodes `O/`) and of
the commit graph (commits `C/`, heads `H/`), which are not part of the sources.
`faults` scripts the statuses of the coming fallible calls, one per call; OK or
an exhausted script lets the call through. -/
structure State where
  faults : List Status
  entries : JournalId → List (Key × Staged)
  counters : JournalId → List (ObjectId × Int)
  unsynced : List ObjectId
  batch : Option (List Write)
  untracked : List ObjectId
  nodes : List (ObjectId × List Entry)
  commits : List Commit
  heads : List CommitId

/-- Modelled from the spec: "underlying backend failures" are surfaced as a status;
this is the status scripted for the next fallible call. -/
def State.fault (s : State) : Status × State :=
  match s.faults with
  | [] => (Status.OK, s)
  | f :: rest => (f, { s with faults := rest })

/-- Modelled from the spec: "lexicographic ordering on raw bytes". -/
def keyLt (a b : Key) : Prop := a.data < b.data

instance (a b : Key) : Decidable (keyLt a b) := by unfold keyLt; infer_instance

/-- Modelled from the spec: put into "an ordered map from opaque byte keys", kept
ascending by key; an existing binding of the key is replaced. -/
def upsert {α : Type} (key : Key) (v : α) : List (Key × α) → List (Key × α)
  | [] => [(key, v)]
  | (k, x) :: rest =>
    if key = k then (key, v) :: rest
    else if keyLt key k then (key, v) :: (k, x) :: rest
    else (k, x) :: upsert key v rest

/-- Modelled from the spec: point get on the ordered map. -/
def find {α : Type} (key : Key) : List (Key × α) → Option α
  | [] => none
  | (k, x) :: rest => if key = k then some x else find key rest

/-- Modelled from the spec: the counter of an object, 0 when none is recorded. -/
def counterOf (object_id : ObjectId) (cs : List (ObjectId × Int)) : Int :=
  (find object_id cs).getD 0

/-- Modelled from the spec: the effect of one write on the stored state; removing a
journal "deletes all `J/<jid>/*` keys". -/
def State.apply (s : State) : Write → State
  | Write.JournalEntry id key staged =>
    { s with entries := Function.update s.entries id (upsert key staged (s.entries id)) }
  | Write.JournalValueCounter id object_id counter =>
    { s with counters := Function.update s.counters id (upsert object_id counter (s.counters id)) }
  | Write.Unsynced object_id =>
    { s with unsynced := if object_id ∈ s.unsynced then s.unsynced else s.unsynced ++ [object_id] }
  | Write.RemoveJournal id =>
    { s with entries := Function.update s.entries id [],
             counters := Function.update s.counters id [] }

/-- Modelled from the spec: a write goes to the pending batch when there is one, to
the store otherwise. -/
def State.write (s : State) (wr : Write) : State :=
  match s.batch with
  | some pending => { s with batch := some (pending ++ [wr]) }
  | none => s.apply wr

/-- Modelled from the spec: a fallible write returns the scripted status and takes
place when that is OK. -/
def State.tryWrite (s : State) (wr : Write) : Status × State :=
  match s.fault with
  | (f, s) => if f ≠ Status.OK then (f, s) else (Status.OK, s.write wr)

/-- Modelled from the spec: the change record streamed for a staged entry. -/
def toChange : Key × Staged → EntryChange
  | (key, some (object_id, priority)) =>
    EntryChange.put { key := key, object_id := object_id, priority := priority }
  | (key, none) => EntryChange.delete key

/-- The key a change record is about. -/
def changeKey : EntryChange → Key
  | EntryChange.put entry => entry.key
  | EntryChange.delete key => key

/-- The content of a B-tree as the ascending list of its entries. -/
abbrev Content := List (Key × ObjectId × KeyPriority)

/-- Modelled from the spec: the effect of one change record on the content of a
tree. -/
def applyChange (content : Content) : EntryChange → Content
  | EntryChange.put entry => upsert entry.key (entry.object_id, entry.priority) content
  | EntryChange.delete key => content.filter (fun e => e.1 ≠ key)

/-- Modelled from the spec: "a node's ObjectId is derived from its serialized
content"; the empty tree has the sentinel empty root.  The serialisation is
chosen for the readability of the scenarios; no statement relies on it being
injective. -/
def nodeId (content : Content) : ObjectId :=
  String.join (content.map (fun e =>
    e.1 ++ "=" ++ e.2.1 ++ (if e.2.2 = KeyPriority.EAGER then "!" else "?") ++ ";"))

/-- Modelled from the spec: the content of the tree stored under a root id, if the
id resolves in the object store. -/
def State.content (s : State) (root_id : ObjectId) : Option Content :=
  if root_id = "" then some []
  else (s.nodes.find? (fun n => n.1 = root_id)).map
    (fun n => n.2.map (fun e => (e.key, e.object_id, e.priority)))

/-- Modelled from the spec: `ApplyChanges(root_id, change_stream)` →
(new_root_id, set of new_node_ids), on trees of a single node.  "If the change
stream is semantically empty the returned root_id equals the input and
new_node_ids is empty."  A root that does not resolve is INTERNAL_ERROR. -/
def State.ApplyChanges (s : State) (root_id : ObjectId) (changes : List EntryChange) :
    (Status × ObjectId × List ObjectId) × State :=
  match s.fault with
  | (f, s) =>
    if f ≠ Status.OK then ((f, "", []), s)
    else
      match s.content root_id with
      | none => ((Status.INTERNAL_ERROR, "", []), s)
      | some content =>
        let next := changes.foldl applyChange content
        if next = content then ((Status.OK, root_id, []), s)
        else
          let id := nodeId next
          let node := (id, next.map (fun e =>
            ({ key := e.1, object_id := e.2.1, priority := e.2.2 } : Entry)))
          ((Status.OK, id, [id]), { s with nodes := s.nodes ++ [node] })

/-- The null commit handed back with a status that is not OK. -/
def nullCommit : Commit :=
  { id := "", root_id := "", parent_ids := [], timestamp := 0, generation := 0 }

/-- Modelled from the spec: `GetCommit(commit_id)`. -/
def State.GetCommit (s : State) (commit_id : CommitId) : (Status × Commit) × State :=
  match s.fault with
  | (f, s) =>
    if f ≠ Status.OK then ((f, nullCommit), s)
    else
      match s.commits.find? (fun c => c.id = commit_id) with
      | none => ((Status.NOT_FOUND, nullCommit), s)
      | some c => ((Status.OK, c), s)

/-- Modelled from the spec: AddCommit "inserts commit record and updates head set:
removes all parents from heads, adds commit_id, all in one batch". -/
def State.AddCommitFromLocal (s : State) (commit : Commit) : Status × State :=
  match s.fault with
  | (f, s) =>
    if f ≠ Status.OK then (f, s)
    else
      (Status.OK,
        { s with commits := s.commits ++ [commit],
                 heads := s.heads.filter (fun h => h ∉ commit.parent_ids) ++ [commit.id] })

/-- Modelled from the spec: a commit is (commit_id derived from content, root_id,
parents, timestamp, generation: max(parent.generation)+1).  The id is the
serialised root and parents; the timestamp is the latest of the parents. -/
def FromContentAndParents (object_id : ObjectId) (parents : List Commit) : Commit :=
  { id := String.join ("commit(" :: object_id :: parents.map (fun p => "," ++ p.id)) ++ ")",
    root_id := object_id,
    parent_ids := parents.map (fun p => p.id),
    timestamp := (parents.map (fun p => p.timestamp)).foldl max 0,
    generation := (parents.map (fun p => p.generation)).foldl max 0 + 1 }

/-- Modelled from the spec: the value staged under a key of a journal; a
tombstone or no entry is NOT_FOUND. -/
def State.GetJournalValue (s : State) (id : JournalId) (key : Key) :
    (Status × ObjectId) × State :=
  match s.fault with
  | (f, s) =>
    if f ≠ Status.OK then ((f, ""), s)
    else
      match find key (s.entries id) with
      | some (some (object_id, _)) => ((Status.OK, object_id), s)
      | _ => ((Status.NOT_FOUND, ""), s)

/-- Modelled from the spec: the counter recorded for an object of a journal. -/
def State.GetJournalValueCounter (s : State) (id : JournalId) (object_id : ObjectId) :
    (Status × Int) × State :=
  match s.fault with
  | (f, s) =>
    if f ≠ Status.OK then ((f, 0), s)
    else ((Status.OK, counterOf object_id (s.counters id)), s)

/-- Modelled from the spec: the objects of a journal "with counter > 0". -/
def State.GetJournalValues (s : State) (id : JournalId) : (Status × List ObjectId) × State :=
  match s.fault with
  | (f, s) =>
    if f ≠ Status.OK then ((f, []), s)
    else ((Status.OK, ((s.counters id).filter (fun c => c.2 > 0)).map (fun c => c.1)), s)

/-- Modelled from the spec: the staged entries of a journal "in key order". -/
def State.GetJournalEntries (s : State) (id : JournalId) :
    (Status × List EntryChange) × State :=
  match s.fault with
  | (f, s) =>
    if f ≠ Status.OK then ((f, []), s)
    else ((Status.OK, (s.entries id).map toChange), s)

/-- Modelled from the spec: executing the batch makes all of its writes visible,
or none when it fails. -/
def State.BatchExecute (s : State) : Status × State :=
  match s.fault with
  | (f, s) =>
    if f ≠ Status.OK then (f, s)
    else
      match s.batch with
      | none => (Status.OK, s)
      | some pending => (Status.OK, pending.foldl State.apply { s with batch := none })

/-- Modelled from the spec: the collaborators of the journal (`DB`, `DB::Batch`,
`PageStorageImpl`, `CommitImpl`, `btree::ApplyChanges`, none of them part of
the sources) as the spec describes them. -/
def backend : Backend State where
  ObjectIsUntracked := fun object_id s => (decide (object_id ∈ s.untracked), s)
  GetCommit := fun commit_id s => s.GetCommit commit_id
  AddCommitFromLocal := fun commit s => s.AddCommitFromLocal commit
  MarkObjectTracked := fun object_id s =>
    { s with untracked := s.untracked.filter (fun o => o ≠ object_id) }
  FromContentAndParents := fun object_id parents _ => FromContentAndParents object_id parents
  ApplyChanges := fun root_id changes s => s.ApplyChanges root_id changes
  GetJournalValue := fun id key s => s.GetJournalValue id key
  GetJournalValueCounter := fun id object_id s => s.GetJournalValueCounter id object_id
  SetJournalValueCounter := fun id object_id counter s =>
    s.tryWrite (Write.JournalValueCounter id object_id counter)
  AddJournalEntry := fun id key object_id priority s =>
    s.tryWrite (Write.JournalEntry id key (some (object_id, priority)))
  RemoveJournalEntry := fun id key s => s.tryWrite (Write.JournalEntry id key none)
  GetJournalValues := fun id s => s.GetJournalValues id
  GetJournalEntries := fun id s => s.GetJournalEntries id
  MarkObjectIdUnsynced := fun object_id s => s.tryWrite (Write.Unsynced object_id)
  RemoveJournal := fun id s => s.tryWrite (Write.RemoveJournal id)
  StartBatch := fun s => { s with batch := some [] }
  BatchExecute := fun s => s.BatchExecute
  BatchDestroy := fun s => { s with batch := none }

/-- The genesis commit: the empty page, with the sentinel empty root. -/
def genesis : Commit :=
  { id := "genesis", root_id := "", parent_ids := [], timestamp := 0, generation := 0 }

/-- The empty page: only the genesis commit, nothing staged, no pending batch. -/
def emptyState (faults : List Status) : State :=
  { faults := faults, entries := fun _ => [], counters := fun _ => [], unsynced := [],
    batch := none, untracked := [], nodes := [], commits := [genesis], heads := ["genesis"] }

/-- The world of the empty page before any call. -/
def emptyWorld (faults : List Status) : World State :=
  { calls := [], st := emptyState faults }

end Model

/-! ## Runs and traces -/

/-- The calls made between the world `w` and the later world `w2`. -/
def World.since (w2 w : World σ) : List Call := w2.calls.drop w.calls.length

/-- A staged operation of a client: `Put` or `Delete`. -/
inductive Op where
  | Put (key : Key) (object_id : ObjectId) (priority : KeyPriority)
  | Delete (key : Key)
  deriving DecidableEq, Repr

/-- The key an operation is about. -/
def Op.key : Op → Key
  | Op.Put key _ _ => key
  | Op.Delete key => key

/-- What an operation stages for its key. -/
def Op.staged : Op → Model.Staged
  | Op.Put _ object_id priority => some (object_id, priority)
  | Op.Delete _ => none

/-- Run one operation on a journal. -/
def JournalDBImpl.step (E : Backend σ) (j : JournalDBImpl) (op : Op) (w : World σ) :
    Status × JournalDBImpl × World σ :=
  match op with
  | Op.Put key object_id priority => j.Put E key object_id priority w
  | Op.Delete key => j.Delete E key w

/-- Run a sequence of operations on a journal, one after the other; the result is
the list of their statuses with the journal and the world at the end. -/
def JournalDBImpl.steps (E : Backend σ) (j : JournalDBImpl) :
    List Op → World σ → List Status × JournalDBImpl × World σ
  | [], w => ([], j, w)
  | op :: ops, w =>
    match j.step E op w with
    | (s, j1, w1) =>
      match JournalDBImpl.steps E j1 ops w1 with
      | (ss, j2, w2) => (s :: ss, j2, w2)

/-- The calls `Commit` makes before it decides between the no-op return and a new
commit: looking up the parents, reading the entries, applying the changes. -/
def Call.isPrepare : Call → Bool
  | Call.GetCommit _ => true
  | Call.GetJournalEntries _ => true
  | Call.ApplyChanges _ _ => true
  | _ => false

/-- The calls that add a commit to the page storage. -/
def Call.isAddCommit : Call → Bool
  | Call.AddCommitFromLocal _ => true
  | _ => false

/-- The (root id, changes) pairs handed to `ApplyChanges` in a trace, in order. -/
def handed : List Call → List (ObjectId × List EntryChange)
  | [] => []
  | Call.ApplyChanges root_id changes :: rest => (root_id, changes) :: handed rest
  | _ :: rest => handed rest

/-- The last operation on a key in a sequence of operations, if there is one. -/
def lastOp (key : Key) (ops : List Op) : Option Op :=
  ops.foldl (fun acc op => if op.key = key then some op else acc) none

namespace JournalDBImpl

/-- The world after the counter updates of `Put`. -/
def putCounters (E : Backend σ) (j : JournalDBImpl) (object_id prev_id : ObjectId)
    (prev_entry_status : Status) (w : World σ) : World σ :=
  if object_id ≠ prev_id then
    if prev_entry_status = Status.OK then
      (UpdateValueCounter E j prev_id (fun counter => counter - 1)
        (UpdateValueCounter E j object_id (fun counter => counter + 1) w).2).2
    else (UpdateValueCounter E j object_id (fun counter => counter + 1) w).2
  else w

/-- The world after the counter update of `Delete`. -/
def deleteCounters (E : Backend σ) (j : JournalDBImpl) (prev_id : ObjectId)
    (prev_entry_status : Status) (w : World σ) : World σ :=
  if prev_entry_status = Status.OK then
    (UpdateValueCounter E j prev_id (fun counter => counter - 1) w).2
  else w

/-- The journal once `Commit` has called `AddCommitFromLocal`: `valid_ = false`. -/
def closed (j : JournalDBImpl) : JournalDBImpl := { j with valid_ := false }

end JournalDBImpl

namespace Model

/-- The writes that set a per-object counter. -/
def Write.isCounter : Write → Bool
  | Write.JournalValueCounter _ _ _ => true
  | _ => false

/-- An ordered map is ascending by key, strictly. -/
def Ascending {α : Type} (m : List (Key × α)) : Prop :=
  m.Pairwise (fun a b => keyLt a.1 b.1)

instance {α : Type} (m : List (Key × α)) : Decidable (Ascending m) := by
  unfold Ascending; infer_instance

/-- The staged entries after one more operation. -/
def stage (m : List (Key × Staged)) (op : Op) : List (Key × Staged) :=
  upsert op.key op.staged m

end Model

/-! ### The clearing of a committed journal, and the per-object counters -/

/-- The calls `ClearCommittedJournal` makes. -/
def Call.isClear : Call → Bool
  | Call.GetJournalValues _ => true
  | Call.StartBatch => true
  | Call.MarkObjectIdUnsynced _ => true
  | Call.BatchExecute => true
  | Call.MarkObjectTracked _ => true
  | Call.RemoveJournal _ => true
  | Call.BatchDestroy => true
  | _ => false

/-- The conditions of the `FTL_DCHECK` calls in a trace, in order. -/
def dchecks : List Call → List Bool
  | [] => []
  | Call.DCheck condition :: rest => condition :: dchecks rest
  | _ :: rest => dchecks rest

namespace JournalDBImpl

/-- The part of `Commit` from the call of `AddCommitFromLocal` on: the journal is
closed, and the committed journal is cleared when the commit was added. -/
def commitNew (E : Backend σ) (j : JournalDBImpl) (commit : storage.Commit)
    (new_nodes : List ObjectId) (wa : World σ) :
    (Status × Option storage.Commit) × JournalDBImpl × World σ :=
  if (PageStorage.AddCommitFromLocal E commit wa).1 ≠ Status.OK then
    (((PageStorage.AddCommitFromLocal E commit wa).1, none), j.closed,
      (PageStorage.AddCommitFromLocal E commit wa).2)
  else if (j.closed.ClearCommittedJournal E new_nodes
      (PageStorage.AddCommitFromLocal E commit wa).2).1 ≠ Status.OK then
    (((j.closed.ClearCommittedJournal E new_nodes
        (PageStorage.AddCommitFromLocal E commit wa).2).1, none), j.closed,
      (j.closed.ClearCommittedJournal E new_nodes
        (PageStorage.AddCommitFromLocal E commit wa).2).2)
  else
    ((Status.OK, some commit), j.closed,
      (j.closed.ClearCommittedJournal E new_nodes
        (PageStorage.AddCommitFromLocal E commit wa).2).2)

end JournalDBImpl

namespace Model

/-- The object staged under a key, if a value (not a tombstone) is staged there. -/
def stagedObject (m : List (Key × Staged)) (key : Key) : Option ObjectId :=
  match find key m with
  | some (some (object_id, _)) => some object_id
  | _ => none

/-- The counter update of `UpdateValueCounter` for an object: none for a tracked
object, the counter given by `operation` for an untracked one. -/
def counterUpdate (s : State) (id : JournalId) (object_id : ObjectId) (operation : Int → Int) :
    List (ObjectId × Int) :=
  if object_id ∈ s.untracked then
    [(object_id, operation (counterOf object_id (s.counters id)))]
  else []

/-- The counter updates of a `Put` of `object_id` under `key`. -/
def putUpdates (s : State) (id : JournalId) (key : Key) (object_id : ObjectId) :
    List (ObjectId × Int) :=
  match stagedObject (s.entries id) key with
  | some prev_id =>
    if object_id ≠ prev_id then
      counterUpdate s id object_id (fun counter => counter + 1) ++
        counterUpdate s id prev_id (fun counter => counter - 1)
    else []
  | none =>
    if object_id ≠ "" then counterUpdate s id object_id (fun counter => counter + 1) else []

/-- The counter updates of a `Delete` of `key`. -/
def deleteUpdates (s : State) (id : JournalId) (key : Key) : List (ObjectId × Int) :=
  match stagedObject (s.entries id) key with
  | some prev_id => counterUpdate s id prev_id (fun counter => counter - 1)
  | none => []

/-- The state after a batch made of a journal entry and counter updates has been
executed and destroyed. -/
def afterBatch (s : State) (id : JournalId) (key : Key) (staged : Staged)
    (updates : List (ObjectId × Int)) : State :=
  { ((Write.JournalEntry id key staged ::
        updates.map (fun u => Write.JournalValueCounter id u.1 u.2)).foldl State.apply
      { s with batch := none }) with batch := none }

/-- The status and output of `GetJournalValue` when no call fails. -/
def prevOf (m : List (Key × Staged)) (key : Key) : Status × ObjectId :=
  match stagedObject m key with
  | some prev_id => (Status.OK, prev_id)
  | none => (Status.NOT_FOUND, "")

/-- The number of keys of a journal whose staged value is the object. -/
def holders (object_id : ObjectId) (m : List (Key × Staged)) : Nat :=
  m.countP (fun e => decide (e.2.map Prod.fst = some object_id))

/-- The counters of a journal once a list of counter updates is stored. -/
def updated (updates : List (ObjectId × Int)) (cs : List (ObjectId × Int)) :
    List (ObjectId × Int) :=
  updates.foldl (fun cs u => upsert u.1 u.2 cs) cs

/-- The counter updates of an operation. -/
def opUpdates (s : State) (id : JournalId) : Op → List (ObjectId × Int)
  | Op.Put key object_id _ => putUpdates s id key object_id
  | Op.Delete key => deleteUpdates s id key

/-- The counters of a journal agree with its staged entries: the counter of an
untracked object is the number of keys whose staged value is the object, and
no counter is recorded for a tracked object. -/
def Counted (s : State) (id : JournalId) : Prop :=
  ∀ o, counterOf o (s.counters id) =
    if o ∈ s.untracked then (holders o (s.entries id) : Int) else 0

end Model

/-! ### Scenarios on the model

Journals and worlds reached by running the code on the empty page; they are the
concrete inputs of the examples below. -/

namespace Scenario

open Model

/-- An EXPLICIT journal after one `Put` that went through and one `Put` whose
`AddJournalEntry` failed. -/
def afterFailedPut : List Status × JournalDBImpl × World State :=
  (JournalDBImpl.Simple JournalType.EXPLICIT "j" "genesis").steps backend
    [Op.Put "a" "1" KeyPriority.EAGER, Op.Put "b" "2" KeyPriority.LAZY]
    (emptyWorld [Status.OK, Status.OK, Status.OK, Status.OK, Status.IO_ERROR])

/-- An IMPLICIT journal with one staged `Put`, on the empty page. -/
def afterPut (faults : List Status) : List Status × JournalDBImpl × World State :=
  (JournalDBImpl.Simple JournalType.IMPLICIT "j" "genesis").steps backend
    [Op.Put "name" "Alice" KeyPriority.EAGER]
    (emptyWorld (Status.OK :: Status.OK :: Status.OK :: faults))

/-- An EXPLICIT journal after a `Put` whose batch failed to execute. -/
def afterFailedBatch : Status × JournalDBImpl × World State :=
  (JournalDBImpl.Simple JournalType.EXPLICIT "j" "genesis").Put backend "a" "1"
    KeyPriority.EAGER (emptyWorld [Status.OK, Status.OK, Status.IO_ERROR])

/-- An IMPLICIT journal after a `Put` whose `AddJournalEntry` failed and a `Put`
that went through. -/
def afterFailedThenPut : List Status × JournalDBImpl × World State :=
  (JournalDBImpl.Simple JournalType.IMPLICIT "j" "genesis").steps backend
    [Op.Put "a" "1" KeyPriority.EAGER, Op.Put "b" "2" KeyPriority.LAZY]
    (emptyWorld [Status.OK, Status.IO_ERROR])

/-- The empty page with the object "Alice" untracked. -/
def untrackedWorld (faults : List Status) : World State :=
  { calls := [], st := { emptyState faults with untracked := ["Alice"] } }

/-- The same world with a new script of faults. -/
def withFaults (w : World State) (faults : List Status) : World State :=
  { w with st := { w.st with faults := faults } }

/-- An IMPLICIT journal with one staged `Put` of the untracked object. -/
def stagedUntracked : Status × JournalDBImpl × World State :=
  (JournalDBImpl.Simple JournalType.IMPLICIT "j" "genesis").Put backend "name" "Alice"
    KeyPriority.EAGER (untrackedWorld [])

/-- The `Commit` of that journal in which the batch of `ClearCommittedJournal` fails to
execute (the eighth fallible call of the commit). -/
def commitWithFailedClear : (Status × Option Commit) × JournalDBImpl × World State :=
  stagedUntracked.2.1.Commit backend
    (withFaults stagedUntracked.2.2
      [Status.OK, Status.OK, Status.OK, Status.OK, Status.OK, Status.OK, Status.OK,
        Status.IO_ERROR])

/-- A first journal on the empty page, with "name" put to "Alice", and its
`Commit`. -/
def committedA : (Status × Option Commit) × JournalDBImpl × World State :=
  ((JournalDBImpl.Simple JournalType.IMPLICIT "ja" "genesis").Put backend "name" "Alice"
      KeyPriority.EAGER (emptyWorld [])).2.1.Commit backend
    ((JournalDBImpl.Simple JournalType.IMPLICIT "ja" "genesis").Put backend "name" "Alice"
      KeyPriority.EAGER (emptyWorld [])).2.2

/-- A second journal on the genesis commit, with "name" put to "Bob", and its
`Commit`: the page now has two heads. -/
def committedB : (Status × Option Commit) × JournalDBImpl × World State :=
  ((JournalDBImpl.Simple JournalType.IMPLICIT "jb" "genesis").Put backend "name" "Bob"
      KeyPriority.EAGER committedA.2.2).2.1.Commit backend
    ((JournalDBImpl.Simple JournalType.IMPLICIT "jb" "genesis").Put backend "name" "Bob"
      KeyPriority.EAGER committedA.2.2).2.2

/-- The id of the first head. -/
def headA : CommitId := (FromContentAndParents "name=Alice!;" [genesis]).id

/-- The id of the second head. -/
def headB : CommitId := (FromContentAndParents "name=Bob!;" [genesis]).id

/-- The merge journal of the two heads. -/
def mergeJournal : JournalDBImpl := JournalDBImpl.Merge "jm" headA headB

/-- A `Put` of the untracked object on a fresh journal in which reading the counter of
the object fails (the third fallible call of the `Put`). -/
def putWithFailedCounter : Status × JournalDBImpl × World State :=
  (JournalDBImpl.Simple JournalType.IMPLICIT "j" "genesis").Put backend "name" "Alice"
    KeyPriority.EAGER (untrackedWorld [Status.OK, Status.OK, Status.IO_ERROR])

/-- A `Delete` of the key under which the untracked object is staged, in which reading
the counter of the object fails (the third fallible call of the `Delete`). -/
def deleteWithFailedCounter : Status × JournalDBImpl × World State :=
  stagedUntracked.2.1.Delete backend "name"
    (withFaults stagedUntracked.2.2 [Status.OK, Status.OK, Status.IO_ERROR])

/-- A `Put` of the untracked object and a `Delete` of its key on a fresh journal; reading
the counter fails in the `Put`, no call fails in the `Delete`. -/
def putThenDelete : List Status × JournalDBImpl × World State :=
  (JournalDBImpl.Simple JournalType.IMPLICIT "j" "genesis").steps backend
    [Op.Put "name" "Alice" KeyPriority.EAGER, Op.Delete "name"]
    (untrackedWorld [Status.OK, Status.OK, Status.IO_ERROR])

/-- The `Commit` of the journal with the untracked object staged, in which no call
fails. -/
def commitUntracked : (Status × Option Commit) × JournalDBImpl × World State :=
  stagedUntracked.2.1.Commit backend stagedUntracked.2.2

/-- The `Commit` that follows the `Put` in which reading the counter failed; no call
fails in it. -/
def commitAfterFailedCounter : (Status × Option Commit) × JournalDBImpl × World State :=
  putWithFailedCounter.2.1.Commit backend putWithFailedCounter.2.2

/-- The merge journal of the two heads with "name" put to "Bob". -/
def mergeStaged : List Status × JournalDBImpl × World State :=
  (JournalDBImpl.Merge "jm" headA headB).steps backend
    [Op.Put "name" "Bob" KeyPriority.EAGER] committedB.2.2

/-- An EXPLICIT journal after one `Put` that went through and one `Put` whose batch
failed to execute (the sixth fallible call of the run). -/
def afterFailedExecute : List Status × JournalDBImpl × World State :=
  (JournalDBImpl.Simple JournalType.EXPLICIT "j" "genesis").steps backend
    [Op.Put "a" "1" KeyPriority.EAGER, Op.Put "b" "2" KeyPriority.LAZY]
    (emptyWorld [Status.OK, Status.OK, Status.OK, Status.OK, Status.OK, Status.IO_ERROR])

/-- An EXPLICIT journal after one `Put` that went through and a `Delete` whose batch
failed to execute (the sixth fallible call of the run). -/
def afterFailedDelete : List Status × JournalDBImpl × World State :=
  (JournalDBImpl.Simple JournalType.EXPLICIT "j" "genesis").steps backend
    [Op.Put "a" "1" KeyPriority.EAGER, Op.Delete "a"]
    (emptyWorld [Status.OK, Status.OK, Status.OK, Status.OK, Status.OK, Status.IO_ERROR])

/-- The `Commit` of the journal with the untracked object staged in which the final
`RemoveJournal` fails (the ninth fallible call of the commit). -/
def commitWithFailedRemove : (Status × Option Commit) × JournalDBImpl × World State :=
  stagedUntracked.2.1.Commit backend
    (withFaults stagedUntracked.2.2
      [Status.OK, Status.OK, Status.OK, Status.OK, Status.OK, Status.OK, Status.OK,
        Status.OK, Status.IO_ERROR])

end Scenario

end storage

/-! ## The snapshot of a page

The client interface of a page snapshot (`GetPartial`, `GetKeys`, `GetEntries`) is
exercised by the integration tests `page_snapshot_tests.cc`; its implementation is not
part of the sources at hand and is modelled from the specification. -/

namespace ledger

open storage (Key)
open storage.Model (upsert find keyLt Ascending)

/-- Modelled from the spec: the "status codes at the boundary"; the client interface
is not part of the sources. -/
inductive Status where
  | OK
  | KEY_NOT_FOUND
  | ILLEGAL_STATE
  | IO_ERROR
  | INTERNAL_ERROR
  | INTERRUPTED
  deriving DecidableEq, Repr

/-- Modelled from the spec: a byte value, written as the string of its bytes. -/
abbrev Value := String

/-- Modelled from the spec: a snapshot, "a read-only, pinned view of a commit", as the
content of the page at that commit: "an independently versioned ordered map from
byte keys to byte values".  The snapshot implementation is not part of the sources;
only its integration tests are. -/
abbrev PageSnapshot := List (Key × Value)

/-- Modelled from the spec: the snapshot of a page after a sequence of `Put(key,
value)` on the empty page, as in the integration tests (`page->Put`, then
`PageGetSnapshot`). -/
def PageGetSnapshot (puts : List (Key × Value)) : PageSnapshot :=
  puts.foldl (fun page p => upsert p.1 p.2 page) []

/-- Modelled from the spec: `GetPartial(key, offset, max_size)`: "offset may be
negative (interpreted from end of value); max_size = −1 means "to end"; any offset
past the value yields empty result, never an error"; "missing keys in Get map to
KEY_NOT_FOUND". -/
def GetPartial (snapshot : PageSnapshot) (key : Key) (offset max_size : Int) :
    Status × Value :=
  match find key snapshot with
  | none => (Status.KEY_NOT_FOUND, "")
  | some value =>
    let start : Int := if offset < 0 then value.length + offset else offset
    let rest := value.data.drop start.toNat
    (Status.OK, String.mk (if max_size = -1 then rest else rest.take max_size.toNat))

/-- Modelled from the spec: `GetEntries(prefix)`, the entries of the snapshot whose
key starts with the prefix, in the order of the map; the continuation token of
a partial result is left out. -/
def GetEntries (snapshot : PageSnapshot) (pfx : Key) : List (Key × Value) :=
  snapshot.filter (fun e => pfx.data.isPrefixOf e.1.data)

/-- Modelled from the spec: `GetKeys(prefix)`: "returns keys strictly ascending and
exactly the set {k in snapshot : k starts with prefix}". -/
def GetKeys (snapshot : PageSnapshot) (pfx : Key) : List Key :=
  (snapshot.filter (fun e => pfx.data.isPrefixOf e.1.data)).map Prod.fst

end ledger

namespace storage

variable {σ : Type}

/-! ## Theorems -/

namespace JournalDBImpl

/-! ### The guards -/

theorem rejects_of_failed {j : JournalDBImpl} (htype : j.type_ = JournalType.EXPLICIT)
    (hfailed : j.failed_operation_ = true) : j.rejects = true := by
  simp [rejects, htype, hfailed]

theorem rejects_of_closed {j : JournalDBImpl} (hclosed : j.valid_ = false) :
    j.rejects = true := by
  simp [rejects, hclosed]

theorem rejects_implicit {j : JournalDBImpl} (htype : j.type_ = JournalType.IMPLICIT) :
    j.rejects = !j.valid_ := by
  simp [rejects, htype]

theorem Put_rejected (E : Backend σ) {j : JournalDBImpl} (h : j.rejects = true) (key : Key)
    (object_id : ObjectId) (priority : KeyPriority) (w : World σ) :
    j.Put E key object_id priority w = (Status.ILLEGAL_STATE, j, w) := by
  simp [Put, h]

theorem Delete_rejected (E : Backend σ) {j : JournalDBImpl} (h : j.rejects = true) (key : Key)
    (w : World σ) : j.Delete E key w = (Status.ILLEGAL_STATE, j, w) := by
  simp [Delete, h]

theorem Commit_rejected (E : Backend σ) {j : JournalDBImpl} (h : j.rejects = true)
    (w : World σ) : j.Commit E w = ((Status.ILLEGAL_STATE, none), j, w) := by
  simp [Commit, h]

theorem Rollback_closed (E : Backend σ) {j : JournalDBImpl} (h : j.valid_ = false)
    (w : World σ) : j.Rollback E w = (Status.ILLEGAL_STATE, j, w) := by
  simp [Rollback, h]

/-- What `Rollback` does on a journal whose `valid_` is set. -/
theorem Rollback_valid (E : Backend σ) {j : JournalDBImpl} (h : j.valid_ = true) (w : World σ) :
    j.Rollback E w =
      ((DB.RemoveJournal E j.id_ w).1,
        (if (DB.RemoveJournal E j.id_ w).1 = Status.OK then { j with valid_ := false } else j),
        (DB.RemoveJournal E j.id_ w).2) := by
  simp only [Rollback, h]
  by_cases hs : (DB.RemoveJournal E j.id_ w).1 = Status.OK <;> simp [hs]

/-! ### Traces only grow -/

theorem call_calls {α : Type} (w : World σ) (c : Call) (f : σ → α × σ) :
    (w.call c f).2.calls = w.calls ++ [c] := rfl

theorem run_calls (w : World σ) (c : Call) (f : σ → σ) :
    (w.run c f).calls = w.calls ++ [c] := rfl

theorem since_append (w2 w : World σ) (cs : List Call) (h : w2.calls = w.calls ++ cs) :
    w2.since w = cs := by
  simp [World.since, h]

@[simp] theorem ObjectIsUntracked_calls (E : Backend σ) (o : ObjectId) (w : World σ) :
    (PageStorage.ObjectIsUntracked E o w).2.calls = w.calls ++ [Call.ObjectIsUntracked o] := rfl

@[simp] theorem GetCommit_calls (E : Backend σ) (c : CommitId) (w : World σ) :
    (PageStorage.GetCommit E c w).2.calls = w.calls ++ [Call.GetCommit c] := rfl

@[simp] theorem AddCommitFromLocal_calls (E : Backend σ) (c : storage.Commit) (w : World σ) :
    (PageStorage.AddCommitFromLocal E c w).2.calls = w.calls ++ [Call.AddCommitFromLocal c] := rfl

@[simp] theorem MarkObjectTracked_calls (E : Backend σ) (o : ObjectId) (w : World σ) :
    (PageStorage.MarkObjectTracked E o w).calls = w.calls ++ [Call.MarkObjectTracked o] := rfl

@[simp] theorem ApplyChanges_calls (E : Backend σ) (r : ObjectId) (cs : List EntryChange)
    (w : World σ) :
    (btree.ApplyChanges E r cs w).2.calls = w.calls ++ [Call.ApplyChanges r cs] := rfl

@[simp] theorem GetJournalValue_calls (E : Backend σ) (id : JournalId) (k : Key) (w : World σ) :
    (DB.GetJournalValue E id k w).2.calls = w.calls ++ [Call.GetJournalValue id k] := rfl

@[simp] theorem GetJournalValueCounter_calls (E : Backend σ) (id : JournalId) (o : ObjectId)
    (w : World σ) :
    (DB.GetJournalValueCounter E id o w).2.calls =
      w.calls ++ [Call.GetJournalValueCounter id o] := rfl

@[simp] theorem SetJournalValueCounter_calls (E : Backend σ) (id : JournalId) (o : ObjectId)
    (n : Int) (w : World σ) :
    (DB.SetJournalValueCounter E id o n w).2.calls =
      w.calls ++ [Call.SetJournalValueCounter id o n] := rfl

@[simp] theorem AddJournalEntry_calls (E : Backend σ) (id : JournalId) (k : Key) (o : ObjectId)
    (p : KeyPriority) (w : World σ) :
    (DB.AddJournalEntry E id k o p w).2.calls = w.calls ++ [Call.AddJournalEntry id k o p] := rfl

@[simp] theorem RemoveJournalEntry_calls (E : Backend σ) (id : JournalId) (k : Key)
    (w : World σ) :
    (DB.RemoveJournalEntry E id k w).2.calls = w.calls ++ [Call.RemoveJournalEntry id k] := rfl

@[simp] theorem GetJournalValues_calls (E : Backend σ) (id : JournalId) (w : World σ) :
    (DB.GetJournalValues E id w).2.calls = w.calls ++ [Call.GetJournalValues id] := rfl

@[simp] theorem GetJournalEntries_calls (E : Backend σ) (id : JournalId) (w : World σ) :
    (DB.GetJournalEntries E id w).2.calls = w.calls ++ [Call.GetJournalEntries id] := rfl

@[simp] theorem MarkObjectIdUnsynced_calls (E : Backend σ) (o : ObjectId) (w : World σ) :
    (DB.MarkObjectIdUnsynced E o w).2.calls = w.calls ++ [Call.MarkObjectIdUnsynced o] := rfl

@[simp] theorem RemoveJournal_calls (E : Backend σ) (id : JournalId) (w : World σ) :
    (DB.RemoveJournal E id w).2.calls = w.calls ++ [Call.RemoveJournal id] := rfl

@[simp] theorem StartBatch_calls (E : Backend σ) (w : World σ) :
    (DB.StartBatch E w).calls = w.calls ++ [Call.StartBatch] := rfl

@[simp] theorem Execute_calls (E : Backend σ) (w : World σ) :
    (Batch.Execute E w).2.calls = w.calls ++ [Call.BatchExecute] := rfl

@[simp] theorem Destroy_calls (E : Backend σ) (w : World σ) :
    (Batch.Destroy E w).calls = w.calls ++ [Call.BatchDestroy] := rfl

@[simp] theorem DCHECK_calls (b : Bool) (w : World σ) :
    (FTL_DCHECK b w).calls = w.calls ++ [Call.DCheck b] := rfl

theorem markUnsynced_calls (E : Backend σ) (l : List ObjectId) (w : World σ) :
    ∃ cs, (markUnsynced E l w).2.calls = w.calls ++ cs ∧
      ∀ c ∈ cs, ∃ o, c = Call.MarkObjectIdUnsynced o := by
  induction l generalizing w with
  | nil => exact ⟨[], by simp [markUnsynced]⟩
  | cons o rest ih =>
    simp only [markUnsynced]
    by_cases hs : (DB.MarkObjectIdUnsynced E o w).1 = Status.OK
    · obtain ⟨cs, hcs, hall⟩ := ih (DB.MarkObjectIdUnsynced E o w).2
      refine ⟨Call.MarkObjectIdUnsynced o :: cs, ?_, ?_⟩
      · simp [hs, hcs]
      · intro c hc
        rcases List.mem_cons.1 hc with h | h
        · exact ⟨o, h⟩
        · exact hall c h
    · exact ⟨[Call.MarkObjectIdUnsynced o], by simp [hs], by simp⟩

theorem markTracked_calls (E : Backend σ) (l : List ObjectId) (w : World σ) :
    (markTracked E l w).calls = w.calls ++ l.map Call.MarkObjectTracked := by
  induction l generalizing w with
  | nil => simp [markTracked]
  | cons o rest ih => simp [markTracked, ih]

/-- `ClearCommittedJournal` starts by reading the values of the journal and only
adds calls to the trace. -/
theorem ClearCommittedJournal_calls (E : Backend σ) (j : JournalDBImpl)
    (new_nodes : List ObjectId) (w : World σ) :
    ∃ cs, (j.ClearCommittedJournal E new_nodes w).2.calls =
      w.calls ++ Call.GetJournalValues j.id_ :: cs := by
  obtain ⟨c1, h1, -⟩ := markUnsynced_calls E new_nodes
    (DB.StartBatch E (DB.GetJournalValues E j.id_ w).2)
  obtain ⟨c2, h2, -⟩ := markUnsynced_calls E (DB.GetJournalValues E j.id_ w).1.2
    (markUnsynced E new_nodes (DB.StartBatch E (DB.GetJournalValues E j.id_ w).2)).2
  simp only [ClearCommittedJournal]
  split_ifs
  · exact ⟨[], by simp⟩
  · exact ⟨Call.StartBatch :: c1 ++ [Call.BatchDestroy], by simp [h1]⟩
  · exact ⟨Call.StartBatch :: c1 ++ c2 ++ [Call.BatchDestroy], by simp [h1, h2]⟩
  · exact ⟨Call.StartBatch :: c1 ++ c2 ++ [Call.BatchExecute, Call.BatchDestroy], by
      simp [h1, h2]⟩
  · exact ⟨Call.StartBatch :: c1 ++ c2 ++ [Call.BatchExecute] ++
        (DB.GetJournalValues E j.id_ w).1.2.map Call.MarkObjectTracked ++
        [Call.RemoveJournal j.id_, Call.BatchDestroy], by
      simp [h1, h2, markTracked_calls]⟩

/-! ### `Commit`, step by step -/

/-- The body of `Commit` with every intermediate result named by projections. -/
theorem Commit_unfold (E : Backend σ) (j : JournalDBImpl) (w : World σ) :
    j.Commit E w =
      if j.rejects then ((Status.ILLEGAL_STATE, none), j, w)
      else if (GetParents E j w).1.1 ≠ Status.OK then
        (((GetParents E j w).1.1, none), j, (GetParents E j w).2)
      else if (DB.GetJournalEntries E j.id_ (GetParents E j w).2).1.1 ≠ Status.OK then
        (((DB.GetJournalEntries E j.id_ (GetParents E j w).2).1.1, none), j,
          (DB.GetJournalEntries E j.id_ (GetParents E j w).2).2)
      else
        match (GetParents E j w).1.2 with
        | [] => ((Status.INTERNAL_ERROR, none), j,
            (DB.GetJournalEntries E j.id_ (GetParents E j w).2).2)
        | front :: rest =>
          let a := btree.ApplyChanges E front.root_id
            (DB.GetJournalEntries E j.id_ (GetParents E j w).2).1.2
            (DB.GetJournalEntries E j.id_ (GetParents E j w).2).2
          if a.1.1 ≠ Status.OK then ((a.1.1, none), j, a.2)
          else if (front :: rest).length = 1 ∧ front.root_id = a.1.2.1 then
            let r := j.Rollback E (FTL_DCHECK a.1.2.2.isEmpty a.2)
            ((r.1, some front), r.2.1, r.2.2)
          else
            let commit := E.FromContentAndParents a.1.2.1 (front :: rest) a.2.st
            let ac := PageStorage.AddCommitFromLocal E commit a.2
            if ac.1 ≠ Status.OK then ((ac.1, none), { j with valid_ := false }, ac.2)
            else
              let cl := ClearCommittedJournal E { j with valid_ := false } a.1.2.2 ac.2
              if cl.1 ≠ Status.OK then ((cl.1, none), { j with valid_ := false }, cl.2)
              else ((Status.OK, some commit), { j with valid_ := false }, cl.2) := by
  unfold JournalDBImpl.Commit
  by_cases h0 : j.rejects = true
  · simp [h0]
  · simp only [h0]
    by_cases h1 : (GetParents E j w).1.1 = Status.OK
    · by_cases h2 : (DB.GetJournalEntries E j.id_ (GetParents E j w).2).1.1 = Status.OK
      · simp only [h1, h2, ne_eq, not_true_eq_false, if_false, Bool.false_eq_true]
        cases hp : (GetParents E j w).1.2 with
        | nil => simp only [hp]
        | cons front rest => simp only [hp]
      · simp [h1, h2]
    · simp [h1]

/-- The parents `GetParents` reports: none with a status that is not OK, the
commit of `base_` first otherwise, followed by the commit of `other_` when set. -/
theorem GetParents_result (E : Backend σ) (j : JournalDBImpl) (w : World σ) :
    ((GetParents E j w).1.1 ≠ Status.OK ∧ (GetParents E j w).1.2 = []) ∨
    ((GetParents E j w).1.1 = Status.OK ∧
      (GetParents E j w).1.2 =
        (PageStorage.GetCommit E j.base_ w).1.2 ::
          (match j.other_ with
           | none => []
           | some other =>
             [(PageStorage.GetCommit E other (PageStorage.GetCommit E j.base_ w).2).1.2])) := by
  unfold GetParents
  rcases hg1 : PageStorage.GetCommit E j.base_ w with ⟨⟨s1, c1⟩, w1⟩
  cases ho : j.other_ with
  | none =>
    by_cases h1 : s1 = Status.OK <;> simp [Waiter.Finalize, h1]
  | some other =>
    dsimp only
    rcases hg2 : PageStorage.GetCommit E other w1 with ⟨⟨s2, c2⟩, w2⟩
    by_cases h1 : s1 = Status.OK
    · by_cases h2 : s2 = Status.OK
      · simp [Waiter.Finalize, h1, h2]
      · simp [Waiter.Finalize, h1, h2]
    · simp [Waiter.Finalize, h1]

/-- The calls of `GetParents`: `GetCommit(base_)`, then `GetCommit(*other_)` when
`other_` is set. -/
theorem GetParents_calls (E : Backend σ) (j : JournalDBImpl) (w : World σ) :
    (GetParents E j w).2.calls =
      w.calls ++ Call.GetCommit j.base_ ::
        (match j.other_ with
         | none => []
         | some other => [Call.GetCommit other]) := by
  unfold GetParents
  cases ho : j.other_ <;> simp

/-! ### The journal state machine -/

theorem state_closed_iff (j : JournalDBImpl) :
    j.state = JournalState.CLOSED ↔ j.valid_ = false := by
  unfold JournalDBImpl.state
  cases j.valid_ <;> simp
  split_ifs <;> simp

theorem state_open_iff (j : JournalDBImpl) :
    j.state = JournalState.OPEN ↔ j.rejects = false := by
  unfold JournalDBImpl.state rejects
  cases j.valid_ <;> simp

theorem state_failed_iff (j : JournalDBImpl) :
    j.state = JournalState.FAILED ↔
      j.valid_ = true ∧ j.type_ = JournalType.EXPLICIT ∧ j.failed_operation_ = true := by
  unfold JournalDBImpl.state
  cases j.valid_ <;> simp

/-- With a single parent found, `GetParents` reports exactly that commit. -/
theorem GetParents_single (E : Backend σ) (j : JournalDBImpl) (w w1 : World σ)
    (parent : storage.Commit) (hone : j.other_ = none)
    (hp : PageStorage.GetCommit E j.base_ w = ((Status.OK, parent), w1)) :
    GetParents E j w = ((Status.OK, [parent]), w1) := by
  unfold GetParents
  rw [hp]
  simp [hone, Waiter.Finalize]

/-! ### `Put` and `Delete`, step by step -/

/-- The body of `UpdateValueCounter` with every intermediate result named by
projections. -/
theorem UpdateValueCounter_unfold (E : Backend σ) (j : JournalDBImpl) (object_id : ObjectId)
    (operation : Int → Int) (w : World σ) :
    UpdateValueCounter E j object_id operation w =
      if (PageStorage.ObjectIsUntracked E object_id w).1 = false then
        (Status.OK, (PageStorage.ObjectIsUntracked E object_id w).2)
      else if (DB.GetJournalValueCounter E j.id_ object_id
          (PageStorage.ObjectIsUntracked E object_id w).2).1.1 ≠ Status.OK then
        ((DB.GetJournalValueCounter E j.id_ object_id
            (PageStorage.ObjectIsUntracked E object_id w).2).1.1,
          (DB.GetJournalValueCounter E j.id_ object_id
            (PageStorage.ObjectIsUntracked E object_id w).2).2)
      else
        DB.SetJournalValueCounter E j.id_ object_id
          (operation (DB.GetJournalValueCounter E j.id_ object_id
            (PageStorage.ObjectIsUntracked E object_id w).2).1.2)
          (FTL_DCHECK (decide (operation (DB.GetJournalValueCounter E j.id_ object_id
              (PageStorage.ObjectIsUntracked E object_id w).2).1.2 ≥ 0))
            (DB.GetJournalValueCounter E j.id_ object_id
              (PageStorage.ObjectIsUntracked E object_id w).2).2) := by
  unfold UpdateValueCounter
  by_cases h0 : (PageStorage.ObjectIsUntracked E object_id w).1 = false
  · simp [h0]
  · by_cases h1 : (DB.GetJournalValueCounter E j.id_ object_id
        (PageStorage.ObjectIsUntracked E object_id w).2).1.1 = Status.OK
    · simp [h0, h1]
    · simp [h0, h1]

/-- `UpdateValueCounter` only adds calls to the trace. -/
theorem UpdateValueCounter_calls (E : Backend σ) (j : JournalDBImpl) (object_id : ObjectId)
    (operation : Int → Int) (w : World σ) :
    ∃ cs, (UpdateValueCounter E j object_id operation w).2.calls = w.calls ++ cs := by
  rw [UpdateValueCounter_unfold]
  split_ifs
  · exact ⟨[Call.ObjectIsUntracked object_id], by simp⟩
  · exact ⟨[Call.ObjectIsUntracked object_id, Call.GetJournalValueCounter j.id_ object_id],
      by simp⟩
  · refine ⟨[Call.ObjectIsUntracked object_id, Call.GetJournalValueCounter j.id_ object_id,
      Call.DCheck (decide (operation (DB.GetJournalValueCounter E j.id_ object_id
        (PageStorage.ObjectIsUntracked E object_id w).2).1.2 ≥ 0)),
      Call.SetJournalValueCounter j.id_ object_id
        (operation (DB.GetJournalValueCounter E j.id_ object_id
          (PageStorage.ObjectIsUntracked E object_id w).2).1.2)], ?_⟩
    simp only [SetJournalValueCounter_calls, DCHECK_calls, GetJournalValueCounter_calls,
      ObjectIsUntracked_calls, List.append_assoc, List.singleton_append]
    rfl

/-- The counter updates of `Put` only add calls to the trace. -/
theorem putCounters_calls (E : Backend σ) (j : JournalDBImpl) (object_id prev_id : ObjectId)
    (prev_entry_status : Status) (w : World σ) :
    ∃ cs, (putCounters E j object_id prev_id prev_entry_status w).calls = w.calls ++ cs := by
  unfold putCounters
  obtain ⟨c1, h1⟩ := UpdateValueCounter_calls E j object_id (fun counter => counter + 1) w
  obtain ⟨c2, h2⟩ := UpdateValueCounter_calls E j prev_id (fun counter => counter - 1)
    (UpdateValueCounter E j object_id (fun counter => counter + 1) w).2
  split_ifs
  · exact ⟨c1 ++ c2, by rw [h2, h1, List.append_assoc]⟩
  · exact ⟨c1, h1⟩
  · exact ⟨[], by simp⟩

/-- The counter update of `Delete` only adds calls to the trace. -/
theorem deleteCounters_calls (E : Backend σ) (j : JournalDBImpl) (prev_id : ObjectId)
    (prev_entry_status : Status) (w : World σ) :
    ∃ cs, (deleteCounters E j prev_id prev_entry_status w).calls = w.calls ++ cs := by
  unfold deleteCounters
  split_ifs
  · exact UpdateValueCounter_calls E j prev_id (fun counter => counter - 1) w
  · exact ⟨[], by simp⟩

/-- The body of `Put` with every intermediate result named by projections. -/
theorem Put_unfold (E : Backend σ) (j : JournalDBImpl) (key : Key) (object_id : ObjectId)
    (priority : KeyPriority) (w : World σ) :
    j.Put E key object_id priority w =
      if j.rejects then (Status.ILLEGAL_STATE, j, w)
      else if (DB.AddJournalEntry E j.id_ key object_id priority
          (DB.StartBatch E (DB.GetJournalValue E j.id_ key w).2)).1 ≠ Status.OK then
        ((DB.AddJournalEntry E j.id_ key object_id priority
            (DB.StartBatch E (DB.GetJournalValue E j.id_ key w).2)).1,
          { j with failed_operation_ := true },
          Batch.Destroy E (DB.AddJournalEntry E j.id_ key object_id priority
            (DB.StartBatch E (DB.GetJournalValue E j.id_ key w).2)).2)
      else
        ((Batch.Execute E (putCounters E j object_id (DB.GetJournalValue E j.id_ key w).1.2
            (DB.GetJournalValue E j.id_ key w).1.1
            (DB.AddJournalEntry E j.id_ key object_id priority
              (DB.StartBatch E (DB.GetJournalValue E j.id_ key w).2)).2)).1, j,
          Batch.Destroy E (Batch.Execute E (putCounters E j object_id
            (DB.GetJournalValue E j.id_ key w).1.2 (DB.GetJournalValue E j.id_ key w).1.1
            (DB.AddJournalEntry E j.id_ key object_id priority
              (DB.StartBatch E (DB.GetJournalValue E j.id_ key w).2)).2)).2) := by
  unfold Put putCounters
  by_cases h0 : j.rejects = true
  · simp [h0]
  · by_cases h1 : (DB.AddJournalEntry E j.id_ key object_id priority
        (DB.StartBatch E (DB.GetJournalValue E j.id_ key w).2)).1 = Status.OK
    · simp only [h0, h1, ne_eq, not_true_eq_false, if_false, Bool.false_eq_true]
    · simp [h0, h1]

/-- The body of `Delete` with every intermediate result named by projections. -/
theorem Delete_unfold (E : Backend σ) (j : JournalDBImpl) (key : Key) (w : World σ) :
    j.Delete E key w =
      if j.rejects then (Status.ILLEGAL_STATE, j, w)
      else if (DB.RemoveJournalEntry E j.id_ key
          (DB.StartBatch E (DB.GetJournalValue E j.id_ key w).2)).1 ≠ Status.OK then
        ((DB.RemoveJournalEntry E j.id_ key
            (DB.StartBatch E (DB.GetJournalValue E j.id_ key w).2)).1,
          { j with failed_operation_ := true },
          Batch.Destroy E (DB.RemoveJournalEntry E j.id_ key
            (DB.StartBatch E (DB.GetJournalValue E j.id_ key w).2)).2)
      else
        ((Batch.Execute E (deleteCounters E j (DB.GetJournalValue E j.id_ key w).1.2
            (DB.GetJournalValue E j.id_ key w).1.1
            (DB.RemoveJournalEntry E j.id_ key
              (DB.StartBatch E (DB.GetJournalValue E j.id_ key w).2)).2)).1, j,
          Batch.Destroy E (Batch.Execute E (deleteCounters E j
            (DB.GetJournalValue E j.id_ key w).1.2 (DB.GetJournalValue E j.id_ key w).1.1
            (DB.RemoveJournalEntry E j.id_ key
              (DB.StartBatch E (DB.GetJournalValue E j.id_ key w).2)).2)).2) := by
  unfold Delete deleteCounters
  by_cases h0 : j.rejects = true
  · simp [h0]
  · by_cases h1 : (DB.RemoveJournalEntry E j.id_ key
        (DB.StartBatch E (DB.GetJournalValue E j.id_ key w).2)).1 = Status.OK
    · simp only [h0, h1, ne_eq, not_true_eq_false, if_false, Bool.false_eq_true]
    · simp [h0, h1]

/-- `Put` changes nothing of the journal but `failed_operation_`. -/
theorem Put_journal (E : Backend σ) (j : JournalDBImpl) (key : Key) (object_id : ObjectId)
    (priority : KeyPriority) (w : World σ) :
    (j.Put E key object_id priority w).2.1 = j ∨
    (j.Put E key object_id priority w).2.1 = { j with failed_operation_ := true } := by
  rw [Put_unfold]
  split_ifs
  · left; rfl
  · right; rfl
  · left; rfl

/-- `Delete` changes nothing of the journal but `failed_operation_`. -/
theorem Delete_journal (E : Backend σ) (j : JournalDBImpl) (key : Key) (w : World σ) :
    (j.Delete E key w).2.1 = j ∨
    (j.Delete E key w).2.1 = { j with failed_operation_ := true } := by
  rw [Delete_unfold]
  split_ifs
  · left; rfl
  · right; rfl
  · left; rfl

/-- A sequence of operations changes nothing of the journal but
`failed_operation_`. -/
theorem steps_journal (E : Backend σ) (ops : List Op) (j : JournalDBImpl) (w : World σ) :
    (j.steps E ops w).2.1 = j ∨
    (j.steps E ops w).2.1 = { j with failed_operation_ := true } := by
  induction ops generalizing j w with
  | nil => left; rfl
  | cons op rest ih =>
    have hstep : (j.step E op w).2.1 = j ∨
        (j.step E op w).2.1 = { j with failed_operation_ := true } := by
      cases op with
      | Put key object_id priority => exact Put_journal E j key object_id priority w
      | Delete key => exact Delete_journal E j key w
    have hrec := ih (j.step E op w).2.1 (j.step E op w).2.2
    have hunf : (j.steps E (op :: rest) w).2.1 =
        ((j.step E op w).2.1.steps E rest (j.step E op w).2.2).2.1 := rfl
    rw [hunf]
    rcases hstep with h1 | h1 <;> rcases hrec with h2 | h2 <;> rw [h2, h1]
    · left; rfl
    · right; rfl
    · right; rfl
    · right; rfl

/-- The first call of a `Put` that passes the guard reads the staged value. -/
theorem Put_first_call (E : Backend σ) (j : JournalDBImpl) (key : Key) (object_id : ObjectId)
    (priority : KeyPriority) (w : World σ) (h : j.rejects = false) :
    ∃ cs, (j.Put E key object_id priority w).2.2.calls =
      w.calls ++ Call.GetJournalValue j.id_ key :: cs := by
  rw [Put_unfold]
  simp only [h, Bool.false_eq_true, if_false]
  split_ifs
  · exact ⟨[Call.StartBatch, Call.AddJournalEntry j.id_ key object_id priority,
      Call.BatchDestroy], by simp⟩
  · obtain ⟨cs, hcs⟩ := putCounters_calls E j object_id (DB.GetJournalValue E j.id_ key w).1.2
      (DB.GetJournalValue E j.id_ key w).1.1
      (DB.AddJournalEntry E j.id_ key object_id priority
        (DB.StartBatch E (DB.GetJournalValue E j.id_ key w).2)).2
    exact ⟨[Call.StartBatch, Call.AddJournalEntry j.id_ key object_id priority] ++ cs ++
      [Call.BatchExecute, Call.BatchDestroy], by simp [hcs]⟩

/-- The first call of a `Delete` that passes the guard reads the staged value. -/
theorem Delete_first_call (E : Backend σ) (j : JournalDBImpl) (key : Key) (w : World σ)
    (h : j.rejects = false) :
    ∃ cs, (j.Delete E key w).2.2.calls = w.calls ++ Call.GetJournalValue j.id_ key :: cs := by
  rw [Delete_unfold]
  simp only [h, Bool.false_eq_true, if_false]
  split_ifs
  · exact ⟨[Call.StartBatch, Call.RemoveJournalEntry j.id_ key, Call.BatchDestroy], by simp⟩
  · obtain ⟨cs, hcs⟩ := deleteCounters_calls E j (DB.GetJournalValue E j.id_ key w).1.2
      (DB.GetJournalValue E j.id_ key w).1.1
      (DB.RemoveJournalEntry E j.id_ key
        (DB.StartBatch E (DB.GetJournalValue E j.id_ key w).2)).2
    exact ⟨[Call.StartBatch, Call.RemoveJournalEntry j.id_ key] ++ cs ++
      [Call.BatchExecute, Call.BatchDestroy], by simp [hcs]⟩

/-- The three ways a `Commit` that passes the guard can go.  After the calls `pre`
that prepare the commit, in the world `wa`: it reports a failure of one of them
and leaves the journal as it was; or it takes the no-op return through
`Rollback`; or it calls `AddCommitFromLocal` and, when that is OK,
`ClearCommittedJournal`, on a journal that is closed from then on. -/
theorem Commit_outcome (E : Backend σ) (j : JournalDBImpl) (w : World σ)
    (h : j.rejects = false) :
    ∃ pre wa, wa.calls = w.calls ++ Call.GetCommit j.base_ :: pre ∧
      (∀ c ∈ pre, c.isPrepare = true) ∧
      (((j.Commit E w).1.1 ≠ Status.OK ∧ (j.Commit E w).1.2 = none ∧
          (j.Commit E w).2 = (j, wa)) ∨
       (∃ (front : storage.Commit) (new_nodes : List ObjectId), j.other_ = none ∧
          j.Commit E w =
            (((j.Rollback E (FTL_DCHECK new_nodes.isEmpty wa)).1, some front),
              (j.Rollback E (FTL_DCHECK new_nodes.isEmpty wa)).2)) ∨
       (∃ (commit : storage.Commit) (new_nodes : List ObjectId),
          j.Commit E w =
            if (PageStorage.AddCommitFromLocal E commit wa).1 ≠ Status.OK then
              (((PageStorage.AddCommitFromLocal E commit wa).1, none), j.closed,
                (PageStorage.AddCommitFromLocal E commit wa).2)
            else if (j.closed.ClearCommittedJournal E new_nodes
                (PageStorage.AddCommitFromLocal E commit wa).2).1 ≠ Status.OK then
              (((j.closed.ClearCommittedJournal E new_nodes
                  (PageStorage.AddCommitFromLocal E commit wa).2).1, none), j.closed,
                (j.closed.ClearCommittedJournal E new_nodes
                  (PageStorage.AddCommitFromLocal E commit wa).2).2)
            else
              ((Status.OK, some commit), j.closed,
                (j.closed.ClearCommittedJournal E new_nodes
                  (PageStorage.AddCommitFromLocal E commit wa).2).2))) := by
  have hgc := GetParents_calls E j w
  generalize hothers : (match j.other_ with
    | none => []
    | some other => [Call.GetCommit other]) = others at hgc
  have hpre : ∀ c ∈ others, c.isPrepare = true := by
    intro c hc
    rw [← hothers] at hc
    cases ho : j.other_ with
    | none => simp [ho] at hc
    | some other => simp [ho] at hc; simp [hc, Call.isPrepare]
  rw [Commit_unfold]
  simp only [h, Bool.false_eq_true, if_false]
  by_cases h1 : (GetParents E j w).1.1 = Status.OK
  swap
  · exact ⟨others, (GetParents E j w).2, hgc, hpre, Or.inl (by simp [h1])⟩
  by_cases h2 : (DB.GetJournalEntries E j.id_ (GetParents E j w).2).1.1 = Status.OK
  swap
  · refine ⟨others ++ [Call.GetJournalEntries j.id_],
      (DB.GetJournalEntries E j.id_ (GetParents E j w).2).2, by simp [hgc], ?_,
      Or.inl (by simp [h1, h2])⟩
    intro c hc
    rcases List.mem_append.1 hc with hc | hc
    · exact hpre c hc
    · simp at hc; simp [hc, Call.isPrepare]
  simp only [h1, h2, ne_eq, not_true_eq_false, if_false]
  rcases GetParents_result E j w with ⟨hne, -⟩ | ⟨-, hparents⟩
  · exact absurd h1 hne
  rw [hparents]
  simp only []
  generalize hfront : (PageStorage.GetCommit E j.base_ w).1.2 = front
  generalize hrest : (match j.other_ with
    | none => []
    | some other =>
      [(PageStorage.GetCommit E other (PageStorage.GetCommit E j.base_ w).2).1.2]) = rest
  generalize ha : btree.ApplyChanges E front.root_id
    (DB.GetJournalEntries E j.id_ (GetParents E j w).2).1.2
    (DB.GetJournalEntries E j.id_ (GetParents E j w).2).2 = a
  have hacalls : a.2.calls = w.calls ++ Call.GetCommit j.base_ :: (others ++
      [Call.GetJournalEntries j.id_,
        Call.ApplyChanges front.root_id
          (DB.GetJournalEntries E j.id_ (GetParents E j w).2).1.2]) := by
    rw [← ha]; simp [hgc]
  have hapre : ∀ c ∈ (others ++
      [Call.GetJournalEntries j.id_,
        Call.ApplyChanges front.root_id
          (DB.GetJournalEntries E j.id_ (GetParents E j w).2).1.2]), c.isPrepare = true := by
    intro c hc
    rcases List.mem_append.1 hc with hc | hc
    · exact hpre c hc
    · simp at hc; rcases hc with hc | hc <;> simp [hc, Call.isPrepare]
  refine ⟨_, a.2, hacalls, hapre, ?_⟩
  by_cases h3 : a.1.1 = Status.OK
  swap
  · exact Or.inl (by simp [h3])
  by_cases h4 : (front :: rest).length = 1 ∧ front.root_id = a.1.2.1
  · refine Or.inr (Or.inl ⟨front, a.1.2.2, ?_, by simp [h3, h4]⟩)
    cases ho : j.other_ with
    | none => rfl
    | some other => simp [ho] at hrest; simp [← hrest] at h4
  · refine Or.inr (Or.inr ⟨E.FromContentAndParents a.1.2.1 (front :: rest) a.2.st,
      a.1.2.2, ?_⟩)
    simp only [h3, h4, ne_eq, not_true_eq_false, if_false, closed]

/-- `Rollback` only adds calls to the trace. -/
theorem Rollback_calls (E : Backend σ) (j : JournalDBImpl) (w : World σ) :
    (j.Rollback E w).2.2.calls = w.calls ∨
    (j.Rollback E w).2.2.calls = w.calls ++ [Call.RemoveJournal j.id_] := by
  cases hv : j.valid_
  · left; rw [Rollback_closed E hv]
  · right; rw [Rollback_valid E hv]; simp

/-- The calls of a `Commit` that passes the guard, in three parts: the lookup of
`base_` and the other calls that prepare the commit, which are all there is
unless an `AddCommitFromLocal` follows, and what comes after. -/
theorem Commit_calls (E : Backend σ) (j : JournalDBImpl) (w : World σ)
    (h : j.rejects = false) :
    ∃ pre post, (j.Commit E w).2.2.calls = w.calls ++ Call.GetCommit j.base_ :: (pre ++ post) ∧
      (∀ c ∈ pre, c.isPrepare = true) ∧
      (post = [] ∨
       (∃ b, post = [Call.DCheck b] ∨ post = [Call.DCheck b, Call.RemoveJournal j.id_]) ∨
       (∃ commit, post = [Call.AddCommitFromLocal commit]) ∨
       (∃ commit cs, post = Call.AddCommitFromLocal commit :: Call.GetJournalValues j.id_ :: cs)) := by
  obtain ⟨pre, wa, hwa, hpre, hcase⟩ := Commit_outcome E j w h
  rcases hcase with ⟨-, -, hc⟩ | ⟨front, new_nodes, -, hc⟩ | ⟨commit, new_nodes, hc⟩
  · exact ⟨pre, [], by rw [hc]; simp [hwa], hpre, Or.inl rfl⟩
  · rcases Rollback_calls E j (FTL_DCHECK new_nodes.isEmpty wa) with hr | hr
    · exact ⟨pre, [Call.DCheck new_nodes.isEmpty], by rw [hc]; simp [hr, hwa], hpre,
        Or.inr (Or.inl ⟨_, Or.inl rfl⟩)⟩
    · exact ⟨pre, [Call.DCheck new_nodes.isEmpty, Call.RemoveJournal j.id_],
        by rw [hc]; simp [hr, hwa], hpre, Or.inr (Or.inl ⟨_, Or.inr rfl⟩)⟩
  · obtain ⟨cs, hcs⟩ := ClearCommittedJournal_calls E j.closed new_nodes
      (PageStorage.AddCommitFromLocal E commit wa).2
    have hid : j.closed.id_ = j.id_ := rfl
    rw [hid] at hcs
    by_cases ha : (PageStorage.AddCommitFromLocal E commit wa).1 = Status.OK
    · refine ⟨pre, Call.AddCommitFromLocal commit :: Call.GetJournalValues j.id_ :: cs, ?_,
        hpre, Or.inr (Or.inr (Or.inr ⟨commit, cs, rfl⟩))⟩
      rw [hc]
      split_ifs <;> first | contradiction | simp [hcs, hwa]
    · refine ⟨pre, [Call.AddCommitFromLocal commit], ?_, hpre,
        Or.inr (Or.inr (Or.inl ⟨commit, rfl⟩))⟩
      rw [hc]
      simp [ha, hwa]

/-- Neither the status nor the world of `Rollback` depends on `failed_operation_`. -/
theorem Rollback_flag (E : Backend σ) (j : JournalDBImpl) (b : Bool) (w : World σ) :
    (({ j with failed_operation_ := b } : JournalDBImpl).Rollback E w).1 = (j.Rollback E w).1 ∧
    (({ j with failed_operation_ := b } : JournalDBImpl).Rollback E w).2.2 =
      (j.Rollback E w).2.2 := by
  unfold Rollback
  cases hv : j.valid_
  · simp
  · simp only [Bool.not_true, Bool.false_eq_true, if_false]
    split_ifs <;> exact ⟨rfl, rfl⟩

/-- On an IMPLICIT journal neither the result nor the world of `Commit` depends on
`failed_operation_`. -/
theorem Commit_flag (E : Backend σ) (j : JournalDBImpl) (b : Bool) (w : World σ)
    (htype : j.type_ = JournalType.IMPLICIT) :
    (({ j with failed_operation_ := b } : JournalDBImpl).Commit E w).1 = (j.Commit E w).1 ∧
    (({ j with failed_operation_ := b } : JournalDBImpl).Commit E w).2.2 =
      (j.Commit E w).2.2 := by
  have hr : ({ j with failed_operation_ := b } : JournalDBImpl).rejects = j.rejects := by
    have hne : (JournalType.IMPLICIT == JournalType.EXPLICIT) = false := by decide
    simp [rejects, htype, hne]
  have hgp : GetParents E { j with failed_operation_ := b } w = GetParents E j w := rfl
  have hcl : ∀ n w2, ClearCommittedJournal E
      { type_ := j.type_, id_ := j.id_, base_ := j.base_, other_ := j.other_, valid_ := false,
        failed_operation_ := b } n w2 =
      ClearCommittedJournal E { j with valid_ := false } n w2 := fun _ _ => rfl
  rw [Commit_unfold, Commit_unfold, hr, hgp]
  by_cases h0 : j.rejects = true
  · simp [h0]
  simp only [h0, Bool.false_eq_true, if_false]
  by_cases h1 : (GetParents E j w).1.1 = Status.OK
  swap
  · simp [h1]
  by_cases h2 : (DB.GetJournalEntries E j.id_ (GetParents E j w).2).1.1 = Status.OK
  swap
  · simp [h1, h2]
  simp only [h1, h2, ne_eq, not_true_eq_false, if_false]
  cases hp : (GetParents E j w).1.2 with
  | nil => simp
  | cons front rest =>
    simp only []
    have hrb1 := fun w2 => (Rollback_flag E j b w2).1
    have hrb2 := fun w2 => (Rollback_flag E j b w2).2
    simp only [hcl]
    split_ifs <;> first | exact ⟨rfl, rfl⟩ | simp [hrb1, hrb2]

/-! ### What `Commit` hands to `ApplyChanges` -/

theorem handed_append (l1 l2 : List Call) : handed (l1 ++ l2) = handed l1 ++ handed l2 := by
  induction l1 with
  | nil => rfl
  | cons c rest ih => cases c <;> simp [handed, ih]

theorem handed_markUnsynced (cs : List Call)
    (h : ∀ c ∈ cs, ∃ o, c = Call.MarkObjectIdUnsynced o) : handed cs = [] := by
  induction cs with
  | nil => rfl
  | cons c rest ih =>
    obtain ⟨o, rfl⟩ := h c (List.mem_cons_self _ _)
    simp [handed, ih (fun c hc => h c (List.mem_cons_of_mem _ hc))]

theorem handed_markTracked (l : List ObjectId) : handed (l.map Call.MarkObjectTracked) = [] := by
  induction l with
  | nil => rfl
  | cons o rest ih => simp [handed, ih]

/-- `ClearCommittedJournal` hands nothing to `ApplyChanges`. -/
theorem ClearCommittedJournal_handed (E : Backend σ) (j : JournalDBImpl)
    (new_nodes : List ObjectId) (w : World σ) :
    ∃ cs, (j.ClearCommittedJournal E new_nodes w).2.calls = w.calls ++ cs ∧ handed cs = [] := by
  obtain ⟨c1, h1, p1⟩ := markUnsynced_calls E new_nodes
    (DB.StartBatch E (DB.GetJournalValues E j.id_ w).2)
  obtain ⟨c2, h2, p2⟩ := markUnsynced_calls E (DB.GetJournalValues E j.id_ w).1.2
    (markUnsynced E new_nodes (DB.StartBatch E (DB.GetJournalValues E j.id_ w).2)).2
  have q1 := handed_markUnsynced c1 p1
  have q2 := handed_markUnsynced c2 p2
  have q3 := handed_markTracked (DB.GetJournalValues E j.id_ w).1.2
  simp only [ClearCommittedJournal]
  split_ifs
  · exact ⟨[Call.GetJournalValues j.id_], by simp, rfl⟩
  · exact ⟨Call.GetJournalValues j.id_ :: Call.StartBatch :: c1 ++ [Call.BatchDestroy],
      by simp [h1], by simp [handed, handed_append, q1]⟩
  · exact ⟨Call.GetJournalValues j.id_ :: Call.StartBatch :: c1 ++ c2 ++ [Call.BatchDestroy],
      by simp [h1, h2], by simp [handed, handed_append, q1, q2]⟩
  · exact ⟨Call.GetJournalValues j.id_ :: Call.StartBatch :: c1 ++ c2 ++
        [Call.BatchExecute, Call.BatchDestroy],
      by simp [h1, h2], by simp [handed, handed_append, q1, q2]⟩
  · exact ⟨Call.GetJournalValues j.id_ :: Call.StartBatch :: c1 ++ c2 ++ [Call.BatchExecute] ++
        (DB.GetJournalValues E j.id_ w).1.2.map Call.MarkObjectTracked ++
        [Call.RemoveJournal j.id_, Call.BatchDestroy],
      by simp [h1, h2, markTracked_calls], by simp [handed, handed_append, q1, q2, q3]⟩

/-- A `Commit` that returns OK has read the journal entries and has handed them,
once, to `ApplyChanges`. -/
theorem Commit_ok_handed (E : Backend σ) (j : JournalDBImpl) (w : World σ)
    (hok : (j.Commit E w).1.1 = Status.OK) :
    (DB.GetJournalEntries E j.id_ (GetParents E j w).2).1.1 = Status.OK ∧
    ∃ root_id, handed ((j.Commit E w).2.2.since w) =
      [(root_id, (DB.GetJournalEntries E j.id_ (GetParents E j w).2).1.2)] := by
  have hgc := GetParents_calls E j w
  have hothers : handed (Call.GetCommit j.base_ ::
      (match j.other_ with
       | none => []
       | some other => [Call.GetCommit other])) = [] := by
    cases j.other_ <;> rfl
  generalize (Call.GetCommit j.base_ ::
      (match j.other_ with
       | none => []
       | some other => [Call.GetCommit other])) = others at hgc hothers
  rw [Commit_unfold] at hok ⊢
  by_cases h0 : j.rejects = true
  · simp [h0] at hok
  simp only [h0, Bool.false_eq_true, if_false] at hok ⊢
  by_cases h1 : (GetParents E j w).1.1 = Status.OK
  swap
  · simp [h1] at hok
  by_cases h2 : (DB.GetJournalEntries E j.id_ (GetParents E j w).2).1.1 = Status.OK
  swap
  · simp [h1, h2] at hok
  refine ⟨h2, ?_⟩
  simp only [h1, h2, ne_eq, not_true_eq_false, if_false] at hok ⊢
  cases hp : (GetParents E j w).1.2 with
  | nil => simp [hp] at hok
  | cons front rest =>
    simp only [hp] at hok ⊢
    generalize ha : btree.ApplyChanges E front.root_id
      (DB.GetJournalEntries E j.id_ (GetParents E j w).2).1.2
      (DB.GetJournalEntries E j.id_ (GetParents E j w).2).2 = a at hok ⊢
    have hacalls : a.2.calls = w.calls ++ (others ++
        [Call.GetJournalEntries j.id_,
          Call.ApplyChanges front.root_id
            (DB.GetJournalEntries E j.id_ (GetParents E j w).2).1.2]) := by
      rw [← ha]; simp [hgc]
    refine ⟨front.root_id, ?_⟩
    by_cases h3 : a.1.1 = Status.OK
    swap
    · simp [h3] at hok
    simp only [h3, ne_eq, not_true_eq_false, if_false] at hok ⊢
    split_ifs
    · rcases Rollback_calls E j (FTL_DCHECK a.1.2.2.isEmpty a.2) with hr | hr
      · rw [since_append _ w _ (by simp only [hr, DCHECK_calls, hacalls, List.append_assoc]; rfl)]
        simp [handed_append, hothers, handed]
      · rw [since_append _ w _ (by simp only [hr, DCHECK_calls, hacalls, List.append_assoc]; rfl)]
        simp [handed_append, hothers, handed]
    all_goals
      obtain ⟨cs, hcs, hh⟩ := ClearCommittedJournal_handed E { j with valid_ := false } a.1.2.2
        (PageStorage.AddCommitFromLocal E
          (E.FromContentAndParents a.1.2.1 (front :: rest) a.2.st) a.2).2
      rw [since_append _ w _ (by
        simp only [hcs, AddCommitFromLocal_calls, hacalls, List.append_assoc]; rfl)]
      simp [handed_append, hothers, handed, hh]

end JournalDBImpl

/-! ### The model of the database -/

namespace Model

open JournalDBImpl

theorem fault_entries (s : State) : s.fault.2.entries = s.entries := by
  unfold State.fault; cases s.faults <;> rfl

theorem fault_batch (s : State) : s.fault.2.batch = s.batch := by
  unfold State.fault; cases s.faults <;> rfl

/-- A fallible write with a batch pending: the write joins the batch when the
status is OK, nothing changes otherwise; the stored entries are untouched. -/
theorem tryWrite_pending (s : State) (wr : Write) (pending : List Write)
    (hb : s.batch = some pending) :
    (s.tryWrite wr).2.entries = s.entries ∧
    (((s.tryWrite wr).1 = Status.OK ∧ (s.tryWrite wr).2.batch = some (pending ++ [wr])) ∨
     ((s.tryWrite wr).1 ≠ Status.OK ∧ (s.tryWrite wr).2.batch = some pending)) := by
  have he := fault_entries s
  have hbf := fault_batch s
  rw [hb] at hbf
  unfold State.tryWrite
  rcases hf : s.fault with ⟨f, s1⟩
  rw [hf] at he hbf
  simp only at he hbf ⊢
  by_cases hfo : f = Status.OK
  · simp [hfo, State.write, hbf, he]
  · simp [hfo, hbf, he]

/-- A write that sets a counter leaves the stored entries alone. -/
theorem apply_counter_entries (s : State) (wr : Write) (h : wr.isCounter = true) :
    (s.apply wr).entries = s.entries := by
  cases wr <;> simp [Write.isCounter] at h
  rfl

theorem foldl_apply_counter_entries (cw : List Write) (h : ∀ x ∈ cw, x.isCounter = true)
    (s : State) : (cw.foldl State.apply s).entries = s.entries := by
  induction cw generalizing s with
  | nil => rfl
  | cons x rest ih =>
    simp only [List.foldl_cons]
    rw [ih (fun y hy => h y (List.mem_cons_of_mem _ hy)),
      apply_counter_entries s x (h x (List.mem_cons_self _ _))]

theorem GetJournalValue_quiet (s : State) (id : JournalId) (key : Key) :
    (s.GetJournalValue id key).2.entries = s.entries ∧
    (s.GetJournalValue id key).2.batch = s.batch := by
  have he := fault_entries s
  have hb := fault_batch s
  unfold State.GetJournalValue
  rcases hf : s.fault with ⟨f, s1⟩
  rw [hf] at he hb
  simp only at he hb ⊢
  split_ifs
  · exact ⟨he, hb⟩
  · split <;> exact ⟨he, hb⟩

theorem GetJournalValueCounter_quiet (s : State) (id : JournalId) (object_id : ObjectId) :
    (s.GetJournalValueCounter id object_id).2.entries = s.entries ∧
    (s.GetJournalValueCounter id object_id).2.batch = s.batch := by
  have he := fault_entries s
  have hb := fault_batch s
  unfold State.GetJournalValueCounter
  rcases hf : s.fault with ⟨f, s1⟩
  rw [hf] at he hb
  simp only at he hb ⊢
  split_ifs <;> exact ⟨he, hb⟩

theorem GetCommit_quiet (s : State) (commit_id : CommitId) :
    (s.GetCommit commit_id).2.entries = s.entries := by
  have he := fault_entries s
  unfold State.GetCommit
  rcases hf : s.fault with ⟨f, s1⟩
  rw [hf] at he
  simp only at he ⊢
  split_ifs
  · exact he
  · split <;> exact he

/-- What `GetJournalEntries` reports when its status is OK: the staged entries of
the journal, in the order of the store, as change records. -/
theorem GetJournalEntries_ok (s : State) (id : JournalId)
    (h : (s.GetJournalEntries id).1.1 = Status.OK) :
    (s.GetJournalEntries id).1.2 = (s.entries id).map toChange := by
  have he := fault_entries s
  unfold State.GetJournalEntries at h ⊢
  rcases hf : s.fault with ⟨f, s1⟩
  rw [hf] at he h
  simp only at he h ⊢
  split_ifs with h1
  · simp [h1] at h
  · simp [he]

/-- On the model, `UpdateValueCounter` with a batch pending leaves the stored
entries alone and adds at most a counter write to the batch. -/
theorem UpdateValueCounter_model (j : JournalDBImpl) (object_id : ObjectId)
    (operation : Int → Int) (w : World State) (pending : List Write)
    (hb : w.st.batch = some pending) :
    (UpdateValueCounter backend j object_id operation w).2.st.entries = w.st.entries ∧
    ∃ cw, (∀ x ∈ cw, x.isCounter = true) ∧
      (UpdateValueCounter backend j object_id operation w).2.st.batch = some (pending ++ cw) := by
  rw [UpdateValueCounter_unfold]
  have hq := GetJournalValueCounter_quiet w.st j.id_ object_id
  split_ifs
  · exact ⟨rfl, [], by simp, by simpa using hb⟩
  · exact ⟨hq.1, [], by simp, by rw [List.append_nil, ← hb]; exact hq.2⟩
  · have ht := tryWrite_pending (w.st.GetJournalValueCounter j.id_ object_id).2
      (Write.JournalValueCounter j.id_ object_id
        (operation (w.st.GetJournalValueCounter j.id_ object_id).1.2)) pending
      (by rw [hq.2, hb])
    refine ⟨ht.1.trans hq.1, ?_⟩
    rcases ht.2 with ⟨-, h2⟩ | ⟨-, h2⟩
    · exact ⟨[_], by simp [Write.isCounter], h2⟩
    · exact ⟨[], by simp, by simpa using h2⟩

theorem putCounters_model (j : JournalDBImpl) (object_id prev_id : ObjectId)
    (prev_entry_status : Status) (w : World State) (pending : List Write)
    (hb : w.st.batch = some pending) :
    (putCounters backend j object_id prev_id prev_entry_status w).st.entries = w.st.entries ∧
    ∃ cw, (∀ x ∈ cw, x.isCounter = true) ∧
      (putCounters backend j object_id prev_id prev_entry_status w).st.batch =
        some (pending ++ cw) := by
  unfold putCounters
  obtain ⟨e1, c1, hc1, b1⟩ :=
    UpdateValueCounter_model j object_id (fun counter => counter + 1) w pending hb
  obtain ⟨e2, c2, hc2, b2⟩ :=
    UpdateValueCounter_model j prev_id (fun counter => counter - 1)
      (UpdateValueCounter backend j object_id (fun counter => counter + 1) w).2
      (pending ++ c1) b1
  split_ifs
  · refine ⟨e2.trans e1, c1 ++ c2, ?_, by rw [b2, List.append_assoc]⟩
    intro x hx
    rcases List.mem_append.1 hx with h | h
    · exact hc1 x h
    · exact hc2 x h
  · exact ⟨e1, c1, hc1, b1⟩
  · exact ⟨rfl, [], by simp, by simpa using hb⟩

theorem deleteCounters_model (j : JournalDBImpl) (prev_id : ObjectId)
    (prev_entry_status : Status) (w : World State) (pending : List Write)
    (hb : w.st.batch = some pending) :
    (deleteCounters backend j prev_id prev_entry_status w).st.entries = w.st.entries ∧
    ∃ cw, (∀ x ∈ cw, x.isCounter = true) ∧
      (deleteCounters backend j prev_id prev_entry_status w).st.batch =
        some (pending ++ cw) := by
  unfold deleteCounters
  split_ifs
  · exact UpdateValueCounter_model j prev_id (fun counter => counter - 1) w pending hb
  · exact ⟨rfl, [], by simp, by simpa using hb⟩

/-- Executing a batch made of one journal entry followed by counter writes stores
that entry, and nothing else, among the entries of the journal. -/
theorem BatchExecute_entry (s : State) (id : JournalId) (key : Key) (staged : Staged)
    (cw : List Write) (hcw : ∀ x ∈ cw, x.isCounter = true)
    (hb : s.batch = some (Write.JournalEntry id key staged :: cw))
    (hok : s.BatchExecute.1 = Status.OK) :
    s.BatchExecute.2.entries id = upsert key staged (s.entries id) := by
  have he := fault_entries s
  have hbf := fault_batch s
  rw [hb] at hbf
  unfold State.BatchExecute at hok ⊢
  rcases hf : s.fault with ⟨f, s1⟩
  rw [hf] at he hbf hok
  simp only at he hbf hok ⊢
  by_cases hfo : f = Status.OK
  · simp only [hfo, ne_eq, not_true_eq_false, if_false, hbf, List.foldl_cons]
    rw [foldl_apply_counter_entries cw hcw]
    simp [State.apply, he]
  · simp [hfo] at hok

/-- On the model, a `Put` that returns OK leaves the journal as it was and stores
its entry under the key, replacing what was staged there. -/
theorem Put_ok_entries (j : JournalDBImpl) (key : Key) (object_id : ObjectId)
    (priority : KeyPriority) (w : World State)
    (hok : (j.Put backend key object_id priority w).1 = Status.OK) :
    (j.Put backend key object_id priority w).2.1 = j ∧
    (j.Put backend key object_id priority w).2.2.st.entries j.id_ =
      upsert key (some (object_id, priority)) (w.st.entries j.id_) := by
  rw [Put_unfold] at hok ⊢
  split_ifs at hok ⊢
  · rename_i h1 h2
    exact absurd hok h2
  · rename_i h1 h2
    refine ⟨rfl, ?_⟩
    have hq := GetJournalValue_quiet w.st j.id_ key
    have ht := tryWrite_pending
      { (w.st.GetJournalValue j.id_ key).2 with batch := some [] }
      (Write.JournalEntry j.id_ key (some (object_id, priority))) [] rfl
    have hadd : (DB.AddJournalEntry backend j.id_ key object_id priority
        (DB.StartBatch backend (DB.GetJournalValue backend j.id_ key w).2)).2.st.batch =
        some [Write.JournalEntry j.id_ key (some (object_id, priority))] := by
      rcases ht.2 with ⟨-, h⟩ | ⟨h, -⟩
      · exact h
      · exact absurd h h2
    obtain ⟨e1, cw, hcw, b1⟩ := putCounters_model j object_id
      (DB.GetJournalValue backend j.id_ key w).1.2 (DB.GetJournalValue backend j.id_ key w).1.1
      (DB.AddJournalEntry backend j.id_ key object_id priority
        (DB.StartBatch backend (DB.GetJournalValue backend j.id_ key w).2)).2 _ hadd
    have hexec := BatchExecute_entry _ j.id_ key (some (object_id, priority)) cw hcw b1 hok
    have hent : (DB.AddJournalEntry backend j.id_ key object_id priority
        (DB.StartBatch backend (DB.GetJournalValue backend j.id_ key w).2)).2.st.entries =
        w.st.entries := ht.1.trans hq.1
    rw [e1, hent] at hexec
    exact hexec

/-- On the model, a `Delete` that returns OK leaves the journal as it was and stores
a tombstone under the key. -/
theorem Delete_ok_entries (j : JournalDBImpl) (key : Key) (w : World State)
    (hok : (j.Delete backend key w).1 = Status.OK) :
    (j.Delete backend key w).2.1 = j ∧
    (j.Delete backend key w).2.2.st.entries j.id_ = upsert key none (w.st.entries j.id_) := by
  rw [Delete_unfold] at hok ⊢
  split_ifs at hok ⊢
  · rename_i h1 h2
    exact absurd hok h2
  · rename_i h1 h2
    refine ⟨rfl, ?_⟩
    have hq := GetJournalValue_quiet w.st j.id_ key
    have ht := tryWrite_pending
      { (w.st.GetJournalValue j.id_ key).2 with batch := some [] }
      (Write.JournalEntry j.id_ key none) [] rfl
    have hadd : (DB.RemoveJournalEntry backend j.id_ key
        (DB.StartBatch backend (DB.GetJournalValue backend j.id_ key w).2)).2.st.batch =
        some [Write.JournalEntry j.id_ key none] := by
      rcases ht.2 with ⟨-, h⟩ | ⟨h, -⟩
      · exact h
      · exact absurd h h2
    obtain ⟨e1, cw, hcw, b1⟩ := deleteCounters_model j
      (DB.GetJournalValue backend j.id_ key w).1.2 (DB.GetJournalValue backend j.id_ key w).1.1
      (DB.RemoveJournalEntry backend j.id_ key
        (DB.StartBatch backend (DB.GetJournalValue backend j.id_ key w).2)).2 _ hadd
    have hexec := BatchExecute_entry _ j.id_ key none cw hcw b1 hok
    have hent : (DB.RemoveJournalEntry backend j.id_ key
        (DB.StartBatch backend (DB.GetJournalValue backend j.id_ key w).2)).2.st.entries =
        w.st.entries := ht.1.trans hq.1
    rw [e1, hent] at hexec
    exact hexec

theorem keyLt_irrefl (a : Key) : ¬ keyLt a a := lt_irrefl a.data

theorem keyLt_trans {a b c : Key} (h1 : keyLt a b) (h2 : keyLt b c) : keyLt a c :=
  lt_trans (α := List Char) h1 h2

theorem keyLt_of_not {a b : Key} (hne : a ≠ b) (hlt : ¬ keyLt a b) : keyLt b a := by
  rcases lt_trichotomy a.data b.data with h | h | h
  · exact absurd h hlt
  · exact absurd (String.ext h) hne
  · exact h

theorem mem_upsert {α : Type} (key : Key) (v : α) (m : List (Key × α)) (b : Key × α)
    (h : b ∈ upsert key v m) : b = (key, v) ∨ b ∈ m := by
  induction m with
  | nil => simp [upsert] at h; exact Or.inl h
  | cons e rest ih =>
    obtain ⟨k, x⟩ := e
    unfold upsert at h
    split_ifs at h with h1 h2
    · rcases List.mem_cons.1 h with h | h
      · exact Or.inl h
      · exact Or.inr (List.mem_cons_of_mem _ h)
    · rcases List.mem_cons.1 h with h | h
      · exact Or.inl h
      · exact Or.inr h
    · rcases List.mem_cons.1 h with h | h
      · exact Or.inr (h ▸ List.mem_cons_self _ _)
      · rcases ih h with h | h
        · exact Or.inl h
        · exact Or.inr (List.mem_cons_of_mem _ h)

/-- A put keeps an ordered map ascending. -/
theorem upsert_ascending {α : Type} (key : Key) (v : α) (m : List (Key × α))
    (h : Ascending m) : Ascending (upsert key v m) := by
  induction m with
  | nil => simp [upsert, Ascending]
  | cons e rest ih =>
    obtain ⟨k, x⟩ := e
    unfold Ascending at h ⊢
    rw [List.pairwise_cons] at h
    unfold upsert
    split_ifs with h1 h2
    · rw [List.pairwise_cons]
      exact ⟨fun b hb => by rw [h1]; exact h.1 b hb, h.2⟩
    · rw [List.pairwise_cons]
      refine ⟨?_, List.pairwise_cons.2 h⟩
      intro b hb
      rcases List.mem_cons.1 hb with hb | hb
      · rw [hb]; exact h2
      · exact keyLt_trans h2 (h.1 b hb)
    · rw [List.pairwise_cons]
      refine ⟨?_, ih h.2⟩
      intro b hb
      rcases mem_upsert key v rest b hb with hb | hb
      · rw [hb]; exact keyLt_of_not h1 h2
      · exact h.1 b hb

theorem find_upsert_same {α : Type} (key : Key) (v : α) (m : List (Key × α)) :
    find key (upsert key v m) = some v := by
  induction m with
  | nil => simp [upsert, find]
  | cons e rest ih =>
    obtain ⟨k, x⟩ := e
    unfold upsert
    split_ifs with h1 h2
    · simp [find]
    · simp [find]
    · simp [find, h1, ih]

theorem find_upsert_other {α : Type} (key other : Key) (v : α) (m : List (Key × α))
    (hne : other ≠ key) : find key (upsert other v m) = find key m := by
  induction m with
  | nil => simp [upsert, find, Ne.symm hne]
  | cons e rest ih =>
    obtain ⟨k, x⟩ := e
    unfold upsert
    split_ifs with h1 h2
    · have : key ≠ k := fun h => hne (h1.trans h.symm)
      simp [find, Ne.symm hne, this]
    · simp [find, Ne.symm hne]
    · by_cases hk : key = k <;> simp [find, hk, ih]

/-- In an ascending map the binding found for a key is the only one for it. -/
theorem filter_of_find {α : Type} (key : Key) (v : α) (m : List (Key × α))
    (hasc : Ascending m) (h : find key m = some v) :
    m.filter (fun e => decide (e.1 = key)) = [(key, v)] := by
  induction m with
  | nil => simp [find] at h
  | cons e rest ih =>
    obtain ⟨k, x⟩ := e
    unfold Ascending at hasc
    rw [List.pairwise_cons] at hasc
    unfold find at h
    split_ifs at h with h1
    · simp only [Option.some.injEq] at h
      subst h1 h
      have hrest : rest.filter (fun e => decide (e.1 = key)) = [] := by
        rw [List.filter_eq_nil_iff]
        intro b hb
        have hlt := hasc.1 b hb
        simp only [decide_eq_true_eq]
        intro hbk
        rw [hbk] at hlt
        exact keyLt_irrefl key hlt
      simp [List.filter_cons, hrest]
    · have : ¬ k = key := fun hk => h1 hk.symm
      simp only [List.filter_cons, this, decide_False, Bool.false_eq_true, if_false]
      exact ih hasc.2 h

/-- The binding of a key after a sequence of operations is what the last
operation on that key staged. -/
theorem find_foldl_stage (key : Key) (ops : List Op) (m : List (Key × Staged))
    (acc : Option Op) (hacc : ∀ op, acc = some op → find key m = some op.staged) (op : Op)
    (h : ops.foldl (fun acc op => if op.key = key then some op else acc) acc = some op) :
    find key (ops.foldl stage m) = some op.staged := by
  induction ops generalizing m acc with
  | nil => exact hacc op h
  | cons o rest ih =>
    simp only [List.foldl_cons] at h ⊢
    refine ih (stage m o) _ ?_ h
    intro op2 hop2
    unfold stage
    split_ifs at hop2 with hk
    · simp only [Option.some.injEq] at hop2
      subst hop2
      rw [← hk]
      exact find_upsert_same _ _ _
    · rw [find_upsert_other key o.key _ _ hk]
      exact hacc op2 hop2

theorem foldl_stage_ascending (ops : List Op) (m : List (Key × Staged)) (h : Ascending m) :
    Ascending (ops.foldl stage m) := by
  induction ops generalizing m with
  | nil => exact h
  | cons o rest ih => exact ih _ (upsert_ascending _ _ _ h)

/-- On the model, a sequence of operations that all return OK leaves the journal
as it was and stages each operation in turn. -/
theorem steps_ok_entries (ops : List Op) (j : JournalDBImpl) (w : World State)
    (hok : ∀ s ∈ (j.steps backend ops w).1, s = Status.OK) :
    (j.steps backend ops w).2.1 = j ∧
    (j.steps backend ops w).2.2.st.entries j.id_ = ops.foldl stage (w.st.entries j.id_) := by
  induction ops generalizing j w with
  | nil => exact ⟨rfl, rfl⟩
  | cons op rest ih =>
    have hunf : j.steps backend (op :: rest) w =
        ((j.step backend op w).1 ::
          ((j.step backend op w).2.1.steps backend rest (j.step backend op w).2.2).1,
          ((j.step backend op w).2.1.steps backend rest (j.step backend op w).2.2).2) := rfl
    rw [hunf] at hok ⊢
    have h1 : (j.step backend op w).1 = Status.OK := hok _ (List.mem_cons_self _ _)
    have hstep : (j.step backend op w).2.1 = j ∧
        (j.step backend op w).2.2.st.entries j.id_ = stage (w.st.entries j.id_) op := by
      cases op with
      | Put key object_id priority => exact Put_ok_entries j key object_id priority w h1
      | Delete key => exact Delete_ok_entries j key w h1
    have hrec := ih (j.step backend op w).2.1 (j.step backend op w).2.2
      (fun s hs => hok s (List.mem_cons_of_mem _ hs))
    rw [hstep.1] at hrec ⊢
    refine ⟨hrec.1, ?_⟩
    simp only [List.foldl_cons]
    rw [hrec.2, hstep.2]

theorem changeKey_toChange (e : Key × Staged) : changeKey (toChange e) = e.1 := by
  obtain ⟨k, v⟩ := e
  cases v with
  | none => rfl
  | some p => rfl

/-- On the model, looking up the parents leaves the staged entries alone. -/
theorem GetParents_entries (j : JournalDBImpl) (w : World State) :
    (GetParents backend j w).2.st.entries = w.st.entries := by
  unfold GetParents
  cases j.other_ with
  | none => exact GetCommit_quiet w.st j.base_
  | some other =>
    exact (GetCommit_quiet (w.st.GetCommit j.base_).2 other).trans (GetCommit_quiet w.st j.base_)

end Model

/-! ### `Commit` from `AddCommitFromLocal` on -/

namespace JournalDBImpl

/-- `Commit` once the parents are found, the entries read and the changes applied:
the no-op return when there is one parent and the root is its root, a new
commit otherwise. -/
theorem Commit_prepared (E : Backend σ) (j : JournalDBImpl) (w wp we wa : World σ)
    (front : storage.Commit) (rest : List storage.Commit) (entries : List EntryChange)
    (object_id : ObjectId) (new_nodes : List ObjectId) (h0 : j.rejects = false)
    (hp : GetParents E j w = ((Status.OK, front :: rest), wp))
    (he : DB.GetJournalEntries E j.id_ wp = ((Status.OK, entries), we))
    (ha : btree.ApplyChanges E front.root_id entries we =
      ((Status.OK, object_id, new_nodes), wa)) :
    j.Commit E w =
      if (front :: rest).length = 1 ∧ front.root_id = object_id then
        (((j.Rollback E (FTL_DCHECK new_nodes.isEmpty wa)).1, some front),
          (j.Rollback E (FTL_DCHECK new_nodes.isEmpty wa)).2)
      else
        j.commitNew E (E.FromContentAndParents object_id (front :: rest) wa.st) new_nodes wa := by
  rw [Commit_unfold]
  unfold commitNew closed
  simp only [h0, hp, he, ha, Bool.false_eq_true, if_false, ne_eq, not_true_eq_false]

/-- With both parents found, `GetParents` reports them in the order base, other. -/
theorem GetParents_pair (E : Backend σ) (j : JournalDBImpl) (w w1 w2 : World σ)
    (other : CommitId) (pb po : storage.Commit) (hother : j.other_ = some other)
    (hb : PageStorage.GetCommit E j.base_ w = ((Status.OK, pb), w1))
    (ho : PageStorage.GetCommit E other w1 = ((Status.OK, po), w2)) :
    GetParents E j w = ((Status.OK, [pb, po]), w2) := by
  unfold GetParents
  rw [hb]
  simp only [hother]
  rw [ho]
  simp [Waiter.Finalize]

/-- When every `MarkObjectIdUnsynced` is OK the loop has called it on each
element, in order. -/
theorem markUnsynced_ok (E : Backend σ) (l : List ObjectId) (w : World σ)
    (h : (markUnsynced E l w).1 = Status.OK) :
    (markUnsynced E l w).2.calls = w.calls ++ l.map Call.MarkObjectIdUnsynced := by
  induction l generalizing w with
  | nil => simp [markUnsynced]
  | cons o rest ih =>
    simp only [markUnsynced] at h ⊢
    by_cases hs : (DB.MarkObjectIdUnsynced E o w).1 = Status.OK
    · simp only [hs, ne_eq, not_true_eq_false, if_false] at h ⊢
      rw [ih _ h]
      simp
    · simp only [hs, ne_eq, not_false_eq_true, if_true] at h

/-- The calls of a `ClearCommittedJournal` that returns OK: the values are read, the
new nodes and then the values are marked unsynced in one batch, the batch is
executed, the values are marked tracked and the journal is removed. -/
theorem ClearCommittedJournal_ok (E : Backend σ) (j : JournalDBImpl)
    (new_nodes : List ObjectId) (w : World σ)
    (h : (j.ClearCommittedJournal E new_nodes w).1 = Status.OK) :
    (DB.GetJournalValues E j.id_ w).1.1 = Status.OK ∧
    (j.ClearCommittedJournal E new_nodes w).2.calls =
      w.calls ++ ([Call.GetJournalValues j.id_, Call.StartBatch] ++
        new_nodes.map Call.MarkObjectIdUnsynced ++
        (DB.GetJournalValues E j.id_ w).1.2.map Call.MarkObjectIdUnsynced ++
        [Call.BatchExecute] ++
        (DB.GetJournalValues E j.id_ w).1.2.map Call.MarkObjectTracked ++
        [Call.RemoveJournal j.id_, Call.BatchDestroy]) := by
  simp only [ClearCommittedJournal] at h ⊢
  split_ifs at h ⊢ with h1 h2 h3 h4
  · exact absurd h h1
  · exact absurd h h2
  · exact absurd h h3
  · exact absurd h h4
  · simp only [ne_eq, not_not] at h1 h2 h3
    refine ⟨h1, ?_⟩
    simp [markTracked_calls, markUnsynced_ok E _ _ h3, markUnsynced_ok E _ _ h2]

/-- `ClearCommittedJournal` makes no other calls than its own. -/
theorem ClearCommittedJournal_isClear (E : Backend σ) (j : JournalDBImpl)
    (new_nodes : List ObjectId) (w : World σ) :
    ∃ cs, (j.ClearCommittedJournal E new_nodes w).2.calls = w.calls ++ cs ∧
      cs.all Call.isClear = true := by
  obtain ⟨c1, h1, p1⟩ := markUnsynced_calls E new_nodes
    (DB.StartBatch E (DB.GetJournalValues E j.id_ w).2)
  obtain ⟨c2, h2, p2⟩ := markUnsynced_calls E (DB.GetJournalValues E j.id_ w).1.2
    (markUnsynced E new_nodes (DB.StartBatch E (DB.GetJournalValues E j.id_ w).2)).2
  have q1 : c1.all Call.isClear = true := by
    rw [List.all_eq_true]; intro c hc; obtain ⟨o, rfl⟩ := p1 c hc; rfl
  have q2 : c2.all Call.isClear = true := by
    rw [List.all_eq_true]; intro c hc; obtain ⟨o, rfl⟩ := p2 c hc; rfl
  have q3 : ((DB.GetJournalValues E j.id_ w).1.2.map Call.MarkObjectTracked).all
      Call.isClear = true := by
    rw [List.all_eq_true]; intro c hc; obtain ⟨o, -, rfl⟩ := List.mem_map.1 hc; rfl
  simp only [ClearCommittedJournal]
  split_ifs
  · exact ⟨[Call.GetJournalValues j.id_], by simp, by simp [Call.isClear]⟩
  · exact ⟨Call.GetJournalValues j.id_ :: Call.StartBatch :: c1 ++ [Call.BatchDestroy],
      by simp [h1], by simp only [List.cons_append, List.all_cons, List.all_append, q1]; rfl⟩
  · exact ⟨Call.GetJournalValues j.id_ :: Call.StartBatch :: c1 ++ c2 ++ [Call.BatchDestroy],
      by simp [h1, h2],
      by simp only [List.cons_append, List.all_cons, List.all_append, q1, q2]; rfl⟩
  · exact ⟨Call.GetJournalValues j.id_ :: Call.StartBatch :: c1 ++ c2 ++
        [Call.BatchExecute, Call.BatchDestroy], by simp [h1, h2],
      by simp only [List.cons_append, List.all_cons, List.all_append, q1, q2]; rfl⟩
  · exact ⟨Call.GetJournalValues j.id_ :: Call.StartBatch :: c1 ++ c2 ++ [Call.BatchExecute] ++
        (DB.GetJournalValues E j.id_ w).1.2.map Call.MarkObjectTracked ++
        [Call.RemoveJournal j.id_, Call.BatchDestroy], by simp [h1, h2, markTracked_calls],
      by simp only [List.cons_append, List.all_cons, List.all_append, q1, q2, q3]; rfl⟩

/-- From `AddCommitFromLocal` on, the only calls are those of
`ClearCommittedJournal`. -/
theorem commitNew_calls (E : Backend σ) (j : JournalDBImpl) (commit : storage.Commit)
    (new_nodes : List ObjectId) (wa : World σ) :
    ∃ post, (j.commitNew E commit new_nodes wa).2.2.calls =
        wa.calls ++ Call.AddCommitFromLocal commit :: post ∧
      post.all Call.isClear = true := by
  obtain ⟨cs, hcs, hclear⟩ := ClearCommittedJournal_isClear E j.closed new_nodes
    (PageStorage.AddCommitFromLocal E commit wa).2
  unfold commitNew
  split_ifs
  · exact ⟨[], by simp, rfl⟩
  · exact ⟨cs, by simp [hcs], hclear⟩
  · exact ⟨cs, by simp [hcs], hclear⟩

/-- From `AddCommitFromLocal` on the journal is closed. -/
theorem commitNew_journal (E : Backend σ) (j : JournalDBImpl) (commit : storage.Commit)
    (new_nodes : List ObjectId) (wa : World σ) :
    (j.commitNew E commit new_nodes wa).2.1 = j.closed := by
  unfold commitNew
  split_ifs <;> rfl

/-- When the new commit is reported with OK, it was added and the committed journal
was cleared, both with OK. -/
theorem commitNew_ok (E : Backend σ) (j : JournalDBImpl) (commit : storage.Commit)
    (new_nodes : List ObjectId) (wa : World σ)
    (h : (j.commitNew E commit new_nodes wa).1.1 = Status.OK) :
    (PageStorage.AddCommitFromLocal E commit wa).1 = Status.OK ∧
    (j.closed.ClearCommittedJournal E new_nodes
      (PageStorage.AddCommitFromLocal E commit wa).2).1 = Status.OK ∧
    j.commitNew E commit new_nodes wa =
      ((Status.OK, some commit), j.closed,
        (j.closed.ClearCommittedJournal E new_nodes
          (PageStorage.AddCommitFromLocal E commit wa).2).2) := by
  unfold commitNew at h ⊢
  split_ifs at h ⊢ with h1 h2
  · exact absurd h h1
  · exact absurd h h2
  · simp only [ne_eq, not_not] at h1 h2
    exact ⟨h1, h2, rfl⟩

theorem handed_isClear (cs : List Call) (h : cs.all Call.isClear = true) : handed cs = [] := by
  induction cs with
  | nil => rfl
  | cons c rest ih =>
    simp only [List.all_cons, Bool.and_eq_true] at h
    have hr := ih h.2
    have hc := h.1
    cases c <;> simp [Call.isClear] at hc <;> simp [handed, hr]

/-- The steps a `Commit` that returns OK has gone through: the guard, the parents,
the entries, the changes applied on the root of the first parent. -/
theorem Commit_ok_steps (E : Backend σ) (j : JournalDBImpl) (w : World σ)
    (hok : (j.Commit E w).1.1 = Status.OK) :
    j.rejects = false ∧ (GetParents E j w).1.1 = Status.OK ∧
    (DB.GetJournalEntries E j.id_ (GetParents E j w).2).1.1 = Status.OK ∧
    ∃ front rest, (GetParents E j w).1.2 = front :: rest ∧
      (btree.ApplyChanges E front.root_id
        (DB.GetJournalEntries E j.id_ (GetParents E j w).2).1.2
        (DB.GetJournalEntries E j.id_ (GetParents E j w).2).2).1.1 = Status.OK := by
  rw [Commit_unfold] at hok
  by_cases h0 : j.rejects = true
  · simp [h0] at hok
  have h0f : j.rejects = false := by simpa using h0
  simp only [h0, Bool.false_eq_true, if_false] at hok
  by_cases h1 : (GetParents E j w).1.1 = Status.OK
  swap
  · simp [h1] at hok
  by_cases h2 : (DB.GetJournalEntries E j.id_ (GetParents E j w).2).1.1 = Status.OK
  swap
  · simp [h1, h2] at hok
  simp only [h1, h2, ne_eq, not_true_eq_false, if_false] at hok
  cases hp : (GetParents E j w).1.2 with
  | nil => simp [hp] at hok
  | cons front rest =>
    simp only [hp] at hok
    refine ⟨h0f, h1, h2, front, rest, rfl, ?_⟩
    by_contra h3
    simp [h3] at hok

/-- `Commit_prepared` with the intermediate results named by projections. -/
theorem Commit_prepared_proj (E : Backend σ) (j : JournalDBImpl) (w : World σ)
    (front : storage.Commit) (rest : List storage.Commit) (h0 : j.rejects = false)
    (h1 : (GetParents E j w).1.1 = Status.OK)
    (h2 : (DB.GetJournalEntries E j.id_ (GetParents E j w).2).1.1 = Status.OK)
    (hp : (GetParents E j w).1.2 = front :: rest)
    (h3 : (btree.ApplyChanges E front.root_id
        (DB.GetJournalEntries E j.id_ (GetParents E j w).2).1.2
        (DB.GetJournalEntries E j.id_ (GetParents E j w).2).2).1.1 = Status.OK) :
    j.Commit E w =
      if (front :: rest).length = 1 ∧ front.root_id =
          (btree.ApplyChanges E front.root_id
            (DB.GetJournalEntries E j.id_ (GetParents E j w).2).1.2
            (DB.GetJournalEntries E j.id_ (GetParents E j w).2).2).1.2.1 then
        (((j.Rollback E (FTL_DCHECK (btree.ApplyChanges E front.root_id
            (DB.GetJournalEntries E j.id_ (GetParents E j w).2).1.2
            (DB.GetJournalEntries E j.id_ (GetParents E j w).2).2).1.2.2.isEmpty
            (btree.ApplyChanges E front.root_id
              (DB.GetJournalEntries E j.id_ (GetParents E j w).2).1.2
              (DB.GetJournalEntries E j.id_ (GetParents E j w).2).2).2)).1, some front),
          (j.Rollback E (FTL_DCHECK (btree.ApplyChanges E front.root_id
            (DB.GetJournalEntries E j.id_ (GetParents E j w).2).1.2
            (DB.GetJournalEntries E j.id_ (GetParents E j w).2).2).1.2.2.isEmpty
            (btree.ApplyChanges E front.root_id
              (DB.GetJournalEntries E j.id_ (GetParents E j w).2).1.2
              (DB.GetJournalEntries E j.id_ (GetParents E j w).2).2).2)).2)
      else
        j.commitNew E
          (E.FromContentAndParents
            (btree.ApplyChanges E front.root_id
              (DB.GetJournalEntries E j.id_ (GetParents E j w).2).1.2
              (DB.GetJournalEntries E j.id_ (GetParents E j w).2).2).1.2.1 (front :: rest)
            (btree.ApplyChanges E front.root_id
              (DB.GetJournalEntries E j.id_ (GetParents E j w).2).1.2
              (DB.GetJournalEntries E j.id_ (GetParents E j w).2).2).2.st)
          (btree.ApplyChanges E front.root_id
            (DB.GetJournalEntries E j.id_ (GetParents E j w).2).1.2
            (DB.GetJournalEntries E j.id_ (GetParents E j w).2).2).1.2.2
          (btree.ApplyChanges E front.root_id
            (DB.GetJournalEntries E j.id_ (GetParents E j w).2).1.2
            (DB.GetJournalEntries E j.id_ (GetParents E j w).2).2).2 := by
  rw [Commit_unfold]
  unfold commitNew closed
  simp only [h0, h1, h2, hp, h3, Bool.false_eq_true, if_false, ne_eq, not_true_eq_false]

/-- When `GetParents` is OK on a journal with `other_` set, both lookups were OK and
the parents are their commits, base first. -/
theorem GetParents_ok_pair (E : Backend σ) (j : JournalDBImpl) (w : World σ) (other : CommitId)
    (hother : j.other_ = some other) (hok : (GetParents E j w).1.1 = Status.OK) :
    (PageStorage.GetCommit E j.base_ w).1.1 = Status.OK ∧
    (PageStorage.GetCommit E other (PageStorage.GetCommit E j.base_ w).2).1.1 = Status.OK ∧
    GetParents E j w =
      ((Status.OK, [(PageStorage.GetCommit E j.base_ w).1.2,
          (PageStorage.GetCommit E other (PageStorage.GetCommit E j.base_ w).2).1.2]),
        (PageStorage.GetCommit E other (PageStorage.GetCommit E j.base_ w).2).2) := by
  unfold GetParents at hok ⊢
  rcases hg1 : PageStorage.GetCommit E j.base_ w with ⟨⟨s1, c1⟩, w1⟩
  rw [hg1] at hok
  simp only [hother] at hok ⊢
  rcases hg2 : PageStorage.GetCommit E other w1 with ⟨⟨s2, c2⟩, w2⟩
  rw [hg2] at hok
  by_cases h1 : s1 = Status.OK
  · by_cases h2 : s2 = Status.OK
    · simp [Waiter.Finalize, h1, h2]
    · simp [Waiter.Finalize, h1, h2] at hok
  · simp [Waiter.Finalize, h1] at hok

/-- The calls of `GetParents` are lookups of commits. -/
theorem GetParents_lookups (E : Backend σ) (j : JournalDBImpl) (w : World σ) :
    ∃ others, (GetParents E j w).2.calls = w.calls ++ Call.GetCommit j.base_ :: others ∧
      others.any Call.isAddCommit = false := by
  have hgc := GetParents_calls E j w
  cases ho : j.other_ with
  | none => exact ⟨[], by rw [hgc, ho], rfl⟩
  | some other => exact ⟨[Call.GetCommit other], by rw [hgc, ho], rfl⟩

/-- `Commit` on a journal with `other_` set, once both parents are found, the entries
read and the changes applied: a new commit with both parents, whatever the new
root. -/
theorem Commit_two_parents (E : Backend σ) (j : JournalDBImpl)
    (w w1 w2 w3 w4 : World σ) (other : CommitId) (pb po : storage.Commit)
    (entries : List EntryChange) (object_id : ObjectId) (new_nodes : List ObjectId)
    (hrej : j.rejects = false) (hother : j.other_ = some other)
    (hb : PageStorage.GetCommit E j.base_ w = ((Status.OK, pb), w1))
    (ho : PageStorage.GetCommit E other w1 = ((Status.OK, po), w2))
    (he : DB.GetJournalEntries E j.id_ w2 = ((Status.OK, entries), w3))
    (ha : btree.ApplyChanges E pb.root_id entries w3 =
      ((Status.OK, object_id, new_nodes), w4)) :
    j.Commit E w =
      j.commitNew E (E.FromContentAndParents object_id [pb, po] w4.st) new_nodes w4 ∧
    w4.calls = w.calls ++ [Call.GetCommit j.base_, Call.GetCommit other,
      Call.GetJournalEntries j.id_, Call.ApplyChanges pb.root_id entries] := by
  have hgp := GetParents_pair E j w w1 w2 other pb po hother hb ho
  have hc := Commit_prepared E j w w2 w3 w4 pb [po] entries object_id new_nodes hrej hgp he ha
  have hlen : ¬ (([pb, po] : List storage.Commit).length = 1 ∧ pb.root_id = object_id) := by
    simp
  rw [if_neg hlen] at hc
  have e1 : w1.calls = w.calls ++ [Call.GetCommit j.base_] := by
    rw [← GetCommit_calls E j.base_ w, hb]
  have e2 : w2.calls = w1.calls ++ [Call.GetCommit other] := by
    rw [← GetCommit_calls E other w1, ho]
  have e3 : w3.calls = w2.calls ++ [Call.GetJournalEntries j.id_] := by
    rw [← GetJournalEntries_calls E j.id_ w2, he]
  have e4 : w4.calls = w3.calls ++ [Call.ApplyChanges pb.root_id entries] := by
    rw [← ApplyChanges_calls E pb.root_id entries w3, ha]
  refine ⟨hc, ?_⟩
  rw [e4, e3, e2, e1]
  simp

end JournalDBImpl

/-! ### The per-object counters when no call fails -/

namespace Model

open JournalDBImpl

theorem fault_nil (s : State) (h : s.faults = []) : s.fault = (Status.OK, s) := by
  unfold State.fault; rw [h]

theorem dchecks_append (l1 l2 : List Call) : dchecks (l1 ++ l2) = dchecks l1 ++ dchecks l2 := by
  induction l1 with
  | nil => rfl
  | cons c rest ih => cases c <;> simp [dchecks, ih]

/-- Without faults `GetJournalValue` reports the staged object, or NOT_FOUND with the
output left empty, and leaves the state alone. -/
theorem GetJournalValue_nofault (s : State) (id : JournalId) (key : Key) (h : s.faults = []) :
    s.GetJournalValue id key =
      ((match stagedObject (s.entries id) key with
        | some prev_id => (Status.OK, prev_id)
        | none => (Status.NOT_FOUND, "")), s) := by
  unfold State.GetJournalValue stagedObject
  rw [fault_nil s h]
  simp only [ne_eq, not_true_eq_false, if_false]
  split <;> simp_all

/-- Without faults and with a batch pending, `UpdateValueCounter` adds the counter
update of the object to the batch and checks that the new counter is not
negative. -/
theorem UpdateValueCounter_nofault (j : JournalDBImpl) (object_id : ObjectId)
    (operation : Int → Int) (w : World State) (s : State) (pending : List Write)
    (hf : s.faults = []) (hw : w.st = { s with batch := some pending }) :
    (UpdateValueCounter backend j object_id operation w).2.st =
      { s with batch := some (pending ++
        (counterUpdate s j.id_ object_id operation).map
          (fun u => Write.JournalValueCounter j.id_ u.1 u.2)) } ∧
    dchecks (UpdateValueCounter backend j object_id operation w).2.calls =
      dchecks w.calls ++
        (counterUpdate s j.id_ object_id operation).map (fun u => decide (u.2 ≥ 0)) := by
  rw [UpdateValueCounter_unfold]
  have hunt : (PageStorage.ObjectIsUntracked backend object_id w).1 =
      decide (object_id ∈ s.untracked) := by
    show decide (object_id ∈ w.st.untracked) = _
    rw [hw]
  have hst1 : (PageStorage.ObjectIsUntracked backend object_id w).2.st = w.st := rfl
  have hfw : w.st.faults = [] := by rw [hw]; exact hf
  have hget : (DB.GetJournalValueCounter backend j.id_ object_id
      (PageStorage.ObjectIsUntracked backend object_id w).2).1 =
      (Status.OK, counterOf object_id (s.counters j.id_)) := by
    show (w.st.GetJournalValueCounter j.id_ object_id).1 = _
    unfold State.GetJournalValueCounter
    rw [fault_nil _ hfw, hw]
    simp
  have hgetst : (DB.GetJournalValueCounter backend j.id_ object_id
      (PageStorage.ObjectIsUntracked backend object_id w).2).2.st = w.st := by
    show (w.st.GetJournalValueCounter j.id_ object_id).2 = _
    unfold State.GetJournalValueCounter
    rw [fault_nil _ hfw]
    simp
  by_cases hu : object_id ∈ s.untracked
  · have hu1 : (PageStorage.ObjectIsUntracked backend object_id w).1 = true := by
      rw [hunt]; simpa using hu
    simp only [hu1, Bool.true_eq_false, if_false, hget, ne_eq, not_true_eq_false]
    constructor
    · show (State.tryWrite _ _).2 = _
      unfold State.tryWrite
      have hd : ∀ (b : Bool) (x : World State), (FTL_DCHECK b x).st = x.st := fun _ _ => rfl
      rw [hd, hgetst, fault_nil _ hfw]
      simp only [ne_eq, not_true_eq_false, if_false, State.write, hw, counterUpdate, hu,
        if_true, List.map_cons, List.map_nil]
    · simp only [SetJournalValueCounter_calls, DCHECK_calls, GetJournalValueCounter_calls,
        ObjectIsUntracked_calls, dchecks_append, dchecks, counterUpdate, hu, if_true,
        List.map_cons, List.map_nil, List.append_nil, List.append_assoc, List.nil_append]
  · have hu1 : (PageStorage.ObjectIsUntracked backend object_id w).1 = false := by
      rw [hunt]; simpa using hu
    simp only [hu1, if_true, counterUpdate, hu, if_false, List.map_nil, List.append_nil]
    exact ⟨hw, by simp [dchecks_append, dchecks]⟩

theorem GetJournalValue_world (id : JournalId) (key : Key) (w : World State)
    (hf : w.st.faults = []) :
    DB.GetJournalValue backend id key w =
      (prevOf (w.st.entries id) key,
       { calls := w.calls ++ [Call.GetJournalValue id key], st := w.st }) := by
  show ((w.st.GetJournalValue id key).1,
    ({ calls := _, st := (w.st.GetJournalValue id key).2 } : World State)) = _
  rw [GetJournalValue_nofault _ _ _ hf]
  rfl

/-- The counter updates of `Put` without faults, with a batch pending. -/
theorem putCounters_nofault (j : JournalDBImpl) (key : Key) (object_id : ObjectId)
    (w : World State) (s : State) (pending : List Write)
    (hf : s.faults = []) (hw : w.st = { s with batch := some pending }) :
    (putCounters backend j object_id (prevOf (s.entries j.id_) key).2
        (prevOf (s.entries j.id_) key).1 w).st =
      { s with batch := some (pending ++
        (putUpdates s j.id_ key object_id).map
          (fun u => Write.JournalValueCounter j.id_ u.1 u.2)) } ∧
    dchecks (putCounters backend j object_id (prevOf (s.entries j.id_) key).2
        (prevOf (s.entries j.id_) key).1 w).calls =
      dchecks w.calls ++ (putUpdates s j.id_ key object_id).map (fun u => decide (u.2 ≥ 0)) := by
  unfold putCounters prevOf putUpdates
  cases hs : stagedObject (s.entries j.id_) key with
  | none =>
    simp only
    by_cases ho : object_id = ""
    · simp only [ho, ne_eq, not_true_eq_false, if_false, List.map_nil, List.append_nil]
      exact ⟨hw, trivial⟩
    · simp only [ho, ne_eq, not_false_eq_true, if_true, reduceCtorEq, if_false]
      exact UpdateValueCounter_nofault j object_id _ w s pending hf hw
  | some prev_id =>
    simp only
    by_cases ho : object_id = prev_id
    · simp only [ho, ne_eq, not_true_eq_false, if_false, List.map_nil, List.append_nil]
      exact ⟨hw, trivial⟩
    · simp only [ho, ne_eq, not_false_eq_true, if_true]
      have h1 := UpdateValueCounter_nofault j object_id (fun counter => counter + 1) w s pending
        hf hw
      have h2 := UpdateValueCounter_nofault j prev_id (fun counter => counter - 1)
        (UpdateValueCounter backend j object_id (fun counter => counter + 1) w).2 s _ hf h1.1
      refine ⟨?_, ?_⟩
      · rw [h2.1, List.map_append, List.append_assoc]
      · rw [h2.2, h1.2, List.map_append, List.append_assoc]

/-- The counter update of `Delete` without faults, with a batch pending. -/
theorem deleteCounters_nofault (j : JournalDBImpl) (key : Key)
    (w : World State) (s : State) (pending : List Write)
    (hf : s.faults = []) (hw : w.st = { s with batch := some pending }) :
    (deleteCounters backend j (prevOf (s.entries j.id_) key).2
        (prevOf (s.entries j.id_) key).1 w).st =
      { s with batch := some (pending ++
        (deleteUpdates s j.id_ key).map
          (fun u => Write.JournalValueCounter j.id_ u.1 u.2)) } ∧
    dchecks (deleteCounters backend j (prevOf (s.entries j.id_) key).2
        (prevOf (s.entries j.id_) key).1 w).calls =
      dchecks w.calls ++ (deleteUpdates s j.id_ key).map (fun u => decide (u.2 ≥ 0)) := by
  unfold deleteCounters prevOf deleteUpdates
  cases hs : stagedObject (s.entries j.id_) key with
  | none =>
    simp only [reduceCtorEq, if_false, List.map_nil, List.append_nil]
    exact ⟨hw, trivial⟩
  | some prev_id =>
    simp only [if_true]
    exact UpdateValueCounter_nofault j prev_id _ w s pending hf hw

/-- Without faults, executing and destroying a pending batch applies its writes. -/
theorem Execute_nofault (w : World State) (s : State) (pending : List Write)
    (hf : s.faults = []) (hw : w.st = { s with batch := some pending }) :
    (Batch.Execute backend w).1 = Status.OK ∧
    (Batch.Destroy backend (Batch.Execute backend w).2).st =
      { (pending.foldl State.apply { s with batch := none }) with batch := none } ∧
    dchecks (Batch.Destroy backend (Batch.Execute backend w).2).calls = dchecks w.calls := by
  have hfw : w.st.faults = [] := by rw [hw]; exact hf
  have he : w.st.BatchExecute = (Status.OK, pending.foldl State.apply { s with batch := none }) := by
    unfold State.BatchExecute
    rw [fault_nil _ hfw, hw]
    simp
  refine ⟨?_, ?_, ?_⟩
  · show (w.st.BatchExecute).1 = _
    rw [he]
  · show ({ (w.st.BatchExecute).2 with batch := none } : State) = _
    rw [he]
  · simp [dchecks_append, dchecks]

/-- Without faults a fallible write to a pending batch is appended to it. -/
theorem tryWrite_nofault (s : State) (pending : List Write) (wr : Write) (hf : s.faults = []) :
    ({ s with batch := some pending } : State).tryWrite wr =
      (Status.OK, { s with batch := some (pending ++ [wr]) }) := by
  unfold State.tryWrite
  rw [fault_nil _ (by exact hf)]
  simp [State.write]

/-- Without faults a `Put` on a journal that accepts operations returns OK, leaves
the journal object alone, and stores the entry and the counter updates of
`putUpdates`; each update is checked by one `FTL_DCHECK`. -/
theorem Put_nofault (j : JournalDBImpl) (key : Key) (object_id : ObjectId)
    (priority : KeyPriority) (w : World State) (hf : w.st.faults = [])
    (hrej : j.rejects = false) :
    (j.Put backend key object_id priority w).1 = Status.OK ∧
    (j.Put backend key object_id priority w).2.1 = j ∧
    (j.Put backend key object_id priority w).2.2.st =
      afterBatch w.st j.id_ key (some (object_id, priority))
        (putUpdates w.st j.id_ key object_id) ∧
    dchecks (j.Put backend key object_id priority w).2.2.calls =
      dchecks w.calls ++ (putUpdates w.st j.id_ key object_id).map (fun u => decide (u.2 ≥ 0)) := by
  have ha : (DB.AddJournalEntry backend j.id_ key object_id priority
      (DB.StartBatch backend (DB.GetJournalValue backend j.id_ key w).2)).1 = Status.OK ∧
      (DB.AddJournalEntry backend j.id_ key object_id priority
      (DB.StartBatch backend (DB.GetJournalValue backend j.id_ key w).2)).2.st =
        { w.st with batch := some ([] ++ [Write.JournalEntry j.id_ key (some (object_id, priority))]) } := by
    rw [GetJournalValue_world _ _ _ hf]
    have := tryWrite_nofault w.st [] (Write.JournalEntry j.id_ key (some (object_id, priority))) hf
    constructor
    · show (State.tryWrite _ _).1 = _
      exact congrArg Prod.fst this
    · show (State.tryWrite _ _).2 = _
      exact congrArg Prod.snd this
  have hcalls : dchecks (DB.AddJournalEntry backend j.id_ key object_id priority
      (DB.StartBatch backend (DB.GetJournalValue backend j.id_ key w).2)).2.calls =
      dchecks w.calls := by
    simp [dchecks_append, dchecks]
  rw [Put_unfold]
  simp only [hrej, Bool.false_eq_true, if_false, ha.1, ne_eq, not_true_eq_false]
  have hv : (DB.GetJournalValue backend j.id_ key w).1 = prevOf (w.st.entries j.id_) key := by
    rw [GetJournalValue_world _ _ _ hf]
  rw [hv]
  have hc := putCounters_nofault j key object_id _ w.st _ hf ha.2
  have he := Execute_nofault _ w.st _ hf hc.1
  refine ⟨he.1, trivial, ?_, ?_⟩
  · rw [he.2.1]; rfl
  · rw [he.2.2, hc.2, hcalls]

/-- Without faults a `Delete` on a journal that accepts operations returns OK,
leaves the journal object alone, and stores the tombstone and the counter update
of `deleteUpdates`, checked by one `FTL_DCHECK`. -/
theorem Delete_nofault (j : JournalDBImpl) (key : Key) (w : World State)
    (hf : w.st.faults = []) (hrej : j.rejects = false) :
    (j.Delete backend key w).1 = Status.OK ∧
    (j.Delete backend key w).2.1 = j ∧
    (j.Delete backend key w).2.2.st =
      afterBatch w.st j.id_ key none (deleteUpdates w.st j.id_ key) ∧
    dchecks (j.Delete backend key w).2.2.calls =
      dchecks w.calls ++ (deleteUpdates w.st j.id_ key).map (fun u => decide (u.2 ≥ 0)) := by
  have ha : (DB.RemoveJournalEntry backend j.id_ key
      (DB.StartBatch backend (DB.GetJournalValue backend j.id_ key w).2)).1 = Status.OK ∧
      (DB.RemoveJournalEntry backend j.id_ key
      (DB.StartBatch backend (DB.GetJournalValue backend j.id_ key w).2)).2.st =
        { w.st with batch := some ([] ++ [Write.JournalEntry j.id_ key none]) } := by
    rw [GetJournalValue_world _ _ _ hf]
    have := tryWrite_nofault w.st [] (Write.JournalEntry j.id_ key none) hf
    constructor
    · show (State.tryWrite _ _).1 = _
      exact congrArg Prod.fst this
    · show (State.tryWrite _ _).2 = _
      exact congrArg Prod.snd this
  have hcalls : dchecks (DB.RemoveJournalEntry backend j.id_ key
      (DB.StartBatch backend (DB.GetJournalValue backend j.id_ key w).2)).2.calls =
      dchecks w.calls := by
    simp [dchecks_append, dchecks]
  rw [Delete_unfold]
  simp only [hrej, Bool.false_eq_true, if_false, ha.1, ne_eq, not_true_eq_false]
  have hv : (DB.GetJournalValue backend j.id_ key w).1 = prevOf (w.st.entries j.id_) key := by
    rw [GetJournalValue_world _ _ _ hf]
  rw [hv]
  have hc := deleteCounters_nofault j key _ w.st _ hf ha.2
  have he := Execute_nofault _ w.st _ hf hc.1
  refine ⟨he.1, trivial, ?_, ?_⟩
  · rw [he.2.1]; rfl
  · rw [he.2.2, hc.2, hcalls]

theorem foldl_counterWrites (id : JournalId) (updates : List (ObjectId × Int)) (s : State) :
    (updates.map (fun u => Write.JournalValueCounter id u.1 u.2)).foldl State.apply s =
      { s with counters := Function.update s.counters id (updated updates (s.counters id)) } := by
  induction updates generalizing s with
  | nil => simp [updated]
  | cons u rest ih =>
    rw [List.map_cons, List.foldl_cons, ih]
    simp [State.apply, updated]

/-- What a batch of one journal entry and counter updates leaves in the state. -/
theorem afterBatch_eq (s : State) (id : JournalId) (key : Key) (staged : Staged)
    (updates : List (ObjectId × Int)) :
    afterBatch s id key staged updates =
      { s with batch := none,
               entries := Function.update s.entries id (upsert key staged (s.entries id)),
               counters := Function.update s.counters id (updated updates (s.counters id)) } := by
  unfold afterBatch
  rw [List.foldl_cons, foldl_counterWrites]
  simp [State.apply]

theorem stagedObject_eq (m : List (Key × Staged)) (key : Key) :
    stagedObject m key = (find key m).bind (fun staged => staged.map Prod.fst) := by
  unfold stagedObject
  rcases find key m with _ | _ | ⟨o, p⟩ <;> rfl

theorem find_none_of_lt {α : Type} (key : Key) (m : List (Key × α))
    (h : ∀ e ∈ m, keyLt key e.1) : find key m = none := by
  induction m with
  | nil => rfl
  | cons e rest ih =>
    obtain ⟨k, x⟩ := e
    have hk : key ≠ k := fun hk => keyLt_irrefl k (hk ▸ h (k, x) (List.mem_cons_self _ _))
    simp only [find, hk, if_false]
    exact ih (fun e he => h e (List.mem_cons_of_mem _ he))

theorem holders_cons (o : ObjectId) (k : Key) (x : Staged) (rest : List (Key × Staged)) :
    (holders o ((k, x) :: rest) : Int) =
      holders o rest + (if x.map Prod.fst = some o then 1 else 0) := by
  simp only [holders, List.countP_cons]
  split_ifs <;> simp_all

/-- Staging under a key of an ascending map: the object staged there before loses a
holder, the object staged now gains one. -/
theorem holders_upsert (o : ObjectId) (key : Key) (staged : Staged) (m : List (Key × Staged))
    (hasc : Ascending m) :
    (holders o (upsert key staged m) : Int) =
      holders o m - (if stagedObject m key = some o then 1 else 0) +
        (if staged.map Prod.fst = some o then 1 else 0) := by
  induction m with
  | nil =>
    have h1 : stagedObject ([] : List (Key × Staged)) key = none := rfl
    have h2 : holders o ([] : List (Key × Staged)) = 0 := rfl
    rw [h1]
    simp only [upsert, holders_cons, h2, reduceCtorEq, if_false]
    ring
  | cons e rest ih =>
    obtain ⟨k, x⟩ := e
    unfold Ascending at hasc
    rw [List.pairwise_cons] at hasc
    have ih := ih hasc.2
    rw [stagedObject_eq] at ih ⊢
    by_cases h1 : key = k
    · subst h1
      have hu : upsert key staged ((key, x) :: rest) = (key, staged) :: rest := by
        simp [upsert]
      have hf : find key ((key, x) :: rest) = some x := by simp [find]
      rw [hu, hf, holders_cons, holders_cons]
      simp only [Option.some_bind]
      ring
    · by_cases h2 : keyLt key k
      · have hu : upsert key staged ((k, x) :: rest) = (key, staged) :: (k, x) :: rest := by
          simp [upsert, h1, h2]
        have hf : find key ((k, x) :: rest) = none := by
          apply find_none_of_lt
          intro e he
          rcases List.mem_cons.1 he with rfl | he
          · exact h2
          · exact keyLt_trans h2 (hasc.1 e he)
        rw [hu, hf, holders_cons]
        simp only [Option.none_bind, reduceCtorEq, if_false]
        ring
      · have hu : upsert key staged ((k, x) :: rest) = (k, x) :: upsert key staged rest := by
          simp [upsert, h1, h2]
        have hf : find key ((k, x) :: rest) = find key rest := by simp [find, h1]
        rw [hu, hf, holders_cons, holders_cons, ih]
        ring

theorem counterOf_upsert (x a : ObjectId) (v : Int) (cs : List (ObjectId × Int)) :
    counterOf x (upsert a v cs) = if x = a then v else counterOf x cs := by
  unfold counterOf
  by_cases h : x = a
  · subst h
    simp [find_upsert_same]
  · rw [find_upsert_other x a v cs (Ne.symm h)]
    simp [h]

/-- An object staged under a key has at least one holder. -/
theorem holders_pos (o : ObjectId) (key : Key) (m : List (Key × Staged)) (hasc : Ascending m)
    (h : stagedObject m key = some o) : (1 : Int) ≤ holders o m := by
  have := holders_upsert o key none m hasc
  simp only [h, if_true, Option.map_none', reduceCtorEq, if_false] at this
  omega

/-- Without faults the counter updates of a `Put` keep the counters in agreement
with the staged entries, and none of the new counters is negative. -/
theorem putUpdates_counted (s : State) (id : JournalId) (key : Key) (object_id : ObjectId)
    (priority : KeyPriority) (hasc : Ascending (s.entries id)) (hempty : "" ∉ s.untracked)
    (hinv : Counted s id) :
    Counted (afterBatch s id key (some (object_id, priority)) (putUpdates s id key object_id)) id ∧
    ∀ u ∈ putUpdates s id key object_id, 0 ≤ u.2 := by
  have hnn : ∀ o, o ∈ s.untracked → 0 ≤ counterOf o (s.counters id) := by
    intro o ho
    rw [hinv o, if_pos ho]
    exact Int.natCast_nonneg _
  constructor
  · intro x
    have hx := hinv x
    have hh := holders_upsert x key (some (object_id, priority)) (s.entries id) hasc
    rw [afterBatch_eq]
    simp only [Function.update_same, hh, Option.map_some']
    unfold putUpdates counterUpdate updated
    cases hs : stagedObject (s.entries id) key with
    | none =>
      simp only [reduceCtorEq, if_false, sub_zero]
      by_cases ho : object_id = ""
      · simp only [ho, ne_eq, not_true_eq_false, if_false, List.foldl_nil, hx]
        split_ifs with h1 h2
        · simp only [Option.some.injEq] at h2
          exact absurd (h2 ▸ h1) hempty
        · simp
        · rfl
      · by_cases hu : object_id ∈ s.untracked
        · simp only [ho, ne_eq, not_false_eq_true, if_true, hu, List.foldl_cons, List.foldl_nil,
            counterOf_upsert, Option.some.injEq]
          by_cases hxo : x = object_id
          · subst hxo
            simp [hx, hu]
          · simp [hxo, Ne.symm hxo, hx]
        · simp only [ho, ne_eq, not_false_eq_true, if_true, hu, if_false, List.foldl_nil, hx,
            Option.some.injEq]
          by_cases hxo : x = object_id
          · subst hxo
            simp [hu]
          · simp [Ne.symm hxo]
    | some prev_id =>
      simp only [Option.some.injEq]
      have hp := hinv prev_id
      have hoo := hinv object_id
      by_cases ho : object_id = prev_id
      · subst ho
        simp only [ne_eq, not_true_eq_false, if_false, List.foldl_nil, hx]
        split_ifs <;> simp
      · simp only [ho, ne_eq, not_false_eq_true, if_true]
        by_cases hu : object_id ∈ s.untracked <;> by_cases hv : prev_id ∈ s.untracked <;>
          by_cases hxo : x = object_id <;> by_cases hxp : x = prev_id <;>
          (simp_all [counterOf_upsert, eq_comm]; try omega)
  · intro u hu
    unfold putUpdates counterUpdate at hu
    cases hs : stagedObject (s.entries id) key with
    | none =>
      rw [hs] at hu
      simp only at hu
      split_ifs at hu with h1 h2
      · simp only [List.mem_singleton] at hu
        subst hu
        have := hnn object_id h2
        show 0 ≤ counterOf object_id (s.counters id) + 1
        omega
      · simp at hu
      · simp at hu
    | some prev_id =>
      rw [hs] at hu
      simp only at hu
      have hpos := holders_pos prev_id key (s.entries id) hasc hs
      split_ifs at hu with h1 h2 h3 h4
      all_goals simp only [List.mem_append, List.mem_singleton, List.not_mem_nil, or_false,
        false_or, List.append_nil, List.nil_append, List.mem_cons] at hu
      · rcases hu with rfl | rfl
        · have := hnn object_id h2
          show 0 ≤ counterOf object_id (s.counters id) + 1
          omega
        · have := hinv prev_id
          rw [if_pos h3] at this
          show 0 ≤ counterOf prev_id (s.counters id) - 1
          omega
      · subst hu
        have := hnn object_id h2
        show 0 ≤ counterOf object_id (s.counters id) + 1
        omega
      · subst hu
        have := hinv prev_id
        rw [if_pos h4] at this
        show 0 ≤ counterOf prev_id (s.counters id) - 1
        omega

/-- Without faults the counter update of a `Delete` keeps the counters in agreement
with the staged entries, and the new counter is not negative. -/
theorem deleteUpdates_counted (s : State) (id : JournalId) (key : Key)
    (hasc : Ascending (s.entries id)) (hinv : Counted s id) :
    Counted (afterBatch s id key none (deleteUpdates s id key)) id ∧
    ∀ u ∈ deleteUpdates s id key, 0 ≤ u.2 := by
  constructor
  · intro x
    have hx := hinv x
    have hh := holders_upsert x key none (s.entries id) hasc
    rw [afterBatch_eq]
    simp only [Function.update_same, hh, Option.map_none']
    unfold deleteUpdates counterUpdate updated
    cases hs : stagedObject (s.entries id) key with
    | none => simp [hx]
    | some prev_id =>
      simp only [Option.some.injEq, reduceCtorEq, if_false, add_zero]
      by_cases hv : prev_id ∈ s.untracked
      · simp only [hv, if_true, List.foldl_cons, List.foldl_nil, counterOf_upsert]
        by_cases hxp : x = prev_id
        · subst hxp
          simp [hx, hv]
        · simp [hxp, Ne.symm hxp, hx]
      · simp only [hv, if_false, List.foldl_nil, hx]
        by_cases hxp : x = prev_id
        · subst hxp
          simp [hv]
        · simp [Ne.symm hxp]
  · intro u hu
    unfold deleteUpdates counterUpdate at hu
    cases hs : stagedObject (s.entries id) key with
    | none =>
      rw [hs] at hu
      simp at hu
    | some prev_id =>
      rw [hs] at hu
      simp only at hu
      have hpos := holders_pos prev_id key (s.entries id) hasc hs
      split_ifs at hu with h1
      · simp only [List.mem_singleton] at hu
        subst hu
        have := hinv prev_id
        rw [if_pos h1] at this
        show 0 ≤ counterOf prev_id (s.counters id) - 1
        omega
      · simp at hu

theorem afterBatch_fields (s : State) (id : JournalId) (key : Key) (staged : Staged)
    (updates : List (ObjectId × Int)) :
    (afterBatch s id key staged updates).faults = s.faults ∧
    (afterBatch s id key staged updates).untracked = s.untracked ∧
    (afterBatch s id key staged updates).entries id = upsert key staged (s.entries id) := by
  rw [afterBatch_eq]
  simp

/-- Without faults, every operation of a run on a journal that accepts operations
returns OK, the counters stay in agreement with the staged entries, and every
`FTL_DCHECK` of the run holds. -/
theorem steps_counted (ops : List Op) (j : JournalDBImpl) (w : World State)
    (hrej : j.rejects = false) (hf : w.st.faults = []) (hempty : "" ∉ w.st.untracked)
    (hasc : Ascending (w.st.entries j.id_)) (hinv : Counted w.st j.id_) :
    (∀ s ∈ (j.steps backend ops w).1, s = Status.OK) ∧
    (j.steps backend ops w).2.1 = j ∧
    (j.steps backend ops w).2.2.st.untracked = w.st.untracked ∧
    (j.steps backend ops w).2.2.st.entries j.id_ = ops.foldl stage (w.st.entries j.id_) ∧
    Counted (j.steps backend ops w).2.2.st j.id_ ∧
    ∃ checks, dchecks (j.steps backend ops w).2.2.calls = dchecks w.calls ++ checks ∧
      checks.all id = true := by
  induction ops generalizing w with
  | nil => exact ⟨by simp [steps], rfl, rfl, rfl, hinv, [], by simp [steps], rfl⟩
  | cons op rest ih =>
    have hunf : j.steps backend (op :: rest) w =
        ((j.step backend op w).1 ::
          ((j.step backend op w).2.1.steps backend rest (j.step backend op w).2.2).1,
          ((j.step backend op w).2.1.steps backend rest (j.step backend op w).2.2).2) := rfl
    have hstep : (j.step backend op w).1 = Status.OK ∧ (j.step backend op w).2.1 = j ∧
        (j.step backend op w).2.2.st = afterBatch w.st j.id_ op.key op.staged
          (opUpdates w.st j.id_ op) ∧
        dchecks (j.step backend op w).2.2.calls = dchecks w.calls ++
          (opUpdates w.st j.id_ op).map
            (fun u => decide (u.2 ≥ 0)) := by
      cases op with
      | Put key object_id priority => exact Put_nofault j key object_id priority w hf hrej
      | Delete key => exact Delete_nofault j key w hf hrej
    have hcounted : Counted (j.step backend op w).2.2.st j.id_ ∧
        ∀ u ∈ (opUpdates w.st j.id_ op), 0 ≤ u.2 := by
      rw [hstep.2.2.1]
      cases op with
      | Put key object_id priority =>
        exact putUpdates_counted w.st j.id_ key object_id priority hasc hempty hinv
      | Delete key => exact deleteUpdates_counted w.st j.id_ key hasc hinv
    obtain ⟨hfa, hun, hen⟩ := afterBatch_fields w.st j.id_ op.key op.staged
      (opUpdates w.st j.id_ op)
    rw [← hstep.2.2.1] at hfa hun hen
    have hasc1 : Ascending ((j.step backend op w).2.2.st.entries j.id_) := by
      rw [hen]; exact upsert_ascending _ _ _ hasc
    obtain ⟨i1, i2, i3, i4, i5, checks, i6, i7⟩ := ih (j.step backend op w).2.2
      (by rw [hfa]; exact hf) (by rw [hun]; exact hempty) hasc1 hcounted.1
    rw [hunf, hstep.2.1]
    refine ⟨?_, i2, by rw [i3, hun], ?_, i5, _, by rw [i6, hstep.2.2.2, List.append_assoc], ?_⟩
    · intro s hs
      rcases List.mem_cons.1 hs with rfl | hs
      · exact hstep.1
      · exact i1 s hs
    · rw [i4, hen]; rfl
    · rw [List.all_append, i7, Bool.and_true, List.all_eq_true]
      intro b hb
      obtain ⟨u, hu, rfl⟩ := List.mem_map.1 hb
      simpa using hcounted.2 u hu

/-- Without faults, a `Put` on a journal that accepts operations returns OK and
changes the counters of the journal as follows: the counter of the object put
goes up by 1 when the object is untracked and differs from `prev_id` (the
object staged under the key before, the empty id when there is none); the
counter of the object staged before goes down by 1 when that object is
untracked and differs from the object put; no other counter changes. -/
theorem Put_counters (j : JournalDBImpl) (key : Key) (object_id : ObjectId)
    (priority : KeyPriority) (w : World State) (hf : w.st.faults = [])
    (hrej : j.rejects = false) :
    (j.Put backend key object_id priority w).1 = Status.OK ∧
    (j.Put backend key object_id priority w).2.2.st.untracked = w.st.untracked ∧
    ∀ x, counterOf x ((j.Put backend key object_id priority w).2.2.st.counters j.id_) =
      counterOf x (w.st.counters j.id_) +
        (if x = object_id ∧ object_id ≠ (prevOf (w.st.entries j.id_) key).2 ∧
          object_id ∈ w.st.untracked then 1 else 0) -
        (if stagedObject (w.st.entries j.id_) key = some x ∧ x ≠ object_id ∧
          x ∈ w.st.untracked then 1 else 0) := by
  obtain ⟨h1, -, h3, -⟩ := Put_nofault j key object_id priority w hf hrej
  refine ⟨h1, by rw [h3, afterBatch_eq], fun x => ?_⟩
  rw [h3, afterBatch_eq]
  simp only [Function.update_same]
  unfold putUpdates counterUpdate updated prevOf
  cases hs : stagedObject (w.st.entries j.id_) key with
  | none =>
    simp only [reduceCtorEq, false_and, if_false, sub_zero]
    by_cases ho : object_id = ""
    · simp [ho]
    · by_cases hu : object_id ∈ w.st.untracked
      · by_cases hx : x = object_id <;> simp [ho, hu, hx, counterOf_upsert]
      · simp [ho, hu]
  | some prev_id =>
    simp only [Option.some.injEq]
    by_cases ho : object_id = prev_id
    · subst ho
      simp only [ne_eq, not_true_eq_false, if_false, List.foldl_nil, false_and, and_false,
        add_zero]
      split_ifs with h
      · exact absurd h.1.symm h.2.1
      · simp
    · clear h1 h3 hs
      have ho2 : ¬ prev_id = object_id := fun h => ho h.symm
      by_cases hxo : x = object_id
      · subst hxo
        by_cases hu : x ∈ w.st.untracked <;> by_cases hv : prev_id ∈ w.st.untracked <;>
          simp [ho, ho2, hu, hv, counterOf_upsert]
      · by_cases hxp : x = prev_id
        · subst hxp
          by_cases hu : object_id ∈ w.st.untracked <;> by_cases hv : x ∈ w.st.untracked <;>
            simp [ho, ho2, hu, hv, counterOf_upsert]
        · have hxp2 : ¬ prev_id = x := fun h => hxp h.symm
          by_cases hu : object_id ∈ w.st.untracked <;>
            by_cases hv : prev_id ∈ w.st.untracked <;>
            simp [ho, hu, hv, hxo, hxp, hxp2, counterOf_upsert]

/-- Without faults, a `Delete` on a journal that accepts operations returns OK, stages
a tombstone for the key and takes 1 from the counter of the object staged under
the key before when that object is untracked; no other counter changes. -/
theorem Delete_counters (j : JournalDBImpl) (key : Key) (w : World State)
    (hf : w.st.faults = []) (hrej : j.rejects = false) :
    (j.Delete backend key w).1 = Status.OK ∧
    (j.Delete backend key w).2.2.st.entries j.id_ = upsert key none (w.st.entries j.id_) ∧
    ∀ x, counterOf x ((j.Delete backend key w).2.2.st.counters j.id_) =
      counterOf x (w.st.counters j.id_) -
        (if stagedObject (w.st.entries j.id_) key = some x ∧ x ∈ w.st.untracked
          then 1 else 0) := by
  obtain ⟨h1, -, h3, -⟩ := Delete_nofault j key w hf hrej
  refine ⟨h1, by rw [h3, afterBatch_eq]; simp, fun x => ?_⟩
  rw [h3, afterBatch_eq]
  simp only [Function.update_same]
  unfold deleteUpdates counterUpdate updated
  cases hs : stagedObject (w.st.entries j.id_) key with
  | none => simp
  | some prev_id =>
    simp only [Option.some.injEq]
    clear h1 h3 hs
    by_cases hxp : x = prev_id
    · subst hxp
      by_cases hv : x ∈ w.st.untracked <;> simp [hv, counterOf_upsert]
    · have hxp2 : ¬ prev_id = x := fun h => hxp h.symm
      by_cases hv : prev_id ∈ w.st.untracked <;> simp [hv, hxp, hxp2, counterOf_upsert]

end Model

open JournalDBImpl

/-! ### The claims -/

/-- C1: on the model of the database, after any sequence of `Put` and `Delete` that all
return OK on a journal, a `Commit` that returns OK hands the staged changes to
`ApplyChanges` exactly once; they are strictly ascending by key, and for every key
touched there is exactly one change about it, that of the last operation on that
key: the (object id, priority) of the last `Put`, or the deletion of the key
when the last operation on it was a `Delete`. -/
theorem commit_hands_over_last_operations (j : JournalDBImpl) (ops : List Op)
    (w : World Model.State) (hasc : Model.Ascending (w.st.entries j.id_))
    (hok : ∀ s ∈ (j.steps Model.backend ops w).1, s = Status.OK)
    (hcommit : ((j.steps Model.backend ops w).2.1.Commit Model.backend
      (j.steps Model.backend ops w).2.2).1.1 = Status.OK) :
    ∃ root_id changes,
      handed (((j.steps Model.backend ops w).2.1.Commit Model.backend
        (j.steps Model.backend ops w).2.2).2.2.since (j.steps Model.backend ops w).2.2) =
        [(root_id, changes)] ∧
      changes.Pairwise (fun a b => Model.keyLt (Model.changeKey a) (Model.changeKey b)) ∧
      ∀ key op, lastOp key ops = some op →
        changes.filter (fun c => decide (Model.changeKey c = key)) =
          [Model.toChange (key, op.staged)] := by
  obtain ⟨hj, hent⟩ := Model.steps_ok_entries ops j w hok
  rw [hj] at hcommit ⊢
  obtain ⟨hread, root_id, hhanded⟩ := Commit_ok_handed Model.backend j _ hcommit
  have hchanges := Model.GetJournalEntries_ok
    (GetParents Model.backend j (j.steps Model.backend ops w).2.2).2.st j.id_ hread
  rw [Model.GetParents_entries, hent] at hchanges
  have hasc2 := Model.foldl_stage_ascending ops _ hasc
  refine ⟨root_id, _, hhanded, ?_, ?_⟩
  · show List.Pairwise _ (DB.GetJournalEntries Model.backend j.id_
      (GetParents Model.backend j (j.steps Model.backend ops w).2.2).2).1.2
    have : (DB.GetJournalEntries Model.backend j.id_
        (GetParents Model.backend j (j.steps Model.backend ops w).2.2).2).1.2 =
        (ops.foldl Model.stage (w.st.entries j.id_)).map Model.toChange := hchanges
    rw [this, List.pairwise_map]
    simpa [Model.changeKey_toChange] using hasc2
  · intro key op hlast
    have hfind := Model.find_foldl_stage key ops (w.st.entries j.id_) none
      (fun _ h => by simp at h) op hlast
    have hfilter := Model.filter_of_find key op.staged _ hasc2 hfind
    have : (DB.GetJournalEntries Model.backend j.id_
        (GetParents Model.backend j (j.steps Model.backend ops w).2.2).2).1.2 =
        (ops.foldl Model.stage (w.st.entries j.id_)).map Model.toChange := hchanges
    rw [this, List.filter_map]
    have hcomp : ((fun c => decide (Model.changeKey c = key)) ∘ Model.toChange) =
        (fun e : Key × Model.Staged => decide (e.1 = key)) := by
      funext e
      simp [Model.changeKey_toChange]
    rw [hcomp, hfilter]
    rfl

/-- C1 at a concrete input: two `Put` on "name", a `Put` and a `Delete` on "x", then
`Commit`, on the empty page. -/
theorem commit_hands_over_last_operations_witness :
    handed (((JournalDBImpl.Simple JournalType.IMPLICIT "j" "genesis").Commit Model.backend
      ((JournalDBImpl.Simple JournalType.IMPLICIT "j" "genesis").steps Model.backend
        [Op.Put "name" "Alice" KeyPriority.EAGER, Op.Put "x" "1" KeyPriority.LAZY,
          Op.Put "name" "Bob" KeyPriority.LAZY, Op.Delete "x"]
        (Model.emptyWorld [])).2.2).2.2.calls) =
      [("", [EntryChange.put { key := "name", object_id := "Bob", priority := KeyPriority.LAZY },
        EntryChange.delete "x"])] ∧
    ∃ root_id changes,
      handed ((((JournalDBImpl.Simple JournalType.IMPLICIT "j" "genesis").steps Model.backend
        [Op.Put "name" "Alice" KeyPriority.EAGER, Op.Put "x" "1" KeyPriority.LAZY,
          Op.Put "name" "Bob" KeyPriority.LAZY, Op.Delete "x"]
        (Model.emptyWorld [])).2.1.Commit Model.backend
        ((JournalDBImpl.Simple JournalType.IMPLICIT "j" "genesis").steps Model.backend
        [Op.Put "name" "Alice" KeyPriority.EAGER, Op.Put "x" "1" KeyPriority.LAZY,
          Op.Put "name" "Bob" KeyPriority.LAZY, Op.Delete "x"]
        (Model.emptyWorld [])).2.2).2.2.since
        ((JournalDBImpl.Simple JournalType.IMPLICIT "j" "genesis").steps Model.backend
        [Op.Put "name" "Alice" KeyPriority.EAGER, Op.Put "x" "1" KeyPriority.LAZY,
          Op.Put "name" "Bob" KeyPriority.LAZY, Op.Delete "x"]
        (Model.emptyWorld [])).2.2) = [(root_id, changes)] ∧
      changes.Pairwise (fun a b => Model.keyLt (Model.changeKey a) (Model.changeKey b)) ∧
      ∀ key op,
        lastOp key [Op.Put "name" "Alice" KeyPriority.EAGER, Op.Put "x" "1" KeyPriority.LAZY,
          Op.Put "name" "Bob" KeyPriority.LAZY, Op.Delete "x"] = some op →
        changes.filter (fun c => decide (Model.changeKey c = key)) =
          [Model.toChange (key, op.staged)] :=
  ⟨by decide,
    commit_hands_over_last_operations (JournalDBImpl.Simple JournalType.IMPLICIT "j" "genesis")
      [Op.Put "name" "Alice" KeyPriority.EAGER, Op.Put "x" "1" KeyPriority.LAZY,
        Op.Put "name" "Bob" KeyPriority.LAZY, Op.Delete "x"]
      (Model.emptyWorld []) (by decide) (by decide) (by decide)⟩

/-- The guard on a FAILED journal: on an EXPLICIT journal that carries
`failed_operation_`, `Commit` reports ILLEGAL_STATE with no commit and
makes no call at all: no parent is looked up, no tree is built, no commit is
added, the world is the one it started from; `Put` and `Delete` report
ILLEGAL_STATE in the same way. -/
theorem failed_explicit_journal_rejects_commit (E : Backend σ) (j : JournalDBImpl)
    (w : World σ) (htype : j.type_ = JournalType.EXPLICIT)
    (hfailed : j.failed_operation_ = true) :
    j.Commit E w = ((Status.ILLEGAL_STATE, none), j, w) ∧
    (j.Commit E w).2.2.since w = [] ∧
    (∀ key object_id priority,
      j.Put E key object_id priority w = (Status.ILLEGAL_STATE, j, w)) ∧
    (∀ key, j.Delete E key w = (Status.ILLEGAL_STATE, j, w)) := by
  have h := rejects_of_failed htype hfailed
  refine ⟨Commit_rejected E h w, ?_, fun key object_id priority =>
    Put_rejected E h key object_id priority w, fun key => Delete_rejected E h key w⟩
  rw [Commit_rejected E h w]
  simp [World.since]

/-- The guard at a concrete input: the journal left by a `Put` whose
`AddJournalEntry` failed. -/
theorem failed_explicit_journal_rejects_commit_witness :
    Scenario.afterFailedPut.1 = [Status.OK, Status.IO_ERROR] ∧
    Scenario.afterFailedPut.2.1.type_ = JournalType.EXPLICIT ∧
    Scenario.afterFailedPut.2.1.failed_operation_ = true ∧
    (Scenario.afterFailedPut.2.1.Commit Model.backend Scenario.afterFailedPut.2.2).1 =
      (Status.ILLEGAL_STATE, none) :=
  ⟨by decide, by decide, by decide,
    by rw [(failed_explicit_journal_rejects_commit Model.backend Scenario.afterFailedPut.2.1
      Scenario.afterFailedPut.2.2 (by decide) (by decide)).1]⟩

/-- C3 at the failing input: an EXPLICIT journal on which a `Put` went through and a
second `Put` failed, returning IO_ERROR from the execution of its batch.  The
failure is not recorded in `failed_operation_`, and `Commit` returns OK with a new
commit: the parent is looked up, the tree is built and the commit is added to
the page storage and becomes the head.  A later `Put` and `Delete` on that journal
return OK as well.  The same holds after a `Delete` that failed in the same way. -/
theorem commit_goes_through_after_failed_put :
    Scenario.afterFailedExecute.1 = [Status.OK, Status.IO_ERROR] ∧
    Scenario.afterFailedExecute.2.1.type_ = JournalType.EXPLICIT ∧
    Scenario.afterFailedExecute.2.1.failed_operation_ = false ∧
    (Scenario.afterFailedExecute.2.1.Commit Model.backend Scenario.afterFailedExecute.2.2).1 =
      (Status.OK, some (Model.FromContentAndParents "a=1!;" [Model.genesis])) ∧
    (Scenario.afterFailedExecute.2.1.Commit Model.backend
      Scenario.afterFailedExecute.2.2).2.2.since Scenario.afterFailedExecute.2.2 =
      [Call.GetCommit "genesis", Call.GetJournalEntries "j",
        Call.ApplyChanges ""
          [EntryChange.put { key := "a", object_id := "1", priority := KeyPriority.EAGER }],
        Call.AddCommitFromLocal (Model.FromContentAndParents "a=1!;" [Model.genesis]),
        Call.GetJournalValues "j", Call.StartBatch, Call.MarkObjectIdUnsynced "a=1!;",
        Call.BatchExecute, Call.RemoveJournal "j", Call.BatchDestroy] ∧
    (Scenario.afterFailedExecute.2.1.Commit Model.backend
      Scenario.afterFailedExecute.2.2).2.2.st.heads =
      [(Model.FromContentAndParents "a=1!;" [Model.genesis]).id] ∧
    (Scenario.afterFailedExecute.2.1.Put Model.backend "b" "2" KeyPriority.LAZY
      Scenario.afterFailedExecute.2.2).1 = Status.OK ∧
    (Scenario.afterFailedExecute.2.1.Delete Model.backend "a"
      Scenario.afterFailedExecute.2.2).1 = Status.OK ∧
    Scenario.afterFailedDelete.1 = [Status.OK, Status.IO_ERROR] ∧
    Scenario.afterFailedDelete.2.1.type_ = JournalType.EXPLICIT ∧
    (Scenario.afterFailedDelete.2.1.Commit Model.backend Scenario.afterFailedDelete.2.2).1 =
      (Status.OK, some (Model.FromContentAndParents "a=1!;" [Model.genesis])) := by
  decide

/-- C2: on an open journal with exactly one parent (no `other_`), when the parent
is found, the entries are read and `ApplyChanges` reports the root id of the
parent, `Commit` creates no commit: its calls are `GetCommit`,
`GetJournalEntries`, `ApplyChanges`, the check on `new_nodes` and the
`RemoveJournal` of `Rollback`, so `AddCommitFromLocal` is not called; the
journal is rolled back, and the callback receives the status of that rollback
with the parent commit itself. -/
theorem noop_commit_returns_parent (E : Backend σ) (j : JournalDBImpl) (w w1 w2 w3 : World σ)
    (parent : Commit) (entries : List EntryChange) (new_nodes : List ObjectId)
    (hopen : j.state = JournalState.OPEN) (hone : j.other_ = none)
    (hp : PageStorage.GetCommit E j.base_ w = ((Status.OK, parent), w1))
    (he : DB.GetJournalEntries E j.id_ w1 = ((Status.OK, entries), w2))
    (ha : btree.ApplyChanges E parent.root_id entries w2 =
      ((Status.OK, parent.root_id, new_nodes), w3)) :
    (j.Commit E w).1.2 = some parent ∧
    (j.Commit E w).1.1 = (j.Rollback E (FTL_DCHECK new_nodes.isEmpty w3)).1 ∧
    (j.Commit E w).2 = (j.Rollback E (FTL_DCHECK new_nodes.isEmpty w3)).2 ∧
    (j.Commit E w).2.2.since w =
      [Call.GetCommit j.base_, Call.GetJournalEntries j.id_,
        Call.ApplyChanges parent.root_id entries, Call.DCheck new_nodes.isEmpty,
        Call.RemoveJournal j.id_] ∧
    (∀ commit, Call.AddCommitFromLocal commit ∉ (j.Commit E w).2.2.since w) := by
  have hrej : j.rejects = false := (state_open_iff j).1 hopen
  have hvalid : j.valid_ = true := by
    simp only [rejects, Bool.or_eq_false_iff, Bool.not_eq_false'] at hrej
    simp [hrej.1]
  have hgp := GetParents_single E j w w1 parent hone hp
  have hc : j.Commit E w =
      (((j.Rollback E (FTL_DCHECK new_nodes.isEmpty w3)).1, some parent),
        (j.Rollback E (FTL_DCHECK new_nodes.isEmpty w3)).2) := by
    rw [Commit_unfold]
    simp [hrej, hgp, he, ha]
  have hcalls : (j.Commit E w).2.2.calls = w.calls ++
      [Call.GetCommit j.base_, Call.GetJournalEntries j.id_,
        Call.ApplyChanges parent.root_id entries, Call.DCheck new_nodes.isEmpty,
        Call.RemoveJournal j.id_] := by
    have e1 : w1.calls = w.calls ++ [Call.GetCommit j.base_] := by
      rw [← GetCommit_calls E j.base_ w, hp]
    have e2 : w2.calls = w1.calls ++ [Call.GetJournalEntries j.id_] := by
      rw [← GetJournalEntries_calls E j.id_ w1, he]
    have e3 : w3.calls = w2.calls ++ [Call.ApplyChanges parent.root_id entries] := by
      rw [← ApplyChanges_calls E parent.root_id entries w2, ha]
    rw [hc, Rollback_valid E hvalid]
    simp [e1, e2, e3]
  have hsince := since_append _ w _ hcalls
  refine ⟨by rw [hc], by rw [hc], by rw [hc], hsince, ?_⟩
  intro commit
  rw [hsince]
  simp

/-- C2 at a concrete input: the `Commit` of a journal with no operation on the empty
page returns the genesis commit and leaves the head as it was. -/
theorem noop_commit_returns_parent_witness :
    ((JournalDBImpl.Simple JournalType.IMPLICIT "j" "genesis").Commit Model.backend
      (Model.emptyWorld [])).1 = (Status.OK, some Model.genesis) ∧
    ((JournalDBImpl.Simple JournalType.IMPLICIT "j" "genesis").Commit Model.backend
      (Model.emptyWorld [])).2.2.st.heads = ["genesis"] ∧
    ((JournalDBImpl.Simple JournalType.IMPLICIT "j" "genesis").Commit Model.backend
      (Model.emptyWorld [])).2.2.since (Model.emptyWorld []) =
      [Call.GetCommit "genesis", Call.GetJournalEntries "j", Call.ApplyChanges "" [],
        Call.DCheck true, Call.RemoveJournal "j"] :=
  ⟨by decide, by decide,
    (noop_commit_returns_parent Model.backend
      (JournalDBImpl.Simple JournalType.IMPLICIT "j" "genesis") (Model.emptyWorld [])
      (PageStorage.GetCommit Model.backend "genesis" (Model.emptyWorld [])).2
      (DB.GetJournalEntries Model.backend "j"
        (PageStorage.GetCommit Model.backend "genesis" (Model.emptyWorld [])).2).2
      (btree.ApplyChanges Model.backend "" []
        (DB.GetJournalEntries Model.backend "j"
          (PageStorage.GetCommit Model.backend "genesis" (Model.emptyWorld [])).2).2).2
      Model.genesis [] [] (by decide) rfl rfl rfl rfl).2.2.2.1⟩

/-- C4 (as the code has it): `Commit` on an EXPLICIT journal with a failed operation
reports ILLEGAL_STATE and does nothing else.  The journal is not rolled back:
`RemoveJournal` is not called, the world is unchanged and the journal is still
FAILED, not CLOSED; a `Rollback` after it is run and returns the status of
its `RemoveJournal`. -/
theorem commit_on_failed_journal_does_not_roll_back (E : Backend σ) (j : JournalDBImpl)
    (w : World σ) (hfailed : j.state = JournalState.FAILED) :
    j.Commit E w = ((Status.ILLEGAL_STATE, none), j, w) ∧
    (j.Commit E w).2.1.state = JournalState.FAILED ∧
    Call.RemoveJournal j.id_ ∉ (j.Commit E w).2.2.since w ∧
    (j.Commit E w).2.1.Rollback E (j.Commit E w).2.2 =
      ((DB.RemoveJournal E j.id_ w).1,
        (if (DB.RemoveJournal E j.id_ w).1 = Status.OK then { j with valid_ := false } else j),
        (DB.RemoveJournal E j.id_ w).2) := by
  obtain ⟨hvalid, htype, hflag⟩ := (state_failed_iff j).1 hfailed
  have hc := Commit_rejected E (rejects_of_failed htype hflag) w
  rw [hc]
  refine ⟨rfl, hfailed, by simp [World.since], Rollback_valid E hvalid w⟩

/-- C4 (as the code has it) at a concrete input: the journal left by a `Put` whose
`AddJournalEntry` failed. -/
theorem commit_on_failed_journal_does_not_roll_back_witness :
    Scenario.afterFailedPut.2.1.state = JournalState.FAILED ∧
    (Scenario.afterFailedPut.2.1.Commit Model.backend Scenario.afterFailedPut.2.2).2.1.state =
      JournalState.FAILED :=
  ⟨by decide,
    (commit_on_failed_journal_does_not_roll_back Model.backend Scenario.afterFailedPut.2.1
      Scenario.afterFailedPut.2.2 (by decide)).2.1⟩

/-- C4 (as stated) fails: after a `Put` that went through and a `Put` that failed on
an EXPLICIT journal, `Commit` reports ILLEGAL_STATE, yet the staged entry is
still in the database, the journal is not CLOSED, and a later `Rollback`
reports OK, not ILLEGAL_STATE. -/
theorem commit_on_failed_journal_counterexample :
    Scenario.afterFailedPut.1 = [Status.OK, Status.IO_ERROR] ∧
    (Scenario.afterFailedPut.2.1.Commit Model.backend Scenario.afterFailedPut.2.2).1 =
      (Status.ILLEGAL_STATE, none) ∧
    (Scenario.afterFailedPut.2.1.Commit Model.backend
      Scenario.afterFailedPut.2.2).2.2.st.entries "j" =
      [("a", some ("1", KeyPriority.EAGER))] ∧
    (Scenario.afterFailedPut.2.1.Commit Model.backend Scenario.afterFailedPut.2.2).2.1.state ≠
      JournalState.CLOSED ∧
    ((Scenario.afterFailedPut.2.1.Commit Model.backend
      Scenario.afterFailedPut.2.2).2.1.Rollback Model.backend
      (Scenario.afterFailedPut.2.1.Commit Model.backend Scenario.afterFailedPut.2.2).2.2).1 =
      Status.OK := by
  decide

/-- C5 (evaluation of the code): on an EXPLICIT journal, a `Put` whose batch fails to
execute returns IO_ERROR but does not set `failed_operation_`: the journal is
still OPEN, and the next `Put`, `Delete` and `Commit` on it return OK, not
ILLEGAL_STATE. -/
theorem put_batch_failure_is_not_marked :
    Scenario.afterFailedBatch.1 = Status.IO_ERROR ∧
    Scenario.afterFailedBatch.2.1.type_ = JournalType.EXPLICIT ∧
    Scenario.afterFailedBatch.2.1.failed_operation_ = false ∧
    Scenario.afterFailedBatch.2.1.state = JournalState.OPEN ∧
    (Scenario.afterFailedBatch.2.1.Put Model.backend "a" "1" KeyPriority.EAGER
      Scenario.afterFailedBatch.2.2).1 = Status.OK ∧
    (Scenario.afterFailedBatch.2.1.Delete Model.backend "a" Scenario.afterFailedBatch.2.2).1 =
      Status.OK ∧
    (Scenario.afterFailedBatch.2.1.Commit Model.backend Scenario.afterFailedBatch.2.2).1.1 =
      Status.OK := by
  decide

/-- C9: `Rollback` on a journal that is not CLOSED, OPEN or FAILED alike, makes
exactly one call, `RemoveJournal(id_)`, and returns its status; the journal is
CLOSED afterwards exactly when that status is OK, and is unchanged when it is
not. -/
theorem rollback_removes_and_closes (E : Backend σ) (j : JournalDBImpl) (w : World σ)
    (hopen : j.state ≠ JournalState.CLOSED) :
    (j.Rollback E w).1 = (DB.RemoveJournal E j.id_ w).1 ∧
    (j.Rollback E w).2.2 = (DB.RemoveJournal E j.id_ w).2 ∧
    (j.Rollback E w).2.2.since w = [Call.RemoveJournal j.id_] ∧
    ((j.Rollback E w).2.1.state = JournalState.CLOSED ↔ (j.Rollback E w).1 = Status.OK) ∧
    ((j.Rollback E w).1 ≠ Status.OK → (j.Rollback E w).2.1 = j) := by
  have hvalid : j.valid_ = true := by
    cases hv : j.valid_
    · exact absurd ((state_closed_iff j).2 hv) hopen
    · rfl
  rw [Rollback_valid E hvalid]
  refine ⟨rfl, rfl, since_append _ w _ (RemoveJournal_calls E j.id_ w), ?_, ?_⟩
  · by_cases hs : (DB.RemoveJournal E j.id_ w).1 = Status.OK
    · simp [hs, state_closed_iff]
    · simp [hs, state_closed_iff, hvalid]
  · intro hs
    simp [hs]

/-- C9 at a concrete input: `Rollback` on a FAILED journal with one staged entry; the
entry is gone from the database afterwards. -/
theorem rollback_removes_and_closes_witness :
    Scenario.afterFailedPut.2.1.state = JournalState.FAILED ∧
    Scenario.afterFailedPut.2.2.st.entries "j" = [("a", some ("1", KeyPriority.EAGER))] ∧
    (Scenario.afterFailedPut.2.1.Rollback Model.backend Scenario.afterFailedPut.2.2).1 =
      Status.OK ∧
    (Scenario.afterFailedPut.2.1.Rollback Model.backend
      Scenario.afterFailedPut.2.2).2.2.st.entries "j" = [] ∧
    (Scenario.afterFailedPut.2.1.Rollback Model.backend Scenario.afterFailedPut.2.2).2.2.since
      Scenario.afterFailedPut.2.2 = [Call.RemoveJournal "j"] :=
  ⟨by decide, by decide, by decide, by decide,
    (rollback_removes_and_closes Model.backend Scenario.afterFailedPut.2.1
      Scenario.afterFailedPut.2.2 (by decide)).2.2.1⟩

/-- C8: a `Commit` or a `Rollback` that returns OK leaves the journal CLOSED, and on a
CLOSED journal `Put`, `Delete`, `Commit` and `Rollback` return ILLEGAL_STATE
with the journal still CLOSED and the world, trace of calls included, exactly
as it was: no call reaches the database or the page storage. -/
theorem closed_journal_stays_closed (E : Backend σ) (j : JournalDBImpl) (w : World σ) :
    ((j.Commit E w).1.1 = Status.OK → (j.Commit E w).2.1.state = JournalState.CLOSED) ∧
    ((j.Rollback E w).1 = Status.OK → (j.Rollback E w).2.1.state = JournalState.CLOSED) ∧
    (j.state = JournalState.CLOSED →
      (∀ key object_id priority,
        j.Put E key object_id priority w = (Status.ILLEGAL_STATE, j, w)) ∧
      (∀ key, j.Delete E key w = (Status.ILLEGAL_STATE, j, w)) ∧
      j.Commit E w = ((Status.ILLEGAL_STATE, none), j, w) ∧
      j.Rollback E w = (Status.ILLEGAL_STATE, j, w)) := by
  refine ⟨?_, ?_, ?_⟩
  · intro hok
    by_cases hrej : j.rejects = true
    · rw [Commit_rejected E hrej] at hok
      simp at hok
    · have hrej2 : j.rejects = false := by simpa using hrej
      have hvalid : j.valid_ = true := by
        simp only [rejects, Bool.or_eq_false_iff, Bool.not_eq_false'] at hrej2
        exact hrej2.1
      obtain ⟨pre, wa, -, -, hcase⟩ := Commit_outcome E j w hrej2
      rcases hcase with ⟨hne, -, -⟩ | ⟨front, new_nodes, -, hc⟩ | ⟨commit, new_nodes, hc⟩
      · exact absurd hok hne
      · rw [hc] at hok ⊢
        rw [Rollback_valid E hvalid] at hok ⊢
        simp only at hok
        simp [hok, state_closed_iff]
      · rw [hc]
        split_ifs <;> simp [state_closed_iff, closed]
  · intro hok
    by_cases hvalid : j.valid_ = true
    · rw [Rollback_valid E hvalid] at hok ⊢
      simp only at hok
      simp [hok, state_closed_iff]
    · have hv : j.valid_ = false := by simpa using hvalid
      rw [Rollback_closed E hv] at hok
      simp at hok
  · intro hclosed
    have hv := (state_closed_iff j).1 hclosed
    have hrej := rejects_of_closed hv
    exact ⟨fun key object_id priority => Put_rejected E hrej key object_id priority w,
      fun key => Delete_rejected E hrej key w, Commit_rejected E hrej w, Rollback_closed E hv w⟩

/-- C8 at a concrete input: the journal after a `Commit` that returned OK. -/
theorem closed_journal_stays_closed_witness :
    ((Scenario.afterPut []).2.1.Commit Model.backend (Scenario.afterPut []).2.2).1.1 =
      Status.OK ∧
    ((Scenario.afterPut []).2.1.Commit Model.backend (Scenario.afterPut []).2.2).2.1.state =
      JournalState.CLOSED :=
  ⟨by decide,
    (closed_journal_stays_closed Model.backend (Scenario.afterPut []).2.1
      (Scenario.afterPut []).2.2).1 (by decide)⟩

/-- C6: an IMPLICIT journal that is not closed stays OPEN through any sequence of
`Put` and `Delete`, whatever their statuses.  On the journal they leave, `Put`,
`Delete` and `Commit` pass the guard (each goes on to its first call on the
database or the page storage), and `Commit` gives the result and the world it
would give had no operation failed on the journal: with a staged operation
it commits as usual. -/
theorem implicit_journal_is_not_poisoned (E : Backend σ) (j : JournalDBImpl) (ops : List Op)
    (w : World σ) (htype : j.type_ = JournalType.IMPLICIT) (hvalid : j.valid_ = true) :
    (j.steps E ops w).2.1.state = JournalState.OPEN ∧
    (∀ (w2 : World σ) key object_id priority, ∃ cs,
      ((j.steps E ops w).2.1.Put E key object_id priority w2).2.2.since w2 =
        Call.GetJournalValue j.id_ key :: cs) ∧
    (∀ (w2 : World σ) key, ∃ cs,
      ((j.steps E ops w).2.1.Delete E key w2).2.2.since w2 =
        Call.GetJournalValue j.id_ key :: cs) ∧
    (∀ (w2 : World σ), ∃ cs,
      ((j.steps E ops w).2.1.Commit E w2).2.2.since w2 = Call.GetCommit j.base_ :: cs) ∧
    (∀ (w2 : World σ),
      ((j.steps E ops w).2.1.Commit E w2).1 =
        (({ j with failed_operation_ := false } : JournalDBImpl).Commit E w2).1 ∧
      ((j.steps E ops w).2.1.Commit E w2).2.2 =
        (({ j with failed_operation_ := false } : JournalDBImpl).Commit E w2).2.2) := by
  have hne : (JournalType.IMPLICIT == JournalType.EXPLICIT) = false := by decide
  obtain ⟨b, hb⟩ : ∃ b, (j.steps E ops w).2.1 = { j with failed_operation_ := b } := by
    rcases steps_journal E ops j w with h | h
    · exact ⟨j.failed_operation_, h⟩
    · exact ⟨true, h⟩
  rw [hb]
  have hrej : ({ j with failed_operation_ := b } : JournalDBImpl).rejects = false := by
    simp [rejects, htype, hvalid, hne]
  refine ⟨(state_open_iff _).2 hrej, ?_, ?_, ?_, ?_⟩
  · intro w2 key object_id priority
    obtain ⟨cs, hcs⟩ := Put_first_call E _ key object_id priority w2 hrej
    exact ⟨cs, since_append _ w2 _ hcs⟩
  · intro w2 key
    obtain ⟨cs, hcs⟩ := Delete_first_call E _ key w2 hrej
    exact ⟨cs, since_append _ w2 _ hcs⟩
  · intro w2
    obtain ⟨pre, post, hcalls, -, -⟩ := Commit_calls E _ w2 hrej
    exact ⟨pre ++ post, since_append _ w2 _ hcalls⟩
  · intro w2
    have h1 := Commit_flag E ({ j with failed_operation_ := false } : JournalDBImpl) b w2 htype
    exact h1

/-- C6 at a concrete input: a `Put` that fails, a `Put` that goes through, and a
`Commit` that returns OK with the new commit. -/
theorem implicit_journal_is_not_poisoned_witness :
    Scenario.afterFailedThenPut.1 = [Status.IO_ERROR, Status.OK] ∧
    Scenario.afterFailedThenPut.2.1.failed_operation_ = true ∧
    Scenario.afterFailedThenPut.2.1.state = JournalState.OPEN ∧
    (Scenario.afterFailedThenPut.2.1.Commit Model.backend Scenario.afterFailedThenPut.2.2).1 =
      (Status.OK, some (Model.FromContentAndParents "b=2?;" [Model.genesis])) :=
  ⟨by decide, by decide,
    (implicit_journal_is_not_poisoned Model.backend
      (JournalDBImpl.Simple JournalType.IMPLICIT "j" "genesis")
      [Op.Put "a" "1" KeyPriority.EAGER, Op.Put "b" "2" KeyPriority.LAZY]
      (Model.emptyWorld [Status.OK, Status.IO_ERROR]) rfl rfl).1,
    by decide⟩

/-- C7 (as the code has it): when a `Commit` on an OPEN journal does not return OK,
the journal is left as it was, OPEN, if no `AddCommitFromLocal` was called:
that is, if the failure came from looking up the parents, reading the journal
entries, applying the changes, or the rollback of a no-op commit.  Once
`AddCommitFromLocal` has been called the journal is CLOSED, whether the
failure is its own or that of clearing the committed journal. -/
theorem failed_commit_keeps_journal_open_before_add (E : Backend σ) (j : JournalDBImpl)
    (w : World σ) (hopen : j.state = JournalState.OPEN)
    (hfail : (j.Commit E w).1.1 ≠ Status.OK) :
    (((j.Commit E w).2.2.since w).any Call.isAddCommit = false →
      (j.Commit E w).2.1 = j ∧ (j.Commit E w).2.1.state = JournalState.OPEN) ∧
    (((j.Commit E w).2.2.since w).any Call.isAddCommit = true →
      (j.Commit E w).2.1.state = JournalState.CLOSED) := by
  have hrej : j.rejects = false := (state_open_iff j).1 hopen
  have hvalid : j.valid_ = true := by
    simp only [rejects, Bool.or_eq_false_iff, Bool.not_eq_false'] at hrej
    exact hrej.1
  obtain ⟨pre, wa, hwa, hpre, hcase⟩ := Commit_outcome E j w hrej
  have hnotpre : pre.any Call.isAddCommit = false := by
    rw [List.any_eq_false]
    intro c hmem
    have := hpre c hmem
    cases c <;> simp [Call.isPrepare, Call.isAddCommit] at this ⊢
  rcases hcase with ⟨-, -, hc⟩ | ⟨front, new_nodes, -, hc⟩ | ⟨commit, new_nodes, hc⟩
  · have hsince : (j.Commit E w).2.2.since w = Call.GetCommit j.base_ :: pre :=
      since_append _ w _ (by rw [hc]; exact hwa)
    refine ⟨fun _ => ⟨by rw [hc], by rw [hc]; exact hopen⟩, ?_⟩
    intro hany
    rw [hsince] at hany
    simp [Call.isAddCommit, hnotpre] at hany
  · have hs : (j.Rollback E (FTL_DCHECK new_nodes.isEmpty wa)).1 ≠ Status.OK := by
      rw [hc] at hfail; exact hfail
    rw [Rollback_valid E hvalid] at hs
    have hj : (j.Commit E w).2.1 = j := by
      rw [hc, Rollback_valid E hvalid]
      simp only at hs
      simp [hs]
    have hsince : (j.Commit E w).2.2.since w =
        Call.GetCommit j.base_ :: (pre ++ [Call.DCheck new_nodes.isEmpty,
          Call.RemoveJournal j.id_]) :=
      since_append _ w _ (by rw [hc, Rollback_valid E hvalid]; simp [hwa])
    refine ⟨fun _ => ⟨hj, by rw [hj]; exact hopen⟩, ?_⟩
    intro hany
    rw [hsince] at hany
    simp [Call.isAddCommit, hnotpre] at hany
  · have hj : (j.Commit E w).2.1 = j.closed := by
      rw [hc]; split_ifs <;> rfl
    have hmem : ((j.Commit E w).2.2.since w).any Call.isAddCommit = true := by
      obtain ⟨cs, hcs⟩ := ClearCommittedJournal_calls E j.closed new_nodes
        (PageStorage.AddCommitFromLocal E commit wa).2
      have : ∃ post, (j.Commit E w).2.2.calls =
          w.calls ++ (Call.GetCommit j.base_ :: pre ++ Call.AddCommitFromLocal commit :: post) := by
        rw [hc]
        split_ifs
        · exact ⟨[], by simp [hwa]⟩
        · exact ⟨Call.GetJournalValues j.closed.id_ :: cs, by simp [hcs, hwa]⟩
        · exact ⟨Call.GetJournalValues j.closed.id_ :: cs, by simp [hcs, hwa]⟩
      obtain ⟨post, hpost⟩ := this
      rw [since_append _ w _ hpost]
      simp [Call.isAddCommit]
    refine ⟨fun hnone => ?_, fun _ => ?_⟩
    · rw [hmem] at hnone; exact absurd hnone (by decide)
    · rw [hj]
      exact (state_closed_iff _).2 rfl

/-- C7 (as the code has it) at a concrete input: a `Commit` that fails at reading the
journal entries. -/
theorem failed_commit_keeps_journal_open_before_add_witness :
    ((Scenario.afterPut [Status.OK, Status.IO_ERROR]).2.1.state = JournalState.OPEN ∧
      ((Scenario.afterPut [Status.OK, Status.IO_ERROR]).2.1.Commit Model.backend
        (Scenario.afterPut [Status.OK, Status.IO_ERROR]).2.2).1.1 = Status.IO_ERROR) ∧
    ((Scenario.afterPut [Status.OK, Status.IO_ERROR]).2.1.Commit Model.backend
      (Scenario.afterPut [Status.OK, Status.IO_ERROR]).2.2).2.1.state = JournalState.OPEN :=
  ⟨⟨by decide, by decide⟩,
    ((failed_commit_keeps_journal_open_before_add Model.backend
      (Scenario.afterPut [Status.OK, Status.IO_ERROR]).2.1
      (Scenario.afterPut [Status.OK, Status.IO_ERROR]).2.2 (by decide) (by decide)).1
      (by decide)).2⟩

/-- C7 (as stated) fails: on an OPEN journal with one staged `Put`, a `Commit` that
fails at clearing the committed journal, and likewise one that fails at adding
the commit, leaves the journal CLOSED; `Rollback` and `Commit` on it afterwards
are rejected with ILLEGAL_STATE. -/
theorem failed_commit_counterexample :
    (Scenario.afterPut [Status.OK, Status.OK, Status.OK, Status.OK, Status.IO_ERROR]).2.1.state =
      JournalState.OPEN ∧
    ((Scenario.afterPut [Status.OK, Status.OK, Status.OK, Status.OK, Status.IO_ERROR]).2.1.Commit
      Model.backend
      (Scenario.afterPut [Status.OK, Status.OK, Status.OK, Status.OK, Status.IO_ERROR]).2.2).1 =
      (Status.IO_ERROR, none) ∧
    ((Scenario.afterPut [Status.OK, Status.OK, Status.OK, Status.OK, Status.IO_ERROR]).2.1.Commit
      Model.backend
      (Scenario.afterPut [Status.OK, Status.OK, Status.OK, Status.OK,
        Status.IO_ERROR]).2.2).2.1.state = JournalState.CLOSED ∧
    (((Scenario.afterPut [Status.OK, Status.OK, Status.OK, Status.OK,
        Status.IO_ERROR]).2.1.Commit Model.backend
      (Scenario.afterPut [Status.OK, Status.OK, Status.OK, Status.OK,
        Status.IO_ERROR]).2.2).2.1.Rollback Model.backend
      ((Scenario.afterPut [Status.OK, Status.OK, Status.OK, Status.OK,
        Status.IO_ERROR]).2.1.Commit Model.backend
      (Scenario.afterPut [Status.OK, Status.OK, Status.OK, Status.OK,
        Status.IO_ERROR]).2.2).2.2).1 = Status.ILLEGAL_STATE ∧
    (((Scenario.afterPut [Status.OK, Status.OK, Status.OK, Status.OK,
        Status.IO_ERROR]).2.1.Commit Model.backend
      (Scenario.afterPut [Status.OK, Status.OK, Status.OK, Status.OK,
        Status.IO_ERROR]).2.2).2.1.Commit Model.backend
      ((Scenario.afterPut [Status.OK, Status.OK, Status.OK, Status.OK,
        Status.IO_ERROR]).2.1.Commit Model.backend
      (Scenario.afterPut [Status.OK, Status.OK, Status.OK, Status.OK,
        Status.IO_ERROR]).2.2).2.2).1.1 = Status.ILLEGAL_STATE ∧
    ((Scenario.afterPut [Status.OK, Status.OK, Status.OK, Status.IO_ERROR]).2.1.Commit
      Model.backend
      (Scenario.afterPut [Status.OK, Status.OK, Status.OK, Status.IO_ERROR]).2.2).1 =
      (Status.IO_ERROR, none) ∧
    ((Scenario.afterPut [Status.OK, Status.OK, Status.OK, Status.IO_ERROR]).2.1.Commit
      Model.backend
      (Scenario.afterPut [Status.OK, Status.OK, Status.OK, Status.IO_ERROR]).2.2).2.1.state =
      JournalState.CLOSED := by
  decide

/-- C10 (as the code has it): step (4) is a sequence, not one atomic batch.  Whenever
`Commit` gets to clearing the committed journal, whose first call is
`GetJournalValues(id_)`, `AddCommitFromLocal` has been called just before and
has returned OK: the new commit is in the page storage.  The status `Commit`
reports is then the status of `ClearCommittedJournal`, and the world it leaves
is the one `ClearCommittedJournal` leaves after that addition; so an error from
clearing the committed journal comes with the commit already added. -/
theorem commit_is_added_before_journal_is_cleared (E : Backend σ) (j : JournalDBImpl)
    (w : World σ) (hclear : Call.GetJournalValues j.id_ ∈ (j.Commit E w).2.2.since w) :
    ∃ (commit : Commit) (new_nodes : List ObjectId) (wa : World σ) (pre post : List Call),
      (PageStorage.AddCommitFromLocal E commit wa).1 = Status.OK ∧
      (j.Commit E w).1.1 =
        (j.closed.ClearCommittedJournal E new_nodes
          (PageStorage.AddCommitFromLocal E commit wa).2).1 ∧
      (j.Commit E w).2.2 =
        (j.closed.ClearCommittedJournal E new_nodes
          (PageStorage.AddCommitFromLocal E commit wa).2).2 ∧
      (j.Commit E w).2.2.since w =
        pre ++ Call.AddCommitFromLocal commit :: Call.GetJournalValues j.id_ :: post ∧
      pre.any Call.isAddCommit = false := by
  by_cases hrej : j.rejects = true
  · rw [Commit_rejected E hrej] at hclear
    simp [World.since] at hclear
  have hrej2 : j.rejects = false := by simpa using hrej
  have hvalid : j.valid_ = true := by
    simp only [rejects, Bool.or_eq_false_iff, Bool.not_eq_false'] at hrej2
    exact hrej2.1
  obtain ⟨pre, wa, hwa, hpre, hcase⟩ := Commit_outcome E j w hrej2
  have hnotpre : Call.GetJournalValues j.id_ ∉ pre := by
    intro hmem
    have := hpre _ hmem
    simp [Call.isPrepare] at this
  have hnoadd : pre.any Call.isAddCommit = false := by
    rw [List.any_eq_false]
    intro c hmem
    have := hpre c hmem
    cases c <;> simp [Call.isPrepare, Call.isAddCommit] at this ⊢
  rcases hcase with ⟨-, -, hc⟩ | ⟨front, new_nodes, -, hc⟩ | ⟨commit, new_nodes, hc⟩
  · have hsince : (j.Commit E w).2.2.since w = Call.GetCommit j.base_ :: pre :=
      since_append _ w _ (by rw [hc]; exact hwa)
    rw [hsince] at hclear
    simp at hclear
    exact absurd hclear hnotpre
  · have hsince : (j.Commit E w).2.2.since w =
        Call.GetCommit j.base_ :: (pre ++ [Call.DCheck new_nodes.isEmpty,
          Call.RemoveJournal j.id_]) :=
      since_append _ w _ (by rw [hc, Rollback_valid E hvalid]; simp [hwa])
    rw [hsince] at hclear
    simp at hclear
    exact absurd hclear hnotpre
  · by_cases ha : (PageStorage.AddCommitFromLocal E commit wa).1 = Status.OK
    · obtain ⟨cs, hcs⟩ := ClearCommittedJournal_calls E j.closed new_nodes
        (PageStorage.AddCommitFromLocal E commit wa).2
      have hid : j.closed.id_ = j.id_ := rfl
      rw [hid] at hcs
      refine ⟨commit, new_nodes, wa, Call.GetCommit j.base_ :: pre, cs, ha, ?_, ?_, ?_, ?_⟩
      · rw [hc]; split_ifs with h1 h2
        · exact absurd ha h1
        · rfl
        · simp only [ne_eq, not_not] at h2; exact h2.symm
      · rw [hc]; split_ifs with h1 h2
        · exact absurd ha h1
        · rfl
        · rfl
      · apply since_append
        rw [hc]; split_ifs with h1 h2
        · exact absurd ha h1
        · simp [hcs, hwa]
        · simp [hcs, hwa]
      · simp [Call.isAddCommit, hnoadd]
    · have hsince : (j.Commit E w).2.2.since w =
          Call.GetCommit j.base_ :: (pre ++ [Call.AddCommitFromLocal commit]) :=
        since_append _ w _ (by rw [hc]; simp [ha, hwa])
      rw [hsince] at hclear
      simp at hclear
      exact absurd hclear hnotpre

/-- C10 (as the code has it) at a concrete input: the `Commit` whose
`ClearCommittedJournal` fails to execute its batch. -/
theorem commit_is_added_before_journal_is_cleared_witness :
    Call.GetJournalValues "j" ∈
      Scenario.commitWithFailedClear.2.2.since
        (Scenario.withFaults Scenario.stagedUntracked.2.2
          [Status.OK, Status.OK, Status.OK, Status.OK, Status.OK, Status.OK, Status.OK,
            Status.IO_ERROR]) ∧
    ∃ (commit : Commit) (new_nodes : List ObjectId) (wa : World Model.State)
      (pre post : List Call),
      (PageStorage.AddCommitFromLocal Model.backend commit wa).1 = Status.OK ∧
      Scenario.commitWithFailedClear.1.1 =
        (Scenario.stagedUntracked.2.1.closed.ClearCommittedJournal Model.backend new_nodes
          (PageStorage.AddCommitFromLocal Model.backend commit wa).2).1 ∧
      Scenario.commitWithFailedClear.2.2 =
        (Scenario.stagedUntracked.2.1.closed.ClearCommittedJournal Model.backend new_nodes
          (PageStorage.AddCommitFromLocal Model.backend commit wa).2).2 ∧
      Scenario.commitWithFailedClear.2.2.since
          (Scenario.withFaults Scenario.stagedUntracked.2.2
            [Status.OK, Status.OK, Status.OK, Status.OK, Status.OK, Status.OK, Status.OK,
              Status.IO_ERROR]) =
        pre ++ Call.AddCommitFromLocal commit :: Call.GetJournalValues "j" :: post ∧
      pre.any Call.isAddCommit = false :=
  ⟨by decide,
    commit_is_added_before_journal_is_cleared Model.backend Scenario.stagedUntracked.2.1
      (Scenario.withFaults Scenario.stagedUntracked.2.2
        [Status.OK, Status.OK, Status.OK, Status.OK, Status.OK, Status.OK, Status.OK,
          Status.IO_ERROR]) (by decide)⟩

/-- C10 (as stated) fails: a `Commit` whose `ClearCommittedJournal` fails to execute
its batch returns IO_ERROR with no commit, yet the new commit has been added
to the page storage and is the head, while nothing is marked UNSYNCED, the
object is still untracked and the staged state of the journal is still in the
database. -/
theorem step_four_counterexample :
    Scenario.commitWithFailedClear.1 = (Status.IO_ERROR, none) ∧
    Scenario.commitWithFailedClear.2.2.st.commits =
      [Model.genesis, Model.FromContentAndParents "name=Alice!;" [Model.genesis]] ∧
    Scenario.commitWithFailedClear.2.2.st.heads =
      [(Model.FromContentAndParents "name=Alice!;" [Model.genesis]).id] ∧
    Scenario.commitWithFailedClear.2.2.st.unsynced = [] ∧
    Scenario.commitWithFailedClear.2.2.st.untracked = ["Alice"] ∧
    Scenario.commitWithFailedClear.2.2.st.entries "j" =
      [("name", some ("Alice", KeyPriority.EAGER))] ∧
    Scenario.commitWithFailedClear.2.2.st.counters "j" = [("Alice", 1)] := by
  decide

/-- C11 at the failing input: a `Put` of the untracked object "Alice" under a key with
nothing staged, in which `GetJournalValueCounter` reports IO_ERROR.
`UpdateValueCounter` returns that status, `Put` drops it and returns the status
of the batch, OK: the entry is staged, `SetJournalValueCounter` is never called and
the counter of "Alice" is still 0.  The same `Put` without the failure leaves the
counter at 1.  The `Commit` that follows the `Put` with the dropped failure returns
OK with a new commit, yet "Alice" is neither marked unsynced nor tracked, as it is
after the `Put` without the failure. -/
theorem put_drops_failed_counter_update :
    Scenario.putWithFailedCounter.1 = Status.OK ∧
    "Alice" ∈ (Scenario.untrackedWorld []).st.untracked ∧
    Model.stagedObject ((Scenario.untrackedWorld []).st.entries "j") "name" = none ∧
    Scenario.putWithFailedCounter.2.2.st.entries "j" =
      [("name", some ("Alice", KeyPriority.EAGER))] ∧
    Scenario.putWithFailedCounter.2.2.calls =
      [Call.GetJournalValue "j" "name", Call.StartBatch,
        Call.AddJournalEntry "j" "name" "Alice" KeyPriority.EAGER,
        Call.ObjectIsUntracked "Alice", Call.GetJournalValueCounter "j" "Alice",
        Call.BatchExecute, Call.BatchDestroy] ∧
    (UpdateValueCounter Model.backend (JournalDBImpl.Simple JournalType.IMPLICIT "j" "genesis")
      "Alice" (fun counter => counter + 1)
      (Scenario.untrackedWorld [Status.IO_ERROR])).1 = Status.IO_ERROR ∧
    Model.counterOf "Alice" ((Scenario.untrackedWorld []).st.counters "j") = 0 ∧
    Model.counterOf "Alice" (Scenario.putWithFailedCounter.2.2.st.counters "j") = 0 ∧
    Scenario.stagedUntracked.1 = Status.OK ∧
    Model.counterOf "Alice" (Scenario.stagedUntracked.2.2.st.counters "j") = 1 ∧
    Scenario.commitAfterFailedCounter.1 =
      (Status.OK, some (Model.FromContentAndParents "name=Alice!;" [Model.genesis])) ∧
    Scenario.commitAfterFailedCounter.2.2.st.unsynced = ["name=Alice!;"] ∧
    Scenario.commitAfterFailedCounter.2.2.st.untracked = ["Alice"] ∧
    Scenario.commitUntracked.2.2.st.unsynced = ["name=Alice!;", "Alice"] ∧
    Scenario.commitUntracked.2.2.st.untracked = [] := by
  decide

/-- C12 at the failing input: a `Delete` of the key under which the untracked object
"Alice" is staged, in which `GetJournalValueCounter` reports IO_ERROR.
`UpdateValueCounter` returns that status, `Delete` drops it and returns the status
of the batch, OK: the tombstone is staged, `SetJournalValueCounter` is never called
and the counter of "Alice" is still 1.  The same `Delete` without the failure leaves
the counter at 0. -/
theorem delete_drops_failed_counter_update :
    Scenario.deleteWithFailedCounter.1 = Status.OK ∧
    "Alice" ∈ Scenario.stagedUntracked.2.2.st.untracked ∧
    Model.stagedObject (Scenario.stagedUntracked.2.2.st.entries "j") "name" = some "Alice" ∧
    Scenario.deleteWithFailedCounter.2.2.st.entries "j" = [("name", none)] ∧
    Scenario.deleteWithFailedCounter.2.2.since Scenario.stagedUntracked.2.2 =
      [Call.GetJournalValue "j" "name", Call.StartBatch, Call.RemoveJournalEntry "j" "name",
        Call.ObjectIsUntracked "Alice", Call.GetJournalValueCounter "j" "Alice",
        Call.BatchExecute, Call.BatchDestroy] ∧
    Model.counterOf "Alice" (Scenario.stagedUntracked.2.2.st.counters "j") = 1 ∧
    Model.counterOf "Alice" (Scenario.deleteWithFailedCounter.2.2.st.counters "j") = 1 ∧
    Model.counterOf "Alice"
      ((Scenario.stagedUntracked.2.1.Delete Model.backend "name"
        Scenario.stagedUntracked.2.2).2.2.st.counters "j") = 0 := by
  decide

/-- C13 at the failing input: on a fresh journal, a `Put` of the untracked object "Alice"
in which `GetJournalValueCounter` reports IO_ERROR, then a `Delete` of the key in
which no call fails.  Both return OK.  After the `Put` one key holds "Alice" and
its counter is 0; the `Delete` computes the counter -1, the check
`FTL_DCHECK(next_counter >= 0)` fails and -1 is stored. -/
theorem counter_goes_negative_after_dropped_update :
    Scenario.putThenDelete.1 = [Status.OK, Status.OK] ∧
    Scenario.putThenDelete.2.2.st.untracked = (Scenario.untrackedWorld []).st.untracked ∧
    (Scenario.untrackedWorld []).st.entries "j" = [] ∧
    (Scenario.untrackedWorld []).st.counters "j" = [] ∧
    Model.holders "Alice" (Scenario.putWithFailedCounter.2.2.st.entries "j") = 1 ∧
    Model.counterOf "Alice" (Scenario.putWithFailedCounter.2.2.st.counters "j") = 0 ∧
    dchecks Scenario.putThenDelete.2.2.calls = [false] ∧
    Scenario.putThenDelete.2.2.calls.drop 7 =
      [Call.GetJournalValue "j" "name", Call.StartBatch, Call.RemoveJournalEntry "j" "name",
        Call.ObjectIsUntracked "Alice", Call.GetJournalValueCounter "j" "Alice",
        Call.DCheck false, Call.SetJournalValueCounter "j" "Alice" (-1),
        Call.BatchExecute, Call.BatchDestroy] ∧
    Model.holders "Alice" (Scenario.putThenDelete.2.2.st.entries "j") = 0 ∧
    Model.counterOf "Alice" (Scenario.putThenDelete.2.2.st.counters "j") = -1 := by
  decide

/-- C14: a journal created by `Merge(base, other)` is EXPLICIT.  Name the results of
the calls its `Commit` makes: `GetCommit(base)`, then `GetCommit(other)`, then
`GetJournalEntries` of the journal, then `ApplyChanges` of those entries over
the root of the commit of base.  When the `Commit`, after any staged operations,
returns OK, all four returned OK, the calls of the `Commit` are exactly these
four, in this order, followed by `AddCommitFromLocal` and the calls that clear the
journal, and the commit added and returned is the one `FromContentAndParents`
builds from the root `ApplyChanges` returned and the parents (base, other), in
that order.  A journal created by `Simple` has no `other_`: its `GetParents` looks
up base alone and reports that one commit. -/
theorem merge_commit_has_both_parents (E : Backend σ) (id : JournalId) (base other : CommitId)
    (type : JournalType) (ops : List Op) (w0 w w1 w2 w3 w4 : World σ)
    (sb so se sa : Status) (pb po : Commit) (entries : List EntryChange)
    (object_id : ObjectId) (new_nodes : List ObjectId)
    (hb : PageStorage.GetCommit E base w = ((sb, pb), w1))
    (ho : PageStorage.GetCommit E other w1 = ((so, po), w2))
    (he : DB.GetJournalEntries E id w2 = ((se, entries), w3))
    (ha : btree.ApplyChanges E pb.root_id entries w3 = ((sa, object_id, new_nodes), w4))
    (hok : (((JournalDBImpl.Merge id base other).steps E ops w0).2.1.Commit E w).1.1 =
      Status.OK) :
    (JournalDBImpl.Merge id base other).type_ = JournalType.EXPLICIT ∧
    (sb = Status.OK ∧ so = Status.OK ∧ se = Status.OK ∧ sa = Status.OK) ∧
    (∃ post,
      (((JournalDBImpl.Merge id base other).steps E ops w0).2.1.Commit E w).2.2.since w =
        [Call.GetCommit base, Call.GetCommit other, Call.GetJournalEntries id,
          Call.ApplyChanges pb.root_id entries,
          Call.AddCommitFromLocal (E.FromContentAndParents object_id [pb, po] w4.st)] ++ post ∧
      post.all Call.isClear = true) ∧
    handed ((((JournalDBImpl.Merge id base other).steps E ops w0).2.1.Commit E w).2.2.since w) =
      [(pb.root_id, entries)] ∧
    (((JournalDBImpl.Merge id base other).steps E ops w0).2.1.Commit E w).1.2 =
      some (E.FromContentAndParents object_id [pb, po] w4.st) ∧
    (JournalDBImpl.Simple type id base).other_ = none ∧
    (GetParents E (JournalDBImpl.Simple type id base) w).2.calls =
      w.calls ++ [Call.GetCommit base] ∧
    ((GetParents E (JournalDBImpl.Simple type id base) w).1.1 = Status.OK →
      (GetParents E (JournalDBImpl.Simple type id base) w).1.2 =
        [(PageStorage.GetCommit E base w).1.2]) := by
  have hmerge : (sb = Status.OK ∧ so = Status.OK ∧ se = Status.OK ∧ sa = Status.OK) ∧
      (∃ post,
        (((JournalDBImpl.Merge id base other).steps E ops w0).2.1.Commit E w).2.2.since w =
          [Call.GetCommit base, Call.GetCommit other, Call.GetJournalEntries id,
            Call.ApplyChanges pb.root_id entries,
            Call.AddCommitFromLocal (E.FromContentAndParents object_id [pb, po] w4.st)] ++
            post ∧
        post.all Call.isClear = true) ∧
      handed ((((JournalDBImpl.Merge id base other).steps E ops w0).2.1.Commit E w).2.2.since
        w) = [(pb.root_id, entries)] ∧
      (((JournalDBImpl.Merge id base other).steps E ops w0).2.1.Commit E w).1.2 =
        some (E.FromContentAndParents object_id [pb, po] w4.st) := by
    obtain ⟨hrej, h1, h2, front, rest, hp, h3⟩ := Commit_ok_steps E _ w hok
    generalize hj : ((JournalDBImpl.Merge id base other).steps E ops w0).2.1 = j at *
    have hjM : j = JournalDBImpl.Merge id base other := by
      rcases steps_journal E ops (JournalDBImpl.Merge id base other) w0 with h | h
      · rw [← hj, h]
      · rw [hj] at h
        rw [h] at hrej
        simp [rejects, JournalDBImpl.Merge] at hrej
    have hother : j.other_ = some other := by rw [hjM]; rfl
    have hbase : j.base_ = base := by rw [hjM]; rfl
    have hid : j.id_ = id := by rw [hjM]; rfl
    obtain ⟨hbok, hook, hpair⟩ := GetParents_ok_pair E j w other hother h1
    rw [hbase] at hbok hook hpair
    rw [hb] at hbok hook hpair
    simp only at hbok hook hpair
    rw [ho] at hook hpair
    simp only at hook hpair
    subst hbok hook
    rw [hpair, hid] at h2
    simp only at h2
    rw [he] at h2
    simp only at h2
    subst h2
    have hfr : front = pb := by
      rw [hpair] at hp
      simp only [List.cons.injEq] at hp
      exact hp.1.symm
    rw [hpair, hid, he, hfr] at h3
    simp only at h3
    rw [ha] at h3
    simp only at h3
    subst h3
    obtain ⟨hc, hcalls⟩ := Commit_two_parents E j w w1 w2 w3 w4 other pb po entries object_id
      new_nodes hrej hother (by rw [hbase]; exact hb) ho (by rw [hid]; exact he) ha
    rw [hbase, hid] at hcalls
    obtain ⟨post, hpost, hclear⟩ := commitNew_calls E j
      (E.FromContentAndParents object_id [pb, po] w4.st) new_nodes w4
    have hsince : (j.Commit E w).2.2.since w =
        [Call.GetCommit base, Call.GetCommit other, Call.GetJournalEntries id,
          Call.ApplyChanges pb.root_id entries,
          Call.AddCommitFromLocal (E.FromContentAndParents object_id [pb, po] w4.st)] ++
          post := by
      apply since_append
      rw [hc, hpost, hcalls]
      simp
    refine ⟨⟨rfl, rfl, rfl, rfl⟩, ⟨post, hsince, hclear⟩, ?_, ?_⟩
    · rw [hsince]
      simp [handed, handed_isClear post hclear]
    · have hnew := hc ▸ hok
      rw [hc, (commitNew_ok E j _ new_nodes w4 hnew).2.2]
  refine ⟨rfl, hmerge.1, hmerge.2.1, hmerge.2.2.1, hmerge.2.2.2, rfl, ?_, ?_⟩
  · simp [GetParents, JournalDBImpl.Simple]
  · intro h
    rcases GetParents_result E (JournalDBImpl.Simple type id base) w with ⟨hne, -⟩ | ⟨-, hp⟩
    · exact absurd h hne
    · rw [hp]; rfl

/-- C14 at a concrete input: the merge journal of two heads with "name" put to
"Bob".  The staged change is handed to `ApplyChanges` over the root of the first
head, and the commit returned has the new root and the heads as its parents, in
the order base, other. -/
theorem merge_commit_has_both_parents_witness :
    (Scenario.mergeStaged.2.1.Commit Model.backend Scenario.mergeStaged.2.2).1 =
      (Status.OK, some (Model.FromContentAndParents "name=Bob!;"
        [Model.FromContentAndParents "name=Alice!;" [Model.genesis],
          Model.FromContentAndParents "name=Bob!;" [Model.genesis]])) ∧
    (Model.FromContentAndParents "name=Bob!;"
        [Model.FromContentAndParents "name=Alice!;" [Model.genesis],
          Model.FromContentAndParents "name=Bob!;" [Model.genesis]]).parent_ids =
      [Scenario.headA, Scenario.headB] ∧
    Scenario.mergeStaged.2.2.st.entries "jm" = [("name", some ("Bob", KeyPriority.EAGER))] ∧
    handed ((((JournalDBImpl.Merge "jm" Scenario.headA Scenario.headB).steps Model.backend
      [Op.Put "name" "Bob" KeyPriority.EAGER] Scenario.committedB.2.2).2.1.Commit Model.backend
      Scenario.mergeStaged.2.2).2.2.since Scenario.mergeStaged.2.2) =
      [((Model.FromContentAndParents "name=Alice!;" [Model.genesis]).root_id,
        [EntryChange.put { key := "name", object_id := "Bob", priority := KeyPriority.EAGER }])] ∧
    (((JournalDBImpl.Merge "jm" Scenario.headA Scenario.headB).steps Model.backend
      [Op.Put "name" "Bob" KeyPriority.EAGER] Scenario.committedB.2.2).2.1.Commit Model.backend
      Scenario.mergeStaged.2.2).1.2 =
      some (Model.backend.FromContentAndParents "name=Bob!;"
        [Model.FromContentAndParents "name=Alice!;" [Model.genesis],
          Model.FromContentAndParents "name=Bob!;" [Model.genesis]]
        (btree.ApplyChanges Model.backend "name=Alice!;"
          [EntryChange.put { key := "name", object_id := "Bob", priority := KeyPriority.EAGER }]
          (DB.GetJournalEntries Model.backend "jm"
            (PageStorage.GetCommit Model.backend Scenario.headB
              (PageStorage.GetCommit Model.backend Scenario.headA
                Scenario.mergeStaged.2.2).2).2).2).2.st) :=
  ⟨by decide, by decide, by decide,
    (merge_commit_has_both_parents Model.backend "jm" Scenario.headA Scenario.headB
      JournalType.IMPLICIT [Op.Put "name" "Bob" KeyPriority.EAGER] Scenario.committedB.2.2
      Scenario.mergeStaged.2.2
      (PageStorage.GetCommit Model.backend Scenario.headA Scenario.mergeStaged.2.2).2
      (PageStorage.GetCommit Model.backend Scenario.headB
        (PageStorage.GetCommit Model.backend Scenario.headA Scenario.mergeStaged.2.2).2).2
      (DB.GetJournalEntries Model.backend "jm"
        (PageStorage.GetCommit Model.backend Scenario.headB
          (PageStorage.GetCommit Model.backend Scenario.headA
            Scenario.mergeStaged.2.2).2).2).2
      (btree.ApplyChanges Model.backend "name=Alice!;"
        [EntryChange.put { key := "name", object_id := "Bob", priority := KeyPriority.EAGER }]
        (DB.GetJournalEntries Model.backend "jm"
          (PageStorage.GetCommit Model.backend Scenario.headB
            (PageStorage.GetCommit Model.backend Scenario.headA
              Scenario.mergeStaged.2.2).2).2).2).2
      Status.OK Status.OK Status.OK Status.OK
      (Model.FromContentAndParents "name=Alice!;" [Model.genesis])
      (Model.FromContentAndParents "name=Bob!;" [Model.genesis])
      [EntryChange.put { key := "name", object_id := "Bob", priority := KeyPriority.EAGER }]
      "name=Bob!;" ["name=Bob!;"] rfl rfl rfl rfl (by decide)).2.2.2.1,
    (merge_commit_has_both_parents Model.backend "jm" Scenario.headA Scenario.headB
      JournalType.IMPLICIT [Op.Put "name" "Bob" KeyPriority.EAGER] Scenario.committedB.2.2
      Scenario.mergeStaged.2.2
      (PageStorage.GetCommit Model.backend Scenario.headA Scenario.mergeStaged.2.2).2
      (PageStorage.GetCommit Model.backend Scenario.headB
        (PageStorage.GetCommit Model.backend Scenario.headA Scenario.mergeStaged.2.2).2).2
      (DB.GetJournalEntries Model.backend "jm"
        (PageStorage.GetCommit Model.backend Scenario.headB
          (PageStorage.GetCommit Model.backend Scenario.headA
            Scenario.mergeStaged.2.2).2).2).2
      (btree.ApplyChanges Model.backend "name=Alice!;"
        [EntryChange.put { key := "name", object_id := "Bob", priority := KeyPriority.EAGER }]
        (DB.GetJournalEntries Model.backend "jm"
          (PageStorage.GetCommit Model.backend Scenario.headB
            (PageStorage.GetCommit Model.backend Scenario.headA
              Scenario.mergeStaged.2.2).2).2).2).2
      Status.OK Status.OK Status.OK Status.OK
      (Model.FromContentAndParents "name=Alice!;" [Model.genesis])
      (Model.FromContentAndParents "name=Bob!;" [Model.genesis])
      [EntryChange.put { key := "name", object_id := "Bob", priority := KeyPriority.EAGER }]
      "name=Bob!;" ["name=Bob!;"] rfl rfl rfl rfl (by decide)).2.2.2.2.1⟩

end storage

namespace ledger

open storage (Key)
open storage.Model (upsert find keyLt Ascending)

theorem find_eq_none_iff {α : Type} (key : Key) (m : List (Key × α)) :
    find key m = none ↔ ∀ e ∈ m, e.1 ≠ key := by
  induction m with
  | nil => simp [find]
  | cons e rest ih =>
    obtain ⟨k, x⟩ := e
    unfold find
    by_cases h : key = k
    · simp [h]
    · simp [h, ih, Ne.symm h]

/-- C15: for a value of n bytes stored under the key, and an offset not before the
start of the value, `GetPartial` returns OK with the bytes of the value that start
at position offset (n + offset for a negative offset): the value is some bytes
`before`, the result, and some bytes `after`, with `before` of that length; the
result runs to the end of the value (`after` is empty) when max_size is -1 or
not less than what remains, and has length max_size otherwise.  An offset at or
past the end gives OK with the empty result.  A key absent from the snapshot gives
KEY_NOT_FOUND. -/
theorem get_partial_returns_the_slice (snapshot : PageSnapshot) (key : Key)
    (offset max_size : Int) :
    ((∀ e ∈ snapshot, e.1 ≠ key) →
      (GetPartial snapshot key offset max_size).1 = Status.KEY_NOT_FOUND) ∧
    ∀ value, find key snapshot = some value → -(value.length : Int) ≤ offset →
      -1 ≤ max_size →
      (GetPartial snapshot key offset max_size).1 = Status.OK ∧
      ((value.length : Int) ≤ offset → (GetPartial snapshot key offset max_size).2 = "") ∧
      (offset < value.length → ∃ before after,
        value.data = before ++ (GetPartial snapshot key offset max_size).2.data ++ after ∧
        (before.length : Int) = (if offset < 0 then value.length + offset else offset) ∧
        ((max_size = -1 ∨ (value.length : Int) - before.length ≤ max_size) → after = []) ∧
        ((max_size ≠ -1 ∧ max_size < (value.length : Int) - before.length) →
          ((GetPartial snapshot key offset max_size).2.length : Int) = max_size)) := by
  constructor
  · intro h
    unfold GetPartial
    rw [(find_eq_none_iff key snapshot).2 h]
  · intro value hfind hoff hmax
    unfold GetPartial
    rw [hfind]
    simp only
    refine ⟨trivial, ?_, ?_⟩
    · intro hle
      have h0 : ¬ offset < 0 := by omega
      have hdrop : value.data.drop offset.toNat = [] := by
        apply List.drop_eq_nil_of_le
        have : value.data.length = value.length := rfl
        omega
      simp only [h0, if_false, hdrop, List.take_nil, ite_self]
    · intro hlt
      generalize hstart : (if offset < 0 then (value.length : Int) + offset else offset) = start
      have hlen : value.data.length = value.length := rfl
      have hs0 : 0 ≤ start := by rw [← hstart]; split_ifs <;> omega
      have hs1 : start < value.length := by rw [← hstart]; split_ifs <;> omega
      have hbefore : ((value.data.take start.toNat).length : Int) = start := by
        rw [List.length_take]; omega
      by_cases hm : max_size = -1
      · refine ⟨value.data.take start.toNat, [], ?_, hbefore, fun _ => rfl, ?_⟩
        · simp [hm]
        · intro h; exact absurd hm h.1
      · refine ⟨value.data.take start.toNat,
          (value.data.drop start.toNat).drop max_size.toNat, ?_, hbefore, ?_, ?_⟩
        · simp [hm, List.append_assoc]
        · rintro (h | h)
          · exact absurd h hm
          · apply List.drop_eq_nil_of_le
            rw [List.length_drop]
            rw [hbefore] at h
            omega
        · intro h
          rw [hbefore] at h
          simp only [hm, if_false]
          show (((value.data.drop start.toNat).take max_size.toNat).length : Int) = max_size
          rw [List.length_take, List.length_drop]
          omega

/-- C15 at the inputs of the integration test: the value "Alice" under "name". -/
theorem get_partial_returns_the_slice_witness :
    (GetPartial (PageGetSnapshot [("name", "Alice")]) "name" 0 (-1) = (Status.OK, "Alice") ∧
     GetPartial (PageGetSnapshot [("name", "Alice")]) "name" 4 (-1) = (Status.OK, "e") ∧
     GetPartial (PageGetSnapshot [("name", "Alice")]) "name" 5 (-1) = (Status.OK, "") ∧
     GetPartial (PageGetSnapshot [("name", "Alice")]) "name" 6 (-1) = (Status.OK, "") ∧
     GetPartial (PageGetSnapshot [("name", "Alice")]) "name" 2 1 = (Status.OK, "i") ∧
     GetPartial (PageGetSnapshot [("name", "Alice")]) "name" 2 0 = (Status.OK, "") ∧
     GetPartial (PageGetSnapshot [("name", "Alice")]) "name" (-5) (-1) = (Status.OK, "Alice") ∧
     GetPartial (PageGetSnapshot [("name", "Alice")]) "name" (-1) (-1) = (Status.OK, "e") ∧
     GetPartial (PageGetSnapshot [("name", "Alice")]) "name" (-5) 0 = (Status.OK, "") ∧
     GetPartial (PageGetSnapshot [("name", "Alice")]) "name" (-3) 1 = (Status.OK, "i")) ∧
    (GetPartial (PageGetSnapshot [("name", "Alice")]) "favorite book" 0 (-1)).1 =
      Status.KEY_NOT_FOUND ∧
    ((GetPartial (PageGetSnapshot [("name", "Alice")]) "name" (-3) 1).1 = Status.OK ∧
      (((5 : Nat) : Int) ≤ -3 →
        (GetPartial (PageGetSnapshot [("name", "Alice")]) "name" (-3) 1).2 = "") ∧
      (-3 < ((5 : Nat) : Int) → ∃ before after,
        "Alice".data =
          before ++ (GetPartial (PageGetSnapshot [("name", "Alice")]) "name" (-3) 1).2.data ++
            after ∧
        (before.length : Int) = (if (-3 : Int) < 0 then ((5 : Nat) : Int) + -3 else -3) ∧
        (((1 : Int) = -1 ∨ ((5 : Nat) : Int) - before.length ≤ 1) → after = []) ∧
        (((1 : Int) ≠ -1 ∧ 1 < ((5 : Nat) : Int) - before.length) →
          ((GetPartial (PageGetSnapshot [("name", "Alice")]) "name" (-3) 1).2.length : Int) =
            1))) :=
  ⟨by decide,
    (get_partial_returns_the_slice (PageGetSnapshot [("name", "Alice")]) "favorite book" 0
      (-1)).1 (by decide),
    (get_partial_returns_the_slice (PageGetSnapshot [("name", "Alice")]) "name" (-3) 1).2
      "Alice" (by decide) (by decide) (by decide)⟩

theorem mem_keys_upsert {α : Type} (k key : Key) (v : α) (m : List (Key × α)) :
    k ∈ (upsert key v m).map Prod.fst ↔ k = key ∨ k ∈ m.map Prod.fst := by
  induction m with
  | nil => simp [upsert]
  | cons e rest ih =>
    obtain ⟨k0, x⟩ := e
    unfold upsert
    split_ifs with h1 h2
    · subst h1; simp
    · simp
    · simp only [List.map_cons, List.mem_cons, ih]
      tauto

/-- The snapshot after a sequence of puts is ascending and has the keys put. -/
theorem PageGetSnapshot_keys (puts : List (Key × Value)) :
    Ascending (PageGetSnapshot puts) ∧
    ∀ k, k ∈ (PageGetSnapshot puts).map Prod.fst ↔ k ∈ puts.map Prod.fst := by
  unfold PageGetSnapshot
  have h : ∀ (page : PageSnapshot), Ascending page →
      Ascending (puts.foldl (fun page p => upsert p.1 p.2 page) page) ∧
      ∀ k, k ∈ (puts.foldl (fun page p => upsert p.1 p.2 page) page).map Prod.fst ↔
        k ∈ puts.map Prod.fst ∨ k ∈ page.map Prod.fst := by
    induction puts with
    | nil => intro page hp; exact ⟨hp, by simp⟩
    | cons p rest ih =>
      intro page hp
      obtain ⟨h1, h2⟩ := ih (upsert p.1 p.2 page) (storage.Model.upsert_ascending _ _ _ hp)
      refine ⟨h1, fun k => ?_⟩
      rw [List.foldl_cons, h2 k, mem_keys_upsert]
      simp only [List.map_cons, List.mem_cons]
      tauto
  obtain ⟨h1, h2⟩ := h [] (by simp [Ascending])
  exact ⟨h1, fun k => by simpa using h2 k⟩

theorem find_of_mem {α : Type} (m : List (Key × α)) (hasc : Ascending m) (e : Key × α)
    (he : e ∈ m) : find e.1 m = some e.2 := by
  induction m with
  | nil => simp at he
  | cons e0 rest ih =>
    obtain ⟨k0, x⟩ := e0
    unfold Ascending at hasc
    rw [List.pairwise_cons] at hasc
    unfold find
    rcases List.mem_cons.1 he with rfl | he
    · simp
    · have hne : e.1 ≠ k0 := fun h =>
        storage.Model.keyLt_irrefl k0 (h ▸ hasc.1 e he)
      simp only [hne, if_false]
      exact ih hasc.2 he

theorem GetKeys_ascending (snapshot : PageSnapshot) (pfx : Key) (hasc : Ascending snapshot) :
    (GetKeys snapshot pfx).Pairwise keyLt := by
  unfold GetKeys
  rw [List.pairwise_map]
  exact List.Pairwise.filter _ hasc

theorem mem_GetKeys (snapshot : PageSnapshot) (pfx k : Key) :
    k ∈ GetKeys snapshot pfx ↔ k ∈ snapshot.map Prod.fst ∧ pfx.data <+: k.data := by
  unfold GetKeys
  simp only [List.mem_map, List.mem_filter, List.isPrefixOf_iff_prefix]
  constructor
  · rintro ⟨e, ⟨he, hp⟩, rfl⟩
    exact ⟨⟨e, he, rfl⟩, hp⟩
  · rintro ⟨⟨e, he, rfl⟩, hp⟩
    exact ⟨e, ⟨he, hp⟩, rfl⟩

/-- Two strictly ascending lists of keys with the same elements are equal. -/
theorem ascending_ext (l1 l2 : List Key) (h1 : l1.Pairwise keyLt) (h2 : l2.Pairwise keyLt)
    (h : ∀ k, k ∈ l1 ↔ k ∈ l2) : l1 = l2 := by
  have nd : ∀ l : List Key, l.Pairwise keyLt → l.Nodup := by
    intro l hl
    unfold List.Nodup
    refine hl.imp ?_
    intro a b hab heq
    rw [heq] at hab
    exact storage.Model.keyLt_irrefl b hab
  haveI : IsAntisymm Key keyLt :=
    ⟨fun _ b hab hba =>
      absurd (storage.Model.keyLt_trans hba hab) (storage.Model.keyLt_irrefl b)⟩
  exact List.eq_of_perm_of_sorted ((List.perm_ext_iff_of_nodup (nd l1 h1) (nd l2 h2)).2 h) h1 h2

/-- C16: for the snapshot of a page after any sequence of puts and every prefix,
`GetKeys` returns keys in strictly ascending byte order; a key is returned exactly
when it was put and starts with the prefix; the empty prefix gives all keys, a
prefix no key starts with gives none; two sequences of puts with the same keys, in
whatever order, give the same result.  `GetEntries` returns the same keys in the
same order, each with the value the snapshot holds for it. -/
theorem get_keys_returns_matching_keys_in_order (puts : List (Key × Value)) (pfx : Key) :
    (GetKeys (PageGetSnapshot puts) pfx).Pairwise keyLt ∧
    (∀ k, k ∈ GetKeys (PageGetSnapshot puts) pfx ↔
      k ∈ puts.map Prod.fst ∧ pfx.data <+: k.data) ∧
    GetKeys (PageGetSnapshot puts) "" = (PageGetSnapshot puts).map Prod.fst ∧
    ((∀ k ∈ puts.map Prod.fst, ¬ pfx.data <+: k.data) →
      GetKeys (PageGetSnapshot puts) pfx = []) ∧
    (∀ other : List (Key × Value),
      (∀ k, k ∈ other.map Prod.fst ↔ k ∈ puts.map Prod.fst) →
      GetKeys (PageGetSnapshot other) pfx = GetKeys (PageGetSnapshot puts) pfx) ∧
    (GetEntries (PageGetSnapshot puts) pfx).map Prod.fst = GetKeys (PageGetSnapshot puts) pfx ∧
    ∀ e ∈ GetEntries (PageGetSnapshot puts) pfx, find e.1 (PageGetSnapshot puts) = some e.2 := by
  obtain ⟨hasc, hkeys⟩ := PageGetSnapshot_keys puts
  have hmem : ∀ (l : List (Key × Value)) (k : Key), k ∈ GetKeys (PageGetSnapshot l) pfx ↔
      k ∈ l.map Prod.fst ∧ pfx.data <+: k.data := by
    intro l k
    rw [mem_GetKeys, (PageGetSnapshot_keys l).2 k]
  refine ⟨GetKeys_ascending _ _ hasc, hmem puts, ?_, ?_, ?_, rfl, ?_⟩
  · unfold GetKeys
    congr 1
    apply List.filter_eq_self.2
    intro e _
    simp [ List.isPrefixOf_iff_prefix]
  · intro hnone
    apply List.eq_nil_iff_forall_not_mem.2
    intro k hk
    exact hnone k ((hmem puts k).1 hk).1 ((hmem puts k).1 hk).2
  · intro other hsame
    apply ascending_ext _ _ (GetKeys_ascending _ _ (PageGetSnapshot_keys other).1)
      (GetKeys_ascending _ _ hasc)
    intro k
    rw [hmem other k, hmem puts k, hsame k]
  · intro e he
    exact find_of_mem _ hasc e (List.mem_filter.1 he).1

/-- C16 at the inputs of the integration tests: four keys with shared starts, read back
with the starts of the tests, and four keys put in an order that is not ascending. -/
theorem get_keys_returns_matching_keys_in_order_witness :
    GetKeys (PageGetSnapshot [("000a", "1"), ("001b", "2"), ("010c", "3"), ("011d", "4")]) "" =
      ["000a", "001b", "010c", "011d"] ∧
    GetKeys (PageGetSnapshot [("000a", "1"), ("001b", "2"), ("010c", "3"), ("011d", "4")]) "0" =
      ["000a", "001b", "010c", "011d"] ∧
    GetKeys (PageGetSnapshot [("000a", "1"), ("001b", "2"), ("010c", "3"), ("011d", "4")]) "00" =
      ["000a", "001b"] ∧
    GetKeys (PageGetSnapshot [("000a", "1"), ("001b", "2"), ("010c", "3"), ("011d", "4")])
      "010" = ["010c"] ∧
    GetEntries (PageGetSnapshot [("000a", "1"), ("001b", "2"), ("010c", "3"), ("011d", "4")])
      "01" = [("010c", "3"), ("011d", "4")] ∧
    GetKeys (PageGetSnapshot [("2x", "1"), ("5y", "2"), ("3z", "3"), ("0w", "4")]) "" =
      ["0w", "2x", "3z", "5y"] ∧
    GetEntries (PageGetSnapshot [("2x", "1"), ("5y", "2"), ("3z", "3"), ("0w", "4")]) "" =
      [("0w", "4"), ("2x", "1"), ("3z", "3"), ("5y", "2")] ∧
    GetKeys (PageGetSnapshot [("000a", "1"), ("001b", "2"), ("010c", "3"), ("011d", "4")]) "5" =
      [] :=
  ⟨by decide, by decide, by decide, by decide, by decide, by decide, by decide,
    (get_keys_returns_matching_keys_in_order
      [("000a", "1"), ("001b", "2"), ("010c", "3"), ("011d", "4")] "5").2.2.2.1 (by decide)⟩

end ledger

namespace storage

open JournalDBImpl

variable {σ : Type}

/-- C17: for an open journal with a second parent (`other_` set), once both parents
are found, the entries read and the changes applied, `Commit` goes on to
`AddCommitFromLocal` with the commit built from the new root and the two
parents, whatever the new root is, the root of the first parent included.
The no-op return is not taken: the call that follows `ApplyChanges` is
`AddCommitFromLocal`, all later calls are those of `ClearCommittedJournal`,
`Rollback` is not run, and the journal is closed as after any new commit. -/
theorem merge_commit_is_never_a_noop (E : Backend σ) (j : JournalDBImpl)
    (w w1 w2 w3 w4 : World σ) (other : CommitId) (pb po : Commit)
    (entries : List EntryChange) (object_id : ObjectId) (new_nodes : List ObjectId)
    (hopen : j.state = JournalState.OPEN) (hother : j.other_ = some other)
    (hb : PageStorage.GetCommit E j.base_ w = ((Status.OK, pb), w1))
    (ho : PageStorage.GetCommit E other w1 = ((Status.OK, po), w2))
    (he : DB.GetJournalEntries E j.id_ w2 = ((Status.OK, entries), w3))
    (ha : btree.ApplyChanges E pb.root_id entries w3 =
      ((Status.OK, object_id, new_nodes), w4)) :
    j.Commit E w =
      j.commitNew E (E.FromContentAndParents object_id [pb, po] w4.st) new_nodes w4 ∧
    (∃ post, (j.Commit E w).2.2.since w =
        [Call.GetCommit j.base_, Call.GetCommit other, Call.GetJournalEntries j.id_,
          Call.ApplyChanges pb.root_id entries,
          Call.AddCommitFromLocal (E.FromContentAndParents object_id [pb, po] w4.st)] ++ post ∧
      post.all Call.isClear = true) ∧
    (j.Commit E w).2.1 = j.closed ∧
    ((j.Commit E w).1.1 = Status.OK →
      (j.Commit E w).1.2 = some (E.FromContentAndParents object_id [pb, po] w4.st)) := by
  have hrej : j.rejects = false := (state_open_iff j).1 hopen
  have hgp := GetParents_pair E j w w1 w2 other pb po hother hb ho
  have hc := Commit_prepared E j w w2 w3 w4 pb [po] entries object_id new_nodes hrej hgp he ha
  have hlen : ¬ (([pb, po] : List Commit).length = 1 ∧ pb.root_id = object_id) := by simp
  rw [if_neg hlen] at hc
  have e1 : w1.calls = w.calls ++ [Call.GetCommit j.base_] := by
    rw [← GetCommit_calls E j.base_ w, hb]
  have e2 : w2.calls = w1.calls ++ [Call.GetCommit other] := by
    rw [← GetCommit_calls E other w1, ho]
  have e3 : w3.calls = w2.calls ++ [Call.GetJournalEntries j.id_] := by
    rw [← GetJournalEntries_calls E j.id_ w2, he]
  have e4 : w4.calls = w3.calls ++ [Call.ApplyChanges pb.root_id entries] := by
    rw [← ApplyChanges_calls E pb.root_id entries w3, ha]
  obtain ⟨post, hpost, hclear⟩ := commitNew_calls E j
    (E.FromContentAndParents object_id [pb, po] w4.st) new_nodes w4
  refine ⟨hc, ⟨post, ?_, hclear⟩, ?_, ?_⟩
  · apply since_append
    rw [hc, hpost, e4, e3, e2, e1]
    simp
  · rw [hc]; exact commitNew_journal E j _ new_nodes w4
  · intro hok
    rw [hc] at hok ⊢
    rw [(commitNew_ok E j _ new_nodes w4 hok).2.2]

/-- C17 at a concrete input: the merge journal of two heads with nothing staged.
The root handed back is the root of the first parent, and a new commit with
both parents is added and becomes the only head. -/
theorem merge_commit_is_never_a_noop_witness :
    (Scenario.mergeJournal.Commit Model.backend Scenario.committedB.2.2).1 =
      (Status.OK, some (Model.FromContentAndParents "name=Alice!;"
        [Model.FromContentAndParents "name=Alice!;" [Model.genesis],
          Model.FromContentAndParents "name=Bob!;" [Model.genesis]])) ∧
    (Scenario.mergeJournal.Commit Model.backend Scenario.committedB.2.2).2.2.st.heads =
      [(Model.FromContentAndParents "name=Alice!;"
        [Model.FromContentAndParents "name=Alice!;" [Model.genesis],
          Model.FromContentAndParents "name=Bob!;" [Model.genesis]]).id] ∧
    (Scenario.mergeJournal.Commit Model.backend Scenario.committedB.2.2).2.1 =
      Scenario.mergeJournal.closed :=
  ⟨by decide, by decide,
    (merge_commit_is_never_a_noop Model.backend Scenario.mergeJournal Scenario.committedB.2.2
      (PageStorage.GetCommit Model.backend Scenario.headA Scenario.committedB.2.2).2
      (PageStorage.GetCommit Model.backend Scenario.headB
        (PageStorage.GetCommit Model.backend Scenario.headA Scenario.committedB.2.2).2).2
      (DB.GetJournalEntries Model.backend "jm"
        (PageStorage.GetCommit Model.backend Scenario.headB
          (PageStorage.GetCommit Model.backend Scenario.headA Scenario.committedB.2.2).2).2).2
      (btree.ApplyChanges Model.backend "name=Alice!;" []
        (DB.GetJournalEntries Model.backend "jm"
          (PageStorage.GetCommit Model.backend Scenario.headB
            (PageStorage.GetCommit Model.backend Scenario.headA
              Scenario.committedB.2.2).2).2).2).2
      Scenario.headB
      (Model.FromContentAndParents "name=Alice!;" [Model.genesis])
      (Model.FromContentAndParents "name=Bob!;" [Model.genesis])
      [] "name=Alice!;" [] (by decide) rfl rfl rfl rfl rfl).2.2.1⟩

/-- The calls of a new commit: when `Commit` returns OK and has called
`AddCommitFromLocal` (a new commit),
the calls that follow `ApplyChanges` are, in this order: `AddCommitFromLocal` of
the commit built from the root id `ApplyChanges` produced; `GetJournalValues`;
in one batch `MarkObjectIdUnsynced` on every new node `ApplyChanges` produced
and then on every value of the journal; the execution of the batch;
`MarkObjectTracked` on every value of the journal; `RemoveJournal` of the
journal.  The commit returned is that commit, and the journal is CLOSED. -/
theorem new_commit_clears_journal (E : Backend σ) (j : JournalDBImpl) (w : World σ)
    (hok : (j.Commit E w).1.1 = Status.OK)
    (hnew : ((j.Commit E w).2.2.since w).any Call.isAddCommit = true) :
    ∃ (parents : List Commit) (root_id : ObjectId) (entries : List EntryChange)
      (wa wv : World σ) (pre : List Call),
      (btree.ApplyChanges E root_id entries wa).1.1 = Status.OK ∧
      (DB.GetJournalValues E j.id_ wv).1.1 = Status.OK ∧
      (j.Commit E w).1.2 =
        some (E.FromContentAndParents (btree.ApplyChanges E root_id entries wa).1.2.1 parents
          (btree.ApplyChanges E root_id entries wa).2.st) ∧
      (j.Commit E w).2.2.since w =
        pre ++ ([Call.ApplyChanges root_id entries,
          Call.AddCommitFromLocal
            (E.FromContentAndParents (btree.ApplyChanges E root_id entries wa).1.2.1 parents
              (btree.ApplyChanges E root_id entries wa).2.st),
          Call.GetJournalValues j.id_, Call.StartBatch] ++
          (btree.ApplyChanges E root_id entries wa).1.2.2.map Call.MarkObjectIdUnsynced ++
          (DB.GetJournalValues E j.id_ wv).1.2.map Call.MarkObjectIdUnsynced ++
          [Call.BatchExecute] ++
          (DB.GetJournalValues E j.id_ wv).1.2.map Call.MarkObjectTracked ++
          [Call.RemoveJournal j.id_, Call.BatchDestroy]) ∧
      (j.Commit E w).2.1.state = JournalState.CLOSED := by
  obtain ⟨hrej, h1, h2, front, rest, hp, h3⟩ := Commit_ok_steps E j w hok
  have hvalid : j.valid_ = true := by
    simp only [rejects, Bool.or_eq_false_iff, Bool.not_eq_false'] at hrej
    exact hrej.1
  have hce := Commit_prepared_proj E j w front rest hrej h1 h2 hp h3
  obtain ⟨others, hgc, hoth⟩ := GetParents_lookups E j w
  generalize hwe : DB.GetJournalEntries E j.id_ (GetParents E j w).2 = ge at hce h3
  have hgecalls : ge.2.calls = w.calls ++ (Call.GetCommit j.base_ :: others ++
      [Call.GetJournalEntries j.id_]) := by
    rw [← hwe, GetJournalEntries_calls, hgc]; simp
  split_ifs at hce with hnoop
  · exfalso
    rcases Rollback_calls E j (FTL_DCHECK
        (btree.ApplyChanges E front.root_id ge.1.2 ge.2).1.2.2.isEmpty
        (btree.ApplyChanges E front.root_id ge.1.2 ge.2).2) with hr | hr
    all_goals
      rw [since_append _ w _ (by
        rw [hce, hr, DCHECK_calls, ApplyChanges_calls, hgecalls]
        simp only [List.append_assoc]
        rfl)] at hnew
      simp [Call.isAddCommit, hoth] at hnew
  · have hnewok := hce ▸ hok
    obtain ⟨hadd, hclr, hres⟩ := commitNew_ok E j _ _ _ hnewok
    obtain ⟨hvals, hclrcalls⟩ := ClearCommittedJournal_ok E j.closed _ _ hclr
    have hid : j.closed.id_ = j.id_ := rfl
    rw [hid] at hvals hclrcalls
    refine ⟨front :: rest, front.root_id, ge.1.2, ge.2, _,
      Call.GetCommit j.base_ :: others ++ [Call.GetJournalEntries j.id_], h3, hvals, ?_, ?_, ?_⟩
    · rw [hce, hres]
    · apply since_append
      rw [hce, hres]
      simp only [hclrcalls, AddCommitFromLocal_calls, ApplyChanges_calls, hgecalls,
        List.append_assoc, List.cons_append, List.nil_append, List.singleton_append]
    · rw [hce, hres]
      exact (state_closed_iff _).2 rfl

/-- The calls of a new commit at a concrete input: the journal with the untracked
object "Alice" staged under
"name".  `Commit` returns OK with the new commit of root "name=Alice!;"; the new
node and "Alice" are unsynced, no object is untracked, nothing is staged, and the
journal is CLOSED. -/
theorem new_commit_clears_journal_witness :
    (Scenario.commitUntracked.1 =
        (Status.OK, some (Model.FromContentAndParents "name=Alice!;" [Model.genesis])) ∧
      (Model.FromContentAndParents "name=Alice!;" [Model.genesis]).root_id = "name=Alice!;" ∧
      Scenario.commitUntracked.2.2.since Scenario.stagedUntracked.2.2 =
        [Call.GetCommit "genesis", Call.GetJournalEntries "j",
          Call.ApplyChanges ""
            [EntryChange.put
              { key := "name", object_id := "Alice", priority := KeyPriority.EAGER }],
          Call.AddCommitFromLocal (Model.FromContentAndParents "name=Alice!;" [Model.genesis]),
          Call.GetJournalValues "j", Call.StartBatch,
          Call.MarkObjectIdUnsynced "name=Alice!;", Call.MarkObjectIdUnsynced "Alice",
          Call.BatchExecute, Call.MarkObjectTracked "Alice", Call.RemoveJournal "j",
          Call.BatchDestroy] ∧
      Scenario.commitUntracked.2.2.st.unsynced = ["name=Alice!;", "Alice"] ∧
      Scenario.stagedUntracked.2.2.st.untracked = ["Alice"] ∧
      Scenario.commitUntracked.2.2.st.untracked = [] ∧
      Scenario.commitUntracked.2.2.st.entries "j" = [] ∧
      Scenario.commitUntracked.2.2.st.counters "j" = []) ∧
    (Scenario.stagedUntracked.2.1.Commit Model.backend Scenario.stagedUntracked.2.2).2.1.state =
      JournalState.CLOSED :=
  ⟨by decide,
    (new_commit_clears_journal Model.backend Scenario.stagedUntracked.2.1
      Scenario.stagedUntracked.2.2 (by decide) (by decide)).elim
      (fun _ h => h.elim (fun _ h => h.elim (fun _ h => h.elim (fun _ h => h.elim
        (fun _ h => h.elim (fun _ h => h.2.2.2.2))))))⟩

/-- C18 at the failing input: the `Commit` of the journal with the untracked object
"Alice" staged under "name", in which the final `RemoveJournal` reports IO_ERROR.
`ClearCommittedJournal` drops that status: `Commit` returns OK with the new commit,
the objects are marked and the journal is CLOSED, but the staged entry and the
counter of the journal are still stored, and `Rollback` on the closed journal is
rejected.  In the same `Commit` without the failure nothing is left staged. -/
theorem commit_ok_keeps_staged_state_when_removal_fails :
    Scenario.commitWithFailedRemove.1 =
      (Status.OK, some (Model.FromContentAndParents "name=Alice!;" [Model.genesis])) ∧
    (Scenario.commitWithFailedRemove.2.2.since Scenario.stagedUntracked.2.2).any
      Call.isAddCommit = true ∧
    Scenario.commitWithFailedRemove.2.2.since Scenario.stagedUntracked.2.2 =
      [Call.GetCommit "genesis", Call.GetJournalEntries "j",
        Call.ApplyChanges ""
          [EntryChange.put
            { key := "name", object_id := "Alice", priority := KeyPriority.EAGER }],
        Call.AddCommitFromLocal (Model.FromContentAndParents "name=Alice!;" [Model.genesis]),
        Call.GetJournalValues "j", Call.StartBatch,
        Call.MarkObjectIdUnsynced "name=Alice!;", Call.MarkObjectIdUnsynced "Alice",
        Call.BatchExecute, Call.MarkObjectTracked "Alice", Call.RemoveJournal "j",
        Call.BatchDestroy] ∧
    (DB.RemoveJournal Model.backend "j"
      (Scenario.withFaults Scenario.stagedUntracked.2.2 [Status.IO_ERROR])).1 =
      Status.IO_ERROR ∧
    Scenario.commitWithFailedRemove.2.1.state = JournalState.CLOSED ∧
    Scenario.commitWithFailedRemove.2.2.st.unsynced = ["name=Alice!;", "Alice"] ∧
    Scenario.commitWithFailedRemove.2.2.st.untracked = [] ∧
    Scenario.commitWithFailedRemove.2.2.st.entries "j" =
      [("name", some ("Alice", KeyPriority.EAGER))] ∧
    Scenario.commitWithFailedRemove.2.2.st.counters "j" = [("Alice", 1)] ∧
    (Scenario.commitWithFailedRemove.2.1.Rollback Model.backend
      Scenario.commitWithFailedRemove.2.2).1 = Status.ILLEGAL_STATE ∧
    Scenario.commitUntracked.1 =
      (Status.OK, some (Model.FromContentAndParents "name=Alice!;" [Model.genesis])) ∧
    Scenario.commitUntracked.2.2.st.entries "j" = [] ∧
    Scenario.commitUntracked.2.2.st.counters "j" = [] := by
  decide

end storage
